import Mathlib

/-!
# Herbgrind shadow-value engine: a verification development

Shallow embedding of the parts of the Herbgrind sources that the checked
properties talk about, followed by the theorems.

Conventions of the embedding

* A C pointer is a natural number; `0` is `NULL`.
* The heap of `ShadowValue` boxes and the heap of `ShadowTemp` records are
  total maps from addresses to records; a C assignment through a pointer is a
  point update of the map.
* `ref_count` is a natural number: the width of the field is declared in a
  header that is not part of the sources at hand, and a wrap-around would need
  as many live references as the counter has values.
* The arbitrary-precision `real` of a value is an integer token, and so is a
  concrete double where it is only stored. Where doubles are compared,
  subtracted or converted they are values of `CDouble`.
-/

namespace Herbgrind

/-! ## Runtime value pool (`runtime/value-shadowstate/value-shadowstate.c`) -/

/-- Float-kind tag of a shadow value. -/
inductive FloatType where
  | Ft_Unknown
  | Ft_Single
  | Ft_Double
  deriving DecidableEq, Repr

/-- A `ShadowValue` box.  `next` is the link used while the box sits on the
`freedVals` stack (`stack_push_fast` writes `item_node->next`);
`influences = none` is the null influence list. -/
structure ShadowValue where
  next : Nat
  real : Int
  type : FloatType
  influences : Option (List Nat)
  ref_count : Nat
  deriving DecidableEq, Repr

/-- A `ShadowTemp`: `num_vals` value pointers; `next` is its stack link. -/
structure ShadowTemp where
  next : Nat
  num_vals : Nat
  values : List Nat
  deriving DecidableEq, Repr

/-- The global shadow state of `value-shadowstate.c` for the running thread. -/
structure State where
  /-- heap of shadow values, by address -/
  vals : Nat → ShadowValue
  /-- heap of shadow temps, by address -/
  temps : Nat → ShadowTemp
  /-- `shadowTemps[MAX_TEMPS]` -/
  shadowTemps : Nat → Nat
  /-- `shadowThreadState[VG_(get_running_tid)()]` -/
  shadowThreadState : Nat → Nat
  /-- `freedTemps[i]->head` -/
  freedTemps : Nat → Nat
  /-- `freedVals->head` -/
  freedVals : Nat
  /-- next address handed out by the allocator behind `newShadowValue` -/
  brk : Nat

/-- Point update of a heap or table. -/
def upd {α : Type} (f : Nat → α) (a : Nat) (v : α) : Nat → α :=
  fun x => if x = a then v else f x

/-- State after `initValueShadowState`: every stack is the empty `mkStack()`,
the global tables are zero-initialised. -/
def initValueShadowState : State where
  vals := fun _ => ⟨0, 0, FloatType.Ft_Unknown, none, 0⟩
  temps := fun _ => ⟨0, 0, []⟩
  shadowTemps := fun _ => 0
  shadowThreadState := fun _ => 0
  freedTemps := fun _ => 0
  freedVals := 0
  brk := 1

/-- Emptiness test of a stack given its head (`stack_empty`). -/
def stack_empty (head : Nat) : Bool := head == 0

/-- Code of `stack_push_fast(freedVals, item_node)`:
`item_node->next = s->head; s->head = item_node`. -/
def stack_push_fast (s : State) (item_node : Nat) : State :=
  { s with
    vals := upd s.vals item_node { s.vals item_node with next := s.freedVals }
    freedVals := item_node }

/-- Code of `stack_pop_fast(freedVals)`: returns the old head and makes its
`next` the new head. -/
def stack_pop_fast (s : State) : State × Nat :=
  let oldHead := s.freedVals
  ({ s with freedVals := (s.vals oldHead).next }, oldHead)

/-- Code of `freeShadowValue` in `value-shadowstate.c`: drop the influence list
if there is one, then push the box on `freedVals`. -/
def freeShadowValue (s : State) (val : Nat) : State :=
  let s1 : State :=
    if (s.vals val).influences ≠ none then
      { s with vals := upd s.vals val { s.vals val with influences := none } }
    else s
  stack_push_fast s1 val

/-- Modelled from the spec: `newShadowValue(type)` is declared in a header
and defined in a file that is not among the sources; it returns a fresh box
of the given kind ("values are recycled, not freed", so a box is new exactly
when the free-list is empty).  The fresh address is taken from `brk`. -/
def newShadowValue (s : State) (type : FloatType) : State × Nat :=
  let p := s.brk
  ({ s with
     vals := upd s.vals p ⟨0, 0, type, none, 0⟩
     brk := p + 1 }, p)

/-- Code of `mkShadowValueBare(type)`. -/
def mkShadowValueBare (s : State) (type : FloatType) : State × Nat :=
  let r : State × Nat :=
    if stack_empty s.freedVals then
      newShadowValue s type
    else
      let r0 := stack_pop_fast s
      ({ r0.1 with vals := upd r0.1.vals r0.2 { r0.1.vals r0.2 with type := type } }, r0.2)
  ({ r.1 with vals := upd r.1.vals r.2 { r.1.vals r.2 with ref_count := 1 } }, r.2)

/-- Code of `mkShadowValue(type, value)`: a bare value whose real is set from
the concrete value (`setReal`). -/
def mkShadowValue (s : State) (type : FloatType) (value : Int) : State × Nat :=
  let r := mkShadowValueBare s type
  ({ r.1 with vals := upd r.1.vals r.2 { r.1.vals r.2 with real := value } }, r.2)

/-- Code of `ownShadowValue(val)`. -/
def ownShadowValue (s : State) (val : Nat) : State :=
  if val = 0 then s
  else { s with vals := upd s.vals val
                  { s.vals val with ref_count := (s.vals val).ref_count + 1 } }

/-- Code of `disownShadowValue(val)`. -/
def disownShadowValue (s : State) (val : Nat) : State :=
  if val = 0 then s
  else if (s.vals val).ref_count < 2 then
    freeShadowValue s val
  else
    { s with vals := upd s.vals val
               { s.vals val with ref_count := (s.vals val).ref_count - 1 } }

/-- One call of the pool interface. -/
inductive Call where
  | mkShadowValueBare (type : FloatType)
  | mkShadowValue (type : FloatType) (value : Int)
  | ownShadowValue (val : Nat)
  | disownShadowValue (val : Nat)
  deriving DecidableEq, Repr

/-- Effect of one call on the state, recording the boxes handed out by the
two constructors. -/
def stepCall (c : State × List Nat) : Call → State × List Nat
  | Call.mkShadowValueBare t =>
      let r := mkShadowValueBare c.1 t
      (r.1, r.2 :: c.2)
  | Call.mkShadowValue t v =>
      let r := mkShadowValue c.1 t v
      (r.1, r.2 :: c.2)
  | Call.ownShadowValue p => (ownShadowValue c.1 p, c.2)
  | Call.disownShadowValue p => (disownShadowValue c.1 p, c.2)

/-- Run a sequence of calls. -/
def runCalls (c : State × List Nat) (calls : List Call) : State × List Nat :=
  calls.foldl stepCall c

/-- The `n`-th node met when walking the `freedVals` stack from its head
(`0` once the end is passed). -/
def walkFreedVals (s : State) : Nat → Nat
  | 0 => s.freedVals
  | n + 1 =>
      if walkFreedVals s n = 0 then 0 else (s.vals (walkFreedVals s n)).next

/-- Box `p` is on the `freedVals` free-list. -/
def onFreedVals (s : State) (p : Nat) : Prop :=
  p ≠ 0 ∧ ∃ n, walkFreedVals s n = p

/-- Modelled from the spec: `stack_push` is defined in a stack helper that is
not among the sources; as its fast variant `stack_push_fast` above it links
the item in front of the head.  This is `freeShadowTemp` of
`value-shadowstate.c`: `stack_push(freedTemps[temp->num_vals - 1], temp)`. -/
def freeShadowTemp (s : State) (temp : Nat) : State :=
  let k := (s.temps temp).num_vals - 1
  { s with
    temps := upd s.temps temp { s.temps temp with next := s.freedTemps k }
    freedTemps := upd s.freedTemps k temp }

/-- Body of the loop over `j` in `dynamicCleanup`, with the block structure
that the braces of the source give: the brace opened by `if (print_moves){`
is closed after the call of `disownShadowValue`, and the brace opened by
`for(int j ...){` is closed after `shadowTemps[entries[i]] = NULL`.  The
`VG_(printf)` calls and the flag `hasEntriesToCleanup` that only steers them
have no effect on the shadow state and are left out. -/
def dynamicCleanupBody (print_moves : Bool) (entry temp : Nat) (s : State) (j : Nat) :
    State :=
  let s1 := if print_moves then disownShadowValue s ((s.temps temp).values.getD j 0) else s
  let s2 := freeShadowTemp s1 temp
  { s2 with shadowTemps := upd s2.shadowTemps entry 0 }

/-- One iteration of the loop over `i` in `dynamicCleanup`. -/
def dynamicCleanupEntry (print_moves : Bool) (s : State) (entry : Nat) : State :=
  let temp := s.shadowTemps entry
  if temp = 0 then s
  else (List.range (s.temps temp).num_vals).foldl (dynamicCleanupBody print_moves entry temp) s

/-- Code of `dynamicCleanup(nentries, entries)`. -/
def dynamicCleanup (print_moves : Bool) (s : State) (nentries : Nat) (entries : List Nat) :
    State :=
  (List.range nentries).foldl
    (fun st i => dynamicCleanupEntry print_moves st (entries.getD i 0)) s

/-- Body of the loop of `dynamicPut(tsDest, st)`.  The source reads
`val->type` without a null test, so `st` is expected to hold non-null
values. -/
def dynamicPutBody (tsDest st : Nat) (s : State) (i : Nat) : State :=
  let val := (s.temps st).values.getD i 0
  let size := if (s.vals val).type = FloatType.Ft_Single then 4 else 8
  let s1 : State :=
    { s with shadowThreadState := upd s.shadowThreadState (tsDest + i * size) val }
  let s2 : State :=
    if (s1.vals val).type = FloatType.Ft_Double then
      { s1 with shadowThreadState := upd s1.shadowThreadState (tsDest + (i + 1) * size) 0 }
    else s1
  ownShadowValue s2 val

/-- Code of `dynamicPut(tsDest, st)`. -/
def dynamicPut (s : State) (tsDest st : Nat) : State :=
  (List.range (s.temps st).num_vals).foldl (dynamicPutBody tsDest st) s

/-- A state in which IR temp 3 is shadowed by the temp at address 10, whose
`n` values are the boxes 1 .. n, each a double with two references. -/
def stateDebtedTemp (n : Nat) : State :=
  { initValueShadowState with
    vals := fun a =>
      if 1 ≤ a ∧ a ≤ n then ⟨0, 0, FloatType.Ft_Double, none, 2⟩
      else initValueShadowState.vals a
    temps := upd initValueShadowState.temps 10 ⟨0, n, (List.range n).map (· + 1)⟩
    shadowTemps := upd initValueShadowState.shadowTemps 3 10
    brk := n + 1 }

/-- A state with a double value at address 1 (one reference) held by the
one-value temp at address 10, and single values at addresses 2 and 3 installed
in the register shadow at offsets 4 and 8. -/
def statePutDouble : State :=
  { initValueShadowState with
    vals := upd (upd (upd initValueShadowState.vals
      1 ⟨0, 0, FloatType.Ft_Double, none, 1⟩)
      2 ⟨0, 0, FloatType.Ft_Single, none, 1⟩)
      3 ⟨0, 0, FloatType.Ft_Single, none, 1⟩
    temps := upd initValueShadowState.temps 10 ⟨0, 1, [1]⟩
    shadowThreadState := upd (upd initValueShadowState.shadowThreadState 4 2) 8 3
    brk := 4 }

/-! ## Symbolic expressions (`herbgrind/types/hg_ast.c`) -/

/-- A C double as `mpfr_get_d` returns it and as the error records hold it: a
NaN, or the finite number `m * 2^e` (every finite double has this form, the two
zeros are the same number). Infinities are not represented. -/
inductive CDouble where
  | nan
  | num (m : Int) (e : Int)
  deriving DecidableEq, Repr

/-- The number `m * 2^e` counted in units of `2^e0`, for `e0 ≤ e`. -/
def CDouble.scaled (m e e0 : Int) : Int := m * 2 ^ (e - e0).toNat

/-- The C comparison `==` on doubles: a NaN equals nothing, two numbers are
compared by value. -/
def CDouble.ceq : CDouble → CDouble → Bool
  | CDouble.num a e, CDouble.num b f =>
    CDouble.scaled a e (min e f) == CDouble.scaled b f (min e f)
  | _, _ => false

/-- A node of the generalized op AST (`OpASTNode`), stored in a heap of nodes.
`Leaf val`: `val` is the `ShadowValue*` of the leaf, `0` for a variable.
`Branch op nargs args var_map`: `op` is the `Op_Info*`, `args` the child node
pointers, `var_map` the `XArray` of var groups, each group an `XArray` of
pointer-sized words (node pointers when well formed). -/
inductive OpASTNode where
  | Leaf (val : Nat)
  | Branch (op : Nat) (nargs : Nat) (args : List Nat) (var_map : List (List Nat))
  deriving DecidableEq, Repr

/-- A node of a per-trace value AST (`ValueASTNode`): `val` is its
`ShadowValue*`, `op` its `Op_Info*`, `args` its children (`nargs` is their
number).  An entry `(k, idx)` of `var_map` stands for the `ValVarMapEntry`
whose `varidx` is `idx` and for whose key leaf `convertValASTtoOpAST` returns
the op-AST node `k` (the `op->ast` of the leaf); entries are listed in the
order `VG_(HT_Next)` yields them. -/
inductive ValueASTNode where
  | mk (val : Nat) (op : Nat) (args : List ValueASTNode) (var_map : List (Nat × Nat))

/-- Lookup in a `VgHashTable` given as the list of its nodes, newest first
(`VG_(HT_add_node)` links a node at the head of its chain, `VG_(HT_lookup)`
returns the first match). -/
def HT_lookup (table : List (Nat × Nat)) (key : Nat) : Option Nat :=
  (table.find? (fun e => e.1 == key)).map (fun e => e.2)

/-- Code of `opLookupTable(valVarMap)`: one node per entry of the observed map,
keyed by the converted leaf, added in iteration order. -/
def opLookupTable (valVarMap : List (Nat × Nat)) : List (Nat × Nat) :=
  valVarMap.foldl (fun table e => (e.1, e.2) :: table) []

/-- The word `VG_(HT_lookup)` compares for a node of `splitMap`. The table takes
the machine word after the `next` link as the key of a node; an `IdxMapEntry` is
declared `{next; int key; int val;}`, so on the 64-bit little-endian target the
embedding follows elsewhere that word is made of both fields, `key` in its low
half and `val` in its high half. -/
def idxEntryKey (key val : Nat) : Nat := key % 2 ^ 32 + (val % 2 ^ 32) * 2 ^ 32

/-- Inner loop (over `j`) of `generalizeVarMap` for group `i`.

* `mem a` is the pointer-sized word stored at address `a`:
  `VG_(addToXA)(xa, elem)` copies the element that `elem` points to, and the
  source passes `curNode` itself as `elem` when it fills the new group.
* `none` is returned where the C code has no defined result: a node without
  an entry in the lookup table (`valOpEntry->varidx` through a null pointer),
  the call `VG_(addToXA)(VG_(indexXA)(opVarMap, splitEntry->val), curNode)`,
  which hands a slot of `opVarMap` to `addToXA` as if it were an `XArray`,
  and an exhausted iteration budget.
* `VG_(removeIndexXA)(*varGroupEntry, j--)` followed by the `++j` of the loop
  leaves `j` as it is.
* `splitMap` lists the nodes of the split table, newest first, as pairs of the
  word the table compares (`idxEntryKey key val`) and the field `val`. -/
def generalizeVarMapInner (mem : Nat → Nat) (table : List (Nat × Nat)) (i : Nat) :
    Nat → List (List Nat) → List (Nat × Nat) → Nat → Option (List (List Nat))
  | 0, _, _, _ => none
  | fuel + 1, opVarMap, splitMap, j =>
    let group := opVarMap.getD i []
    if j < group.length then
      let curNode := group.getD j 0
      match HT_lookup table curNode with
      | none => none
      | some varidx =>
        match HT_lookup splitMap varidx with
        | none =>
          let newGroup := [mem curNode]
          let newIndex := opVarMap.length
          let opVarMap1 := opVarMap ++ [newGroup]
          let splitMap1 := (idxEntryKey varidx newIndex, newIndex) :: splitMap
          let opVarMap2 := opVarMap1.set i (group.eraseIdx j)
          generalizeVarMapInner mem table i fuel opVarMap2 splitMap1 j
        | some v =>
          if v ≠ i then none
          else generalizeVarMapInner mem table i fuel opVarMap splitMap (j + 1)
    else some opVarMap

/-- Outer loop (over `i`) of `generalizeVarMap`; the bound `VG_(sizeXA)(opVarMap)`
is read again at every iteration.  `none` also stands for the failed
assertion of `VG_(indexXA)(*varGroupEntry, 0)` on an empty group. -/
def generalizeVarMapOuter (mem : Nat → Nat) (table : List (Nat × Nat)) :
    Nat → List (List Nat) → Nat → Option (List (List Nat))
  | 0, _, _ => none
  | fuel + 1, opVarMap, i =>
    if i < opVarMap.length then
      let group := opVarMap.getD i []
      match group.head? with
      | none => none
      | some firstNode =>
        match HT_lookup table firstNode with
        | none => none
        | some varidx =>
          match generalizeVarMapInner mem table i (group.length + 1) opVarMap
              [(idxEntryKey varidx i, i)] 1 with
          | none => none
          | some opVarMap1 => generalizeVarMapOuter mem table fuel opVarMap1 (i + 1)
    else some opVarMap

/-- Code of `generalizeVarMap(opVarMap, valVarMap)`.  The iteration budget is
the number of groups plus the number of members plus one: a group is added
only when a member is taken out of a group. -/
def generalizeVarMap (mem : Nat → Nat) (opVarMap : List (List Nat))
    (valVarMap : List (Nat × Nat)) : Option (List (List Nat)) :=
  generalizeVarMapOuter mem (opLookupTable valVarMap)
    (opVarMap.length + (opVarMap.map List.length).sum + 1) opVarMap 0

mutual
/-- Code of `generalizeAST(opast, valast)` on the heap `h` of op-AST nodes.
`get_d p` is `mpfr_get_d(p->value, MPFR_RNDN)` for the shadow value at `p`;
`firstWord n` is the pointer-sized word at the start of the record of a node
with contents `n` (see `generalizeVarMapInner`).  The children are taken from
the `args` array as it is on entry. -/
def generalizeAST (get_d : Nat → CDouble) (firstWord : OpASTNode → Nat)
    (h : Nat → OpASTNode) (opast : Nat) : ValueASTNode → Option (Nat → OpASTNode)
  | ValueASTNode.mk val op args var_map =>
    match h opast with
    | OpASTNode.Leaf lval =>
      if val = 0 ∨ lval = 0 ∨ CDouble.ceq (get_d val) (get_d lval) = true then some h
      else some (upd h opast (OpASTNode.Leaf 0))
    | OpASTNode.Branch bop nargs bargs bvar_map =>
      if op ≠ bop then some (upd h opast (OpASTNode.Leaf 0))
      else if bop ≠ 0 then
        match generalizeVarMap (fun a => firstWord (h a)) bvar_map var_map with
        | none => none
        | some vm =>
          generalizeASTArgs get_d firstWord
            (upd h opast (OpASTNode.Branch bop nargs bargs vm)) bargs args
      else some h
/-- The loop `for (i = 0; i < valast->nargs; ++i)` of `generalizeAST`; `none`
when the trace has more children than the `args` array of the node. -/
def generalizeASTArgs (get_d : Nat → CDouble) (firstWord : OpASTNode → Nat)
    (h : Nat → OpASTNode) : List Nat → List ValueASTNode → Option (Nat → OpASTNode)
  | _, [] => some h
  | [], _ :: _ => none
  | a :: rest, v :: vs =>
    match generalizeAST get_d firstWord h a v with
    | none => none
    | some h1 => generalizeASTArgs get_d firstWord h1 rest vs
end

/-- Var groups `G'` refine var groups `G`: every group of `G'` has at most
one distinct member or is contained in a group of `G`. -/
def varGroupsRefine (G G' : List (List Nat)) : Prop :=
  ∀ g' ∈ G', (∃ a, ∀ x ∈ g', x = a) ∨ ∃ g ∈ G, ∀ x ∈ g', x ∈ g

/-- Node contents `n'` are `n` or a generalization of `n`: a leaf keeps its
value or becomes a variable, a branch keeps op, arity and children while its
var groups are refined, or becomes a variable leaf. -/
def OpASTNode.generalizedBy (n n' : OpASTNode) : Prop :=
  match n with
  | OpASTNode.Leaf l => n' = OpASTNode.Leaf l ∨ n' = OpASTNode.Leaf 0
  | OpASTNode.Branch op k args vm =>
      (∃ vm', varGroupsRefine vm vm' ∧ n' = OpASTNode.Branch op k args vm') ∨
      n' = OpASTNode.Leaf 0

/-- Two nodes are not observed under different variable indices in the lookup
table of a trace. -/
def sameObservedVar (table : List (Nat × Nat)) (a b : Nat) : Bool :=
  match HT_lookup table a, HT_lookup table b with
  | some x, some y => x == y
  | _, _ => true

/-- The var groups fit the observed var map of a trace: no two members of one
group are observed under different variable indices. -/
def varGroupsAgree (groups : List (List Nat)) (valVarMap : List (Nat × Nat)) : Bool :=
  groups.all fun g => g.all fun a => g.all fun b =>
    sameObservedVar (opLookupTable valVarMap) a b

mutual
/-- The op AST rooted at node `q` of heap `h` accepts a trace: a variable leaf
accepts every trace, a constant leaf accepts a trace that carries no value or
a value with an equal double, a branch accepts a trace of the same op whose
var map fits the var groups of the branch and whose children are accepted by
the children of the branch. -/
def acceptsAST (get_d : Nat → CDouble) (h : Nat → OpASTNode) (q : Nat) :
    ValueASTNode → Bool
  | ValueASTNode.mk val op args var_map =>
    match h q with
    | OpASTNode.Leaf lval =>
      decide (val = 0 ∨ lval = 0 ∨ CDouble.ceq (get_d val) (get_d lval) = true)
    | OpASTNode.Branch bop _ bargs bvar_map =>
      decide (op = bop) && varGroupsAgree bvar_map var_map
        && acceptsASTArgs get_d h bargs args
/-- Children of a trace accepted position by position. -/
def acceptsASTArgs (get_d : Nat → CDouble) (h : Nat → OpASTNode) :
    List Nat → List ValueASTNode → Bool
  | _, [] => true
  | [], _ :: _ => false
  | a :: rest, v :: vs => acceptsAST get_d h a v && acceptsASTArgs get_d h rest vs
end

/-- Heap with the constant leaf of value 5 at node 1 (all other nodes are
variable leaves). -/
def heapConstLeaf : Nat → OpASTNode :=
  upd (fun _ => OpASTNode.Leaf 0) 1 (OpASTNode.Leaf 5)

/-- Heap with the branch `(op 7) n2 n3` at node 1 and constant leaves at nodes
2 and 3. -/
def heapAdd : Nat → OpASTNode :=
  upd (upd (upd (fun _ => OpASTNode.Leaf 0)
    1 (OpASTNode.Branch 7 2 [2, 3] [[2, 3]]))
    2 (OpASTNode.Leaf 5))
    3 (OpASTNode.Leaf 6)

/-- Reading of doubles used in the examples: the value at address `p` has the
double `p`. -/
def get_d_addr (p : Nat) : CDouble := CDouble.num p 0

/-- A trace of the op 7 whose two leaves carry the values at addresses 5 and 8,
both registered under the variable index 0. -/
def traceAdd : ValueASTNode :=
  ValueASTNode.mk 30 7
    [ValueASTNode.mk 5 100 [] [], ValueASTNode.mk 8 101 [] []]
    [(2, 0), (3, 0)]

/-- A trace of the op 7 whose two leaves carry the values at addresses 5 and 8
and are registered under the different variable indices 0 and 1. -/
def traceAddTwoVars : ValueASTNode :=
  ValueASTNode.mk 30 7
    [ValueASTNode.mk 5 100 [] [], ValueASTNode.mk 8 101 [] []]
    [(2, 0), (3, 1)]

/-! ## Instrumentation of Put and PutI (`instrument/instrument-storage.c`)

The instrumenter appends statements to the output block `sbOut` and keeps the
static shadow status of temps and of register-file offsets.  The emitted
statements are kept at the granularity of the helper calls of the source (one
statement per `run...`/`add...` helper); their run-time meaning is given by
`execStmt` on the shadow state of `value-shadowstate.c` and an environment of
IR temps.  The debugging options `PRINT_TYPES` and `PRINT_VALUE_MOVES` are
off: what they add only prints. -/

/-- Static shadow status of a temp or of a register-file offset. -/
inductive ShadowStatus where
  | Ss_Unknown
  | Ss_Shadowed
  | Ss_Unshadowed
  deriving DecidableEq, Repr

/-- Atoms of the flat IR: a constant (`mkU64`) or the reading of a temp. -/
inductive IRExpr where
  | Const (w : Nat)
  | RdTmp (tmp : Nat)
  deriving DecidableEq, Repr

/-- One emitted helper-level statement. -/
inductive Stmt where
  /-- `runLoadTemp(sbOut, idx)`: load of `shadowTemps[idx]` -/
  | loadTemp (dst idx : Nat)
  /-- `runGetTSVal(sbOut, tsSrc, instrIdx)`: load at
  `&(shadowThreadState[tid][tsSrc])` -/
  | getTSVal (dst tsSrc : Nat)
  /-- `runGetTSValDynamic(sbOut, tsSrc)`: load at
  `Add64(shadowThreadState[tid], tsSrc)` -/
  | getTSValDynamic (dst : Nat) (tsSrc : IRExpr)
  /-- `runNonZeroCheck64(sbOut, e)` -/
  | nonZeroCheck64 (dst : Nat) (e : IRExpr)
  /-- `runArrow(sbOut, temp, ShadowTemp, values)` -/
  | arrowValues (dst : Nat) (temp : IRExpr)
  /-- `runArrowG(sbOut, guard, temp, ShadowTemp, values)` -/
  | arrowValuesG (dst : Nat) (guard temp : IRExpr)
  /-- `runIndex(sbOut, values, ShadowValue*, i)` -/
  | index (dst : Nat) (values : IRExpr) (i : Nat)
  /-- `runIndexG(sbOut, guard, values, ShadowValue*, i)` -/
  | indexG (dst : Nat) (guard values : IRExpr) (i : Nat)
  /-- the statements of `mkArrayLookupExpr(sbOut, base, idx, bias, len, elemSize)` -/
  | arrayLookup (dst : Nat) (base : Nat) (idx : IRExpr) (bias : Int) (len : Nat)
      (elemSize : Nat)
  /-- `addSVOwn(sbOut, sv)` -/
  | svOwn (sv : IRExpr)
  /-- `addSVDisown(sbOut, sv)` -/
  | svDisown (sv : IRExpr)
  /-- `addSVDisownNonNullG(sbOut, guard, sv)` -/
  | svDisownNonNullG (guard sv : IRExpr)
  /-- `addSetTSVal(sbOut, tsDest, newVal, instrIdx)`: store at
  `&(shadowThreadState[tid][tsDest])` -/
  | setTSVal (tsDest : Nat) (newVal : IRExpr)
  /-- `addSetTSValDynamic(sbOut, tsDest, newVal, instrIdx)`: store at
  `Add64(shadowThreadState[tid], Mul64(tsDest, sizeof(ShadowValue*)))` -/
  | setTSValDynamic (tsDest newVal : IRExpr)
  /-- the statements of `runGetMemUnknownG(sbOut, guard, size, memSrc)` -/
  | getMemUnknownG (dst : Nat) (guard : IRExpr) (size : Nat) (memSrc : IRExpr)
  /-- `runITE(sbOut, cond, a, b)` -/
  | ite (dst : Nat) (cond a b : IRExpr)
  /-- `addStoreC(sbOut, shadow_temp, &(shadowTemps[idx]))`, the store of
  `addStoreTemp` -/
  | storeTemp (idx : Nat) (shadow_temp : IRExpr)
  /-- `runOr(sbOut, a, b)` -/
  | or (dst : Nat) (a b : IRExpr)
  /-- the statements of `runMkShadowTempValues(sbOut, num_blocks, values)` -/
  | mkShadowTempValues (dst : Nat) (num_blocks : Nat) (values : List IRExpr)
  /-- the statements of `runMkShadowTempValuesG(sbOut, guard, num_blocks, values)` -/
  | mkShadowTempValuesG (dst : Nat) (guard : IRExpr) (num_blocks : Nat) (values : List IRExpr)
  /-- the dirty call of `copyShadowTemp(original)` under `guard` that
  `addStoreTempCopy` adds -/
  | copyShadowTempG (dst : Nat) (guard original : IRExpr)
  /-- `addStoreGC(sbOut, guard, shadow_temp, &(shadowTemps[idx]))`, the store of
  `addStoreTempG` -/
  | storeTempG (idx : Nat) (guard shadow_temp : IRExpr)
  deriving DecidableEq, Repr

/-- Static state of the instrumenter while it works on one block. -/
structure InstrState where
  /-- `tempShadowStatus[]` -/
  tempShadowStatus : Nat → ShadowStatus
  /-- `tsShadowStatus[]` -/
  tsShadowStatus : Nat → ShadowStatus
  /-- statements added to `sbOut` so far, oldest first -/
  stmts : List Stmt
  /-- number of the next temp that `newIRTemp` hands out -/
  nextTmp : Nat

/-- Append a statement to `sbOut` (`addStmtToIRSB`). -/
def InstrState.emit (st : InstrState) (s : Stmt) : InstrState :=
  { st with stmts := st.stmts ++ [s] }

/-- Emit a statement that defines a fresh temp and return the reading of that
temp, as the `run...` helpers do. -/
def InstrState.run (st : InstrState) (mk : Nat → Stmt) : InstrState × IRExpr :=
  ({ st with stmts := st.stmts ++ [mk st.nextTmp], nextTmp := st.nextTmp + 1 },
   IRExpr.RdTmp st.nextTmp)

/-- Set `tsShadowStatus[addr]`. -/
def InstrState.setTsStatus (st : InstrState) (addr : Nat) (v : ShadowStatus) : InstrState :=
  { st with tsShadowStatus := upd st.tsShadowStatus addr v }

/-- Body of the first loop of `instrumentPut`: the disown of the old occupant
of `dest_addr`.  `canHave` is `tsAddrCanHaveShadow(·, instrIdx)` and
`hasStatic` is `tsHasStaticShadow(·, instrIdx)`, both answered by the type
analysis, which is not part of the sources at hand. -/
def instrumentPutDisown (canHave hasStatic : Nat → Bool) (tsDest : Nat)
    (st : InstrState) (i : Nat) : InstrState :=
  let dest_addr := tsDest + i * 4
  if canHave dest_addr then
    let r := st.run (fun t => Stmt.getTSVal t dest_addr)
    if hasStatic dest_addr then
      r.1.emit (Stmt.svDisown r.2)
    else
      let g := r.1.run (fun t => Stmt.nonZeroCheck64 t r.2)
      g.1.emit (Stmt.svDisownNonNullG g.2 r.2)
  else st

/-- Code of `addSetTSValUnshadowed(sbOut, tsDest, instrIdx)`. -/
def addSetTSValUnshadowed (st : InstrState) (tsDest : Nat) : InstrState :=
  (st.emit (Stmt.setTSVal tsDest (IRExpr.Const 0))).setTsStatus tsDest ShadowStatus.Ss_Unshadowed

/-- Code of `addSetTSValUnknown(sbOut, tsDest, newVal, instrIdx)`. -/
def addSetTSValUnknown (st : InstrState) (tsDest : Nat) (newVal : IRExpr) : InstrState :=
  (st.emit (Stmt.setTSVal tsDest newVal)).setTsStatus tsDest ShadowStatus.Ss_Unknown

/-- Code of `instrumentPut(sbOut, tsDest, data, instrIdx)`; `dest_size` is
`exprSize(sbOut->tyenv, data)`, the number of 4-byte blocks of `data`. -/
def instrumentPut (canHave hasStatic : Nat → Bool) (st : InstrState) (tsDest : Nat)
    (data : IRExpr) (dest_size : Nat) : InstrState :=
  let st1 := (List.range dest_size).foldl (instrumentPutDisown canHave hasStatic tsDest) st
  match data with
  | IRExpr.Const _ =>
    (List.range dest_size).foldl (fun s i => addSetTSValUnshadowed s (tsDest + i * 4)) st1
  | IRExpr.RdTmp idx =>
    match st1.tempShadowStatus idx with
    | ShadowStatus.Ss_Shadowed =>
      let temp := st1.run (fun t => Stmt.loadTemp t idx)
      let values := temp.1.run (fun t => Stmt.arrowValues t temp.2)
      (List.range dest_size).foldl
        (fun s i =>
          let val := s.run (fun t => Stmt.index t values.2 i)
          ((val.1.emit (Stmt.svOwn val.2)).emit
            (Stmt.setTSVal (tsDest + i * 4) val.2)).setTsStatus (tsDest + i * 4)
              ShadowStatus.Ss_Shadowed)
        values.1
    | ShadowStatus.Ss_Unknown =>
      let loadedTemp := st1.run (fun t => Stmt.loadTemp t idx)
      let loadedTempNonNull := loadedTemp.1.run (fun t => Stmt.nonZeroCheck64 t loadedTemp.2)
      let loadedVals := loadedTempNonNull.1.run
        (fun t => Stmt.arrowValuesG t loadedTempNonNull.2 loadedTemp.2)
      (List.range dest_size).foldl
        (fun s i =>
          let val := s.run (fun t => Stmt.indexG t loadedTempNonNull.2 loadedVals.2 i)
          addSetTSValUnknown (val.1.emit (Stmt.svOwn val.2)) (tsDest + i * 4) val.2)
        loadedVals.1
    | ShadowStatus.Ss_Unshadowed =>
      (List.range dest_size).foldl (fun s i => addSetTSValUnshadowed s (tsDest + i * 4)) st1

/-- Code of the first two loops of `instrumentPutI` for block `i`: the address
expression `dest_addrs[i]`, the disown of what `runGetTSValDynamic` loads
there and the store of null through `addSetTSValDynamic`.  The addresses are
collected in the second component. -/
def instrumentPutIClear (varOffset : IRExpr) (constOffset : Int) (arrayBase numElems : Nat)
    (dest_size : Nat) (c : InstrState × List IRExpr) (i : Nat) : InstrState × List IRExpr :=
  let dest_addr := c.1.run (fun t =>
    Stmt.arrayLookup t arrayBase varOffset (constOffset * dest_size + i) numElems 4)
  let oldVal := dest_addr.1.run (fun t => Stmt.getTSValDynamic t dest_addr.2)
  let st := (oldVal.1.emit (Stmt.svDisown oldVal.2)).emit
    (Stmt.setTSValDynamic dest_addr.2 (IRExpr.Const 0))
  (st, c.2 ++ [dest_addr.2])

/-- Code of `instrumentPutI(sbOut, varOffset, constOffset, arrayBase, numElems,
elemType, data, instrIdx)`; `elemTypeSize` is `sizeofIRType(elemType)` and
`dest_size` is `exprSize(sbOut->tyenv, data)`; `Ity_F32` has size 4. -/
def instrumentPutI (st : InstrState) (varOffset : IRExpr) (constOffset : Int)
    (arrayBase numElems elemTypeSize : Nat) (data : IRExpr) (dest_size : Nat) : InstrState :=
  let st0 := (List.range' arrayBase (numElems * elemTypeSize - arrayBase)).foldl
    (fun s i => s.setTsStatus i ShadowStatus.Ss_Unknown) st
  let c := (List.range dest_size).foldl
    (instrumentPutIClear varOffset constOffset arrayBase numElems dest_size) (st0, [])
  let st1 := c.1
  let dest_addrs := c.2
  let storeNull : InstrState → Nat → InstrState := fun s i =>
    s.emit (Stmt.setTSValDynamic (dest_addrs.getD i (IRExpr.Const 0)) (IRExpr.Const 0))
  match data with
  | IRExpr.Const _ => (List.range dest_size).foldl storeNull st1
  | IRExpr.RdTmp idx =>
    match st1.tempShadowStatus idx with
    | ShadowStatus.Ss_Shadowed =>
      let temp := st1.run (fun t => Stmt.loadTemp t idx)
      let values := temp.1.run (fun t => Stmt.arrowValues t temp.2)
      (List.range dest_size).foldl
        (fun s i =>
          let val := s.run (fun t => Stmt.index t values.2 i)
          (val.1.emit (Stmt.svOwn val.2)).emit
            (Stmt.setTSValDynamic (dest_addrs.getD i (IRExpr.Const 0)) val.2))
        values.1
    | ShadowStatus.Ss_Unknown =>
      let loadedTemp := st1.run (fun t => Stmt.loadTemp t idx)
      let loadedTempNonNull := loadedTemp.1.run (fun t => Stmt.nonZeroCheck64 t loadedTemp.2)
      let loadedVals := loadedTempNonNull.1.run
        (fun t => Stmt.arrowValuesG t loadedTempNonNull.2 loadedTemp.2)
      (List.range dest_size).foldl
        (fun s i =>
          let val := s.run (fun t => Stmt.indexG t loadedTempNonNull.2 loadedVals.2 i)
          (val.1.emit (Stmt.svOwn val.2)).emit
            (Stmt.setTSValDynamic (dest_addrs.getD i (IRExpr.Const 0)) val.2))
        loadedVals.1
    | ShadowStatus.Ss_Unshadowed => (List.range dest_size).foldl storeNull st1

/-- An entry of the shadow memory table (`TableValueEntry`): the link of its
bucket chain, the client address it shadows and the shadow value. -/
structure TableValueEntry where
  next : Nat
  addr : Nat
  val : Nat
  deriving DecidableEq, Repr

/-- The shadow memory as the emitted code sees it: the bucket heads
`shadowMemTable[]`, the heap of entries, the number `LARGE_PRIME` of buckets,
and the C helper `dynamicLoad(memSrc, size)`. The table, the constant and the
helper are defined in files that are not among the sources at hand; of the
helper only the temp it returns is kept. -/
structure ShadowMem where
  LARGE_PRIME : Nat
  shadowMemTable : Nat → Nat
  entries : Nat → TableValueEntry
  dynamicLoad : Nat → Nat → Nat

/-- A shadow memory without entries. -/
def emptyShadowMem : ShadowMem where
  LARGE_PRIME := 1000003
  shadowMemTable := fun _ => 0
  entries := fun _ => ⟨0, 0, 0⟩
  dynamicLoad := fun _ _ => 0

/-- Values computed by the statements of `quickGetBucketG(sbOut, guard,
memAddr)`: the pair of `result.entry` and `result.stillSearching`. A guarded
load (`runLoadG64`, `runArrowG`) yields 0 when its guard is false; the last
`runArrowG` is guarded by `addrMatches` alone. -/
def quickGetBucketG (m : ShadowMem) (guard : Bool) (memAddr : Nat) : Nat × Bool :=
  let bucketEntry := if guard then m.shadowMemTable (memAddr % m.LARGE_PRIME) else 0
  let entryExists := decide (bucketEntry ≠ 0)
  let shouldDoAnything := entryExists && guard
  let entryAddr := if shouldDoAnything then (m.entries bucketEntry).addr else 0
  let entryNext := if shouldDoAnything then (m.entries bucketEntry).next else 0
  let addrMatches := decide (entryAddr = memAddr)
  let moreChain := decide (entryNext ≠ 0)
  (if addrMatches then (m.entries bucketEntry).val else 0, moreChain && !addrMatches)

/-- Value computed by the statements of `runGetMemUnknownG(sbOut, guard, size,
memSrc)`: the quick look at the bucket of each of the `size` blocks, and the
call of `dynamicLoad` (`runGetMemG`) when a chain has to be followed or an entry
was found. -/
def getMemUnknownGValue (m : ShadowMem) (guard : Bool) (size : Nat) (memSrc : Nat) : Nat :=
  let qresults := (List.range size).map
    (fun i => quickGetBucketG m guard ((memSrc + i * 4) % 2 ^ 64))
  let anyNonTrivialChains := qresults.any (fun q => q.2)
  let allNull := qresults.all (fun q => decide (q.1 = 0))
  let goToC := anyNonTrivialChains || !allNull
  if goToC then m.dynamicLoad memSrc size else 0

/-- Run-time state of an instrumented block: the shadow state, the values of
the IR temps and the shadow memory. -/
structure RunState where
  s : State
  env : Nat → Nat
  mem : ShadowMem := emptyShadowMem

/-- Value of an IR atom. -/
def evalExpr (env : Nat → Nat) : IRExpr → Nat
  | IRExpr.Const w => w
  | IRExpr.RdTmp t => env t

/-- A C `Int` or `ULong` converted to a 64-bit word. -/
def toU64 (x : Int) : Nat := (x % 2 ^ 64).toNat

/-- Value computed by the statements of `mkArrayLookupExpr(sbOut, base, idx,
bias, len, elemSize)`: `Add64(32Uto64(idx), mkU64(bias < 0 ? bias + len : bias))`,
the high half of `DivModU64to32(·, mkU32(len))` (the remainder), `Mul64` with
`sizeofIRType(elemSize)` and `Add64` with `mkU64(base)`. -/
def mkArrayLookupValue (base : Nat) (idx : Nat) (bias : Int) (len : Nat) (elemSize : Nat) :
    Nat :=
  let added := (idx % 2 ^ 32 + toU64 (if bias < 0 then bias + len else bias)) % 2 ^ 64
  let index := (added % (len % 2 ^ 32)) % 2 ^ 32
  let ex1 := (elemSize * index) % 2 ^ 64
  (base % 2 ^ 64 + ex1) % 2 ^ 64

/-- The 64-bit little-endian load at byte offset `byteOff` from the start of
the row `shadowThreadState[tid]`, whose cell `k` (eight bytes) starts at byte
`8 * k`. -/
def load64TS (ts : Nat → Nat) (byteOff : Nat) : Nat :=
  (ts (byteOff / 8) / 2 ^ (8 * (byteOff % 8))
    + ts (byteOff / 8 + 1) * 2 ^ (64 - 8 * (byteOff % 8))) % 2 ^ 64

/-- The function `newShadowTemp` of `shadowval.c`: a zeroed record with the
given `num_vals` and a zeroed array of `num_vals` value pointers. The fresh
address is taken from `brk`. -/
def newShadowTemp (s : State) (num_vals : Nat) : State × Nat :=
  let p := s.brk
  ({ s with
     temps := upd s.temps p ⟨0, num_vals, List.replicate num_vals 0⟩
     brk := p + 1 }, p)

/-- Modelled from the spec: `stack_pop` is defined in a stack helper that is
not among the sources; as its fast variant `stack_pop_fast` above it unlinks the
head and returns it. This is `mkShadowTemp` of `value-shadowstate.c`: a new temp
when `freedTemps[num_vals - 1]` is empty, the popped head otherwise. -/
def mkShadowTemp (s : State) (num_vals : Nat) : State × Nat :=
  if stack_empty (s.freedTemps (num_vals - 1)) then newShadowTemp s num_vals
  else
    let head := s.freedTemps (num_vals - 1)
    ({ s with freedTemps := upd s.freedTemps (num_vals - 1) (s.temps head).next }, head)

/-- The function `copyShadowTemp(temp)` of `value-shadowstate.c` (the closing
brace that the text of the loop has too many is dropped): a temp of the same
`num_vals` from `mkShadowTemp`, into which every value of `temp` is copied after
its count has been raised. -/
def copyShadowTemp (s : State) (temp : Nat) : State × Nat :=
  let num_vals := (s.temps temp).num_vals
  let result := mkShadowTemp s num_vals
  let s1 := (List.range num_vals).foldl
    (fun s0 i =>
      let v := (s0.temps temp).values.getD i 0
      let s2 := ownShadowValue s0 v
      let cell := s2.temps result.2
      { s2 with temps := upd s2.temps result.2 { cell with values := cell.values.set i v } })
    result.1
  (s1, result.2)

/-- State and temp left by the statements of `runMkShadowTempValues(sbOut,
num_blocks, values)`: the temp is the one `newShadowTemp` makes when
`freedTemps[num_blocks - 1]` is empty and the popped head otherwise, as in
`mkShadowTemp`; then, block by block, `addSVOwn(values[i])` and the store of
`values[i]` at index `i` of the temp's array. -/
def mkShadowTempValuesRun (s : State) (num_blocks : Nat) (values : List Nat) : State × Nat :=
  let temp := mkShadowTemp s num_blocks
  let s1 := (List.range num_blocks).foldl
    (fun s0 i =>
      let v := values.getD i 0
      let s2 := ownShadowValue s0 v
      let cell := s2.temps temp.2
      { s2 with temps := upd s2.temps temp.2 { cell with values := cell.values.set i v } })
    temp.1
  (s1, temp.2)

/-- Run-time meaning of one emitted statement.

Modelled from the spec: the helpers `addSVOwn`, `addSVDisown`,
`addSVDisownNonNullG` (ownership.c) and `runArrow`, `runArrowG`, `runIndex`,
`runIndexG`, `runNonZeroCheck64`, `runOr`, `runStackEmpty`, `runStackPopG`,
`addStoreIndex` (instrument-util) are not among the sources.
Installing a value in a container increments its count and dropping it calls
`disown`, so the ownership helpers call `ownShadowValue`/`disownShadowValue`
(no-ops on null), the guarded one only when its guard is true; a guarded load
yields 0 when its guard is false, a guarded store or call does nothing then, and
the temp of a call that is not made keeps its value.  The `values` array of a
temp is identified with the temp that owns it. -/
def execStmt (r : RunState) : Stmt → RunState
  | Stmt.loadTemp dst idx => { r with env := upd r.env dst (r.s.shadowTemps idx) }
  | Stmt.getTSVal dst tsSrc => { r with env := upd r.env dst (r.s.shadowThreadState tsSrc) }
  | Stmt.getTSValDynamic dst tsSrc =>
      let w := load64TS r.s.shadowThreadState (evalExpr r.env tsSrc)
      { r with env := upd r.env dst w }
  | Stmt.nonZeroCheck64 dst e =>
      let w := if evalExpr r.env e ≠ 0 then 1 else 0
      { r with env := upd r.env dst w }
  | Stmt.arrowValues dst temp => { r with env := upd r.env dst (evalExpr r.env temp) }
  | Stmt.arrowValuesG dst guard temp =>
      let w := if evalExpr r.env guard ≠ 0 then evalExpr r.env temp else 0
      { r with env := upd r.env dst w }
  | Stmt.index dst values i =>
      let w := (r.s.temps (evalExpr r.env values)).values.getD i 0
      { r with env := upd r.env dst w }
  | Stmt.indexG dst guard values i =>
      let w := if evalExpr r.env guard ≠ 0
        then (r.s.temps (evalExpr r.env values)).values.getD i 0 else 0
      { r with env := upd r.env dst w }
  | Stmt.arrayLookup dst base idx bias len elemSize =>
      let w := mkArrayLookupValue base (evalExpr r.env idx) bias len elemSize
      { r with env := upd r.env dst w }
  | Stmt.svOwn sv => { r with s := ownShadowValue r.s (evalExpr r.env sv) }
  | Stmt.svDisown sv => { r with s := disownShadowValue r.s (evalExpr r.env sv) }
  | Stmt.svDisownNonNullG guard sv =>
      if evalExpr r.env guard ≠ 0 then
        { r with s := disownShadowValue r.s (evalExpr r.env sv) }
      else r
  | Stmt.setTSVal tsDest newVal =>
      let ts := upd r.s.shadowThreadState tsDest (evalExpr r.env newVal)
      { r with s := { r.s with shadowThreadState := ts } }
  | Stmt.setTSValDynamic tsDest newVal =>
      let cell := (evalExpr r.env tsDest * 8) % 2 ^ 64 / 8
      let ts := upd r.s.shadowThreadState cell (evalExpr r.env newVal)
      { r with s := { r.s with shadowThreadState := ts } }
  | Stmt.getMemUnknownG dst guard size memSrc =>
      let w := getMemUnknownGValue r.mem (decide (evalExpr r.env guard ≠ 0)) size
        (evalExpr r.env memSrc)
      { r with env := upd r.env dst w }
  | Stmt.ite dst cond a b =>
      let w := if evalExpr r.env cond ≠ 0 then evalExpr r.env a else evalExpr r.env b
      { r with env := upd r.env dst w }
  | Stmt.storeTemp idx shadow_temp =>
      let temps := upd r.s.shadowTemps idx (evalExpr r.env shadow_temp)
      { r with s := { r.s with shadowTemps := temps } }
  | Stmt.or dst a b =>
      let w := if evalExpr r.env a ≠ 0 ∨ evalExpr r.env b ≠ 0 then 1 else 0
      { r with env := upd r.env dst w }
  | Stmt.mkShadowTempValues dst num_blocks values =>
      let m := mkShadowTempValuesRun r.s num_blocks (values.map (evalExpr r.env))
      { r with s := m.1, env := upd r.env dst m.2 }
  | Stmt.mkShadowTempValuesG dst guard num_blocks values =>
      if evalExpr r.env guard ≠ 0 then
        let m := mkShadowTempValuesRun r.s num_blocks (values.map (evalExpr r.env))
        { r with s := m.1, env := upd r.env dst m.2 }
      else { r with env := upd r.env dst 0 }
  | Stmt.copyShadowTempG dst guard original =>
      if evalExpr r.env guard ≠ 0 then
        let m := copyShadowTemp r.s (evalExpr r.env original)
        { r with s := m.1, env := upd r.env dst m.2 }
      else r
  | Stmt.storeTempG idx guard shadow_temp =>
      if evalExpr r.env guard ≠ 0 then
        let temps := upd r.s.shadowTemps idx (evalExpr r.env shadow_temp)
        { r with s := { r.s with shadowTemps := temps } }
      else r

/-- Run a list of emitted statements in order. -/
def execStmts (r : RunState) (stmts : List Stmt) : RunState :=
  stmts.foldl execStmt r

/-- Value type of an operation's arguments (`ValueType`). -/
inductive ValueType where
  | Vt_Unknown
  | Vt_NonFloat
  | Vt_Single
  | Vt_Double
  deriving DecidableEq, Repr

/-- The `values` array that the loop over the operand blocks of
`executeShadowOp` leaves in the result temp: null in the odd blocks of a
double-precision operation, and in every other block `channel i`, the value
returned by `executeChannelShadowOp` for block `i`. -/
def executeShadowOpValues (argPrecision : ValueType) (numOperandBlocks : Nat)
    (channel : Nat → Nat) : List Nat :=
  (List.range numOperandBlocks).map
    (fun i => if argPrecision = ValueType.Vt_Double ∧ i % 2 = 1 then 0 else channel i)

/-- Instrumenter state at the start of a block in which temp 7 has been
written by a float operation: its status is Shadowed, every register-file
offset is Unknown. -/
def instrAfterFloatOp : InstrState where
  tempShadowStatus := upd (fun _ => ShadowStatus.Ss_Unshadowed) 7 ShadowStatus.Ss_Shadowed
  tsShadowStatus := fun _ => ShadowStatus.Ss_Unknown
  stmts := []
  nextTmp := 100

/-- Run-time state in which temp 7 is shadowed by the temp at address 10 that
`executeShadowOp` has built for a double-precision operation with one
channel: the value at address 1 in block 0 and null in block 1. -/
def runAfterDoubleOp : RunState where
  s := { initValueShadowState with
         vals := upd initValueShadowState.vals 1 ⟨0, 0, FloatType.Ft_Double, none, 1⟩
         temps := upd initValueShadowState.temps 10
           ⟨0, 2, executeShadowOpValues ValueType.Vt_Double 2 (fun _ => 1)⟩
         shadowTemps := upd initValueShadowState.shadowTemps 7 10
         brk := 2 }
  env := fun _ => 0

/-- Run-time state in which the register-shadow cell 32 holds the value at
address 1 and the cell 4 holds the value at address 2, each with one
reference; IR temp 5 (the index of a PutI) is 0. -/
def runBeforePutI : RunState where
  s := { initValueShadowState with
         vals := upd (upd initValueShadowState.vals
           1 ⟨0, 0, FloatType.Ft_Single, none, 1⟩)
           2 ⟨0, 0, FloatType.Ft_Single, none, 1⟩
         shadowThreadState := upd (upd initValueShadowState.shadowThreadState 32 1) 4 2
         brk := 3 }
  env := fun _ => 0

/-- What the disown phase of `instrumentPut` leaves alone: both static status
maps and, at run time, the temp table, the temps and the register shadow. -/
def PutFrame (st st' : InstrState) : Prop :=
  st'.tsShadowStatus = st.tsShadowStatus ∧
  st'.tempShadowStatus = st.tempShadowStatus ∧
  ∀ r0 : RunState,
    (execStmts r0 st'.stmts).s.shadowTemps = (execStmts r0 st.stmts).s.shadowTemps ∧
    (execStmts r0 st'.stmts).s.temps = (execStmts r0 st.stmts).s.temps ∧
    (execStmts r0 st'.stmts).s.shadowThreadState
      = (execStmts r0 st.stmts).s.shadowThreadState


/-- The statement is a disown of a shadow value. -/
def Stmt.isDisown : Stmt → Bool
  | Stmt.svDisown _ => true
  | Stmt.svDisownNonNullG _ _ => true
  | _ => false

/-- The statement is a store into the register shadow. -/
def Stmt.isTSStore : Stmt → Bool
  | Stmt.setTSVal _ _ => true
  | Stmt.setTSValDynamic _ _ => true
  | _ => false

/-- The code that an instrumentation step adds to `sbOut` is `code`, and every
statement of it satisfies `P`. -/
def EmitsOnly (P : Stmt → Prop) (st st' : InstrState) (code : List Stmt) : Prop :=
  st'.stmts = st.stmts ++ code ∧ ∀ s ∈ code, P s

/-! ## Client requests (`src/hg_main.c`) -/

/-- Valgrind's `VG_IS_TOOL_USERREQ(a, b, v)`: the top two bytes of the low word
of `v` are the tool tag `a`, `b`. -/
def VG_IS_TOOL_USERREQ (a b v : Nat) : Bool :=
  (((a &&& 0xff) <<< 24) ||| ((b &&& 0xff) <<< 16)) == (v &&& 0xffff0000)

/-- The enumerators `VG_USERREQ__...` of `include/herbgrind.h`. The header is
not among the sources at hand, so their values are left open. -/
structure UserReqCodes where
  BEGIN : Nat
  END : Nat
  PERFORM_OP : Nat
  PERFORM_OPF : Nat
  PERFORM_SPECIAL_OP : Nat
  MARK_IMPORTANT : Nat
  MAYBE_MARK_IMPORTANT : Nat
  MAYBE_MARK_IMPORTANT_WITH_INDEX : Nat
  FORCE_TRACK : Nat

/-- The case labels of the switch in `hg_handle_client_request`. -/
def UserReqCodes.labels (c : UserReqCodes) : List Nat :=
  [c.BEGIN, c.END, c.PERFORM_OP, c.PERFORM_OPF, c.PERFORM_SPECIAL_OP,
   c.MARK_IMPORTANT, c.MAYBE_MARK_IMPORTANT, c.MAYBE_MARK_IMPORTANT_WITH_INDEX,
   c.FORCE_TRACK]

/-- What the request cases other than BEGIN and END call. The callees are
defined in files that are not at hand (`mathreplace.c`, `marks.c`,
`influence-op.c`); they act on the shadow and client state `σ`. The field
`performWrappedOpF` stands for the whole block of the PERFORM_OPF case, which
widens the float arguments, calls `performWrappedOp` and stores the narrowed
result at `arg[2]`. Each takes the argument vector `arg`. -/
structure RequestCallees (σ : Type) where
  performWrappedOp : (Nat → Nat) → σ → σ
  performWrappedOpF : (Nat → Nat) → σ → σ
  performSpecialWrappedOp : (Nat → Nat) → σ → σ
  markImportant : (Nat → Nat) → σ → σ
  maybeMarkImportant : (Nat → Nat) → σ → σ
  maybeMarkImportantWithIndex : (Nat → Nat) → σ → σ
  forceTrack : (Nat → Nat) → σ → σ

/-- What `hg_handle_client_request` can touch: the global `running_depth`
(a signed counter, overflow is not modelled), the word `*ret`, and the state
`rest` the callees act on. -/
structure ToolState (σ : Type) where
  running_depth : Int
  ret : Nat
  rest : σ

/-- The function `hg_handle_client_request` of `src/hg_main.c`: the returned
`Bool` and the state it leaves. `arg i` is `arg[i]`. -/
def hg_handle_client_request {σ : Type} (c : UserReqCodes) (f : RequestCallees σ)
    (arg : Nat → Nat) (t : ToolState σ) : Bool × ToolState σ :=
  if VG_IS_TOOL_USERREQ 0x48 0x42 (arg 0) = false then (false, t)
  else
    let done (u : ToolState σ) : Bool × ToolState σ := (true, { u with ret := 0 })
    if arg 0 = c.BEGIN then done { t with running_depth := t.running_depth + 1 }
    else if arg 0 = c.END then done { t with running_depth := t.running_depth - 1 }
    else if arg 0 = c.PERFORM_OP then done { t with rest := f.performWrappedOp arg t.rest }
    else if arg 0 = c.PERFORM_OPF then
      done { t with rest := f.performWrappedOpF arg t.rest }
    else if arg 0 = c.PERFORM_SPECIAL_OP then
      done { t with rest := f.performSpecialWrappedOp arg t.rest }
    else if arg 0 = c.MARK_IMPORTANT then done { t with rest := f.markImportant arg t.rest }
    else if arg 0 = c.MAYBE_MARK_IMPORTANT then
      done { t with rest := f.maybeMarkImportant arg t.rest }
    else if arg 0 = c.MAYBE_MARK_IMPORTANT_WITH_INDEX then
      done { t with rest := f.maybeMarkImportantWithIndex arg t.rest }
    else if arg 0 = c.FORCE_TRACK then done { t with rest := f.forceTrack arg t.rest }
    else (false, t)

/-- Request codes used in the examples: the enumerators numbered upwards from
the tool base of the tag `H`, `B`. -/
def exampleCodes : UserReqCodes :=
  ⟨0x48420000, 0x48420001, 0x48420002, 0x48420003, 0x48420004, 0x48420005,
   0x48420006, 0x48420007, 0x48420008⟩

/-- Callees used in the examples: each counts its calls in the state. -/
def exampleCallees : RequestCallees Nat :=
  ⟨fun _ n => n + 1, fun _ n => n + 1, fun _ n => n + 1, fun _ n => n + 1,
   fun _ n => n + 1, fun _ n => n + 1, fun _ n => n + 1⟩

/-- An argument vector whose every word is `v`. -/
def argsConst (v : Nat) : Nat → Nat := fun _ => v

/-! ## Arithmetic and conversions of doubles -/

/-- Number of binary digits of `n` (the first argument bounds the recursion,
`n` itself is enough). -/
def bitLen : Nat → Nat → Nat
  | 0, _ => 0
  | fuel + 1, n => if n = 0 then 0 else bitLen fuel (n / 2) + 1

/-- Rounding of the exact number `m * 2^e` to a double: the significand is cut
to 53 binary digits, to nearest, ties to even. Sums and differences of doubles
are multiples of the smallest subnormal, so nothing else is lost below; the
overflow to an infinity above is not modelled. -/
def CDouble.round (m e : Int) : CDouble :=
  let n := m.natAbs
  let k := bitLen n n - 53
  if k = 0 then CDouble.num m e
  else
    let q := n / 2 ^ k
    let r := n % 2 ^ k
    let half := 2 ^ (k - 1)
    let q1 := if half < r ∨ (r = half ∧ q % 2 = 1) then q + 1 else q
    CDouble.num (if m < 0 then -(q1 : Int) else (q1 : Int)) (e + k)

/-- The C operator `-` on doubles: a NaN operand gives a NaN, two numbers give
their rounded difference. -/
def CDouble.sub : CDouble → CDouble → CDouble
  | CDouble.num a e, CDouble.num b f =>
    CDouble.round (CDouble.scaled a e (min e f) - CDouble.scaled b f (min e f)) (min e f)
  | _, _ => CDouble.nan

/-- The C comparison `<` on doubles: false when an operand is a NaN. -/
def CDouble.lt : CDouble → CDouble → Bool
  | CDouble.num a e, CDouble.num b f =>
    decide (CDouble.scaled a e (min e f) < CDouble.scaled b f (min e f))
  | _, _ => false

/-- The integral part of the number `m * 2^e`, rounded toward zero. -/
def CDouble.trunc (m e : Int) : Int :=
  if 0 ≤ e then m * 2 ^ e.toNat else Int.tdiv m (2 ^ (-e).toNat)

/-- Conversion of a double to the 32-bit `Int`: the fraction is discarded.
For a NaN or a number out of range C leaves the result undefined; the value
the x86 conversion instruction delivers, `-2^31`, is used. -/
def CDouble.toInt : CDouble → Int
  | CDouble.nan => -(2 ^ 31)
  | CDouble.num m e =>
    let t := CDouble.trunc m e
    if -(2 ^ 31) ≤ t ∧ t < 2 ^ 31 then t else -(2 ^ 31)

/-- Conversion of a double to the 64-bit `UWord`: the fraction is discarded.
Out of the range of `UWord` C leaves the result undefined; the number is
reduced modulo `2^64` there, and a NaN gives `2^63`. -/
def CDouble.toUWord : CDouble → Nat
  | CDouble.nan => 2 ^ 63
  | CDouble.num m e => (CDouble.trunc m e % 2 ^ 64).toNat

/-! ## The op tracker (`herbgrind/runtime/hg_op_tracker.c`) -/

/-- What the op tracker reads of an `Op_Info`: the pointer `ast` to the op AST
and `evalinfo.max_error`. -/
structure Op_Info where
  ast : Nat
  max_error : CDouble
  deriving DecidableEq, Repr

/-- The function `cmp_debuginfo`: `a` and `b` are the two pointers once cast to
`Op_Info*`, `ops` the heap of `Op_Info` records. The difference of the two
doubles is converted to the `Int` the function returns. -/
def cmp_debuginfo (ops : Nat → Op_Info) (a b : Nat) : Int :=
  CDouble.toInt (CDouble.sub (ops b).max_error (ops a).max_error)

/-- Two tracked ops: at address 1 one with 1.5 bits of maximal error, at
address 2 one with 1.0 bits. -/
def opsHalfBitApart : Nat → Op_Info :=
  upd (upd (fun _ => ⟨0, CDouble.num 0 0⟩) 1 ⟨0, CDouble.num 3 (-1)⟩) 2 ⟨0, CDouble.num 1 0⟩

/-! ## Building the variable map of a trace (`herbgrind/types/hg_ast.c`) -/

/-- What `initValVarMap` and `registerLeaf` read of a `ValueASTNode`:
`isLeaf` is `op->tag == Op_Leaf`, `value` is `mpfr_get_d(val->value, MPFR_RNDN)`,
`args` are the child pointers, and `var_map` lists the nodes of the node's hash
table as pairs (key leaf, `varidx`), newest first. -/
structure ValueASTView where
  isLeaf : Bool
  value : CDouble
  args : List Nat
  var_map : List (Nat × Nat)

/-- State of one pass of `initValVarMap`: the counter `next_idx`, the local
table `val_to_idx` as pairs (key word, `varidx`) and the `var_map` of the node
under construction, both newest first. -/
structure VarMapPass where
  idx_counter : Nat
  val_to_idx : List (Nat × Nat)
  var_map : List (Nat × Nat)
  deriving DecidableEq, Repr

/-- The function `registerLeaf`. `VG_(HT_lookup)` takes its key as a `UWord`,
so the double `val` handed to it arrives converted (`CDouble.toUWord`).
`storedKey val` is the word the table finds in the key field of a node after
`val_entry->key = val`; it depends on the declaration of `ValMapEntry` in
`hg_ast.h`, which is not among the sources at hand. -/
def registerLeaf (storedKey : CDouble → Nat) (nodes : Nat → ValueASTView) (leaf : Nat)
    (p : VarMapPass) : VarMapPass :=
  let val := (nodes leaf).value
  match HT_lookup p.val_to_idx (CDouble.toUWord val) with
  | some varidx => { p with var_map := (leaf, varidx) :: p.var_map }
  | none =>
    { idx_counter := p.idx_counter + 1
      val_to_idx := (storedKey val, p.idx_counter) :: p.val_to_idx
      var_map := (leaf, p.idx_counter) :: p.var_map }

/-- The function `initValVarMap`: the `var_map` of `valAST` after the pass.
The iteration over the table of a branch child follows `entries`, the order in
which `VG_(HT_Next)` yields the nodes of a table. -/
def initValVarMap (storedKey : CDouble → Nat)
    (entries : List (Nat × Nat) → List (Nat × Nat)) (nodes : Nat → ValueASTView)
    (valAST : Nat) : List (Nat × Nat) :=
  let pass := (nodes valAST).args.foldl
    (fun p arg =>
      if (nodes arg).isLeaf then registerLeaf storedKey nodes arg p
      else (entries (nodes arg).var_map).foldl
        (fun q entry => registerLeaf storedKey nodes entry.1 q) p)
    (VarMapPass.mk 0 [] (nodes valAST).var_map)
  pass.var_map

/-- A branch at address 1 over two leaves at addresses 2 and 3 with the values
`x` and `y`. -/
def twoLeaves (x y : CDouble) : Nat → ValueASTView :=
  upd (upd (upd (fun _ => ⟨true, CDouble.nan, [], []⟩)
    1 ⟨false, CDouble.nan, [2, 3], []⟩)
    2 ⟨true, x, [], []⟩)
    3 ⟨true, y, [], []⟩

/-! ## Printing an op AST (`herbgrind/types/hg_ast.c`) -/

/-- The function `flipOpVarMap`: the nodes of the resulting hash table as pairs
(key node, `varidx`), newest first. -/
def flipOpVarMap (opVarMap : List (List Nat)) : List (Nat × Nat) :=
  (List.range opVarMap.length).foldl
    (fun result i => (opVarMap.getD i []).foldl (fun r entry => (entry, i) :: r) result) []

/-- The table `varNames`. -/
def varNames : List String := ["x", "y", "z", "w", "a", "b", "c", "d"]

/-- What `VG_(snprintf)(buf, size, ...)` leaves in `buf` when the formatted
text is `s`: at most `size - 1` characters of it. -/
def snprintf (size : Nat) (s : String) : String := String.mk (s.data.take (size - 1))

/-- The table `map` that `opASTtoString` builds for the node at `opAST`:
`NULL` (here `none`) for a leaf, the flipped `var_map` for a branch. -/
def stringVarMap (h : Nat → OpASTNode) (opAST : Nat) : Option (List (Nat × Nat)) :=
  match h opAST with
  | OpASTNode.Leaf _ => none
  | OpASTNode.Branch _ _ _ var_map => some (flipOpVarMap var_map)

/-- The function `opASTtoStringwithVarMap` on the heap `h` of op-AST nodes.
`get_d` reads the double of a shadow value, `fmt` is the conversion `%f`,
`symbol op` is `op->debuginfo.symbol`. The call `opASTtoString(args[i])` of the
loop over the children is unfolded to its body: the table for the child
(`stringVarMap`), then this function. The pieces appended to the 256-byte
buffer are cut where the buffer ends, which leaves the first 255 characters of
their concatenation. `none` stands for an index beyond the end of `varNames`
and for an exhausted recursion budget. -/
def opASTtoStringwithVarMap (get_d : Nat → CDouble) (fmt : CDouble → String)
    (symbol : Nat → String) (h : Nat → OpASTNode) :
    Nat → Nat → Option (List (Nat × Nat)) → Option String
  | 0, _, _ => none
  | fuel + 1, opAST, varMap =>
    match h opAST with
    | OpASTNode.Leaf val =>
      if val = 0 then
        match varMap with
        | none => (varNames.get? 0).map (snprintf 2)
        | some table =>
          match HT_lookup table opAST with
          | none => some (snprintf 4 ("XXX"))
          | some varidx => (varNames.get? varidx).map (snprintf 2)
      else some (snprintf 256 (fmt (get_d val)))
    | OpASTNode.Branch op nargs args _ =>
      let body := (args.take nargs).foldl
        (fun acc child =>
          match acc with
          | none => none
          | some buf =>
            match opASTtoStringwithVarMap get_d fmt symbol h fuel child
                (stringVarMap h child) with
            | none => none
            | some subexpr => some (buf ++ " " ++ subexpr))
        (some ("(" ++ symbol op))
      body.map (fun buf => snprintf 256 (buf ++ ")"))

/-- The function `opASTtoString`. -/
def opASTtoString (get_d : Nat → CDouble) (fmt : CDouble → String)
    (symbol : Nat → String) (h : Nat → OpASTNode) (fuel : Nat) (opAST : Nat) :
    Option String :=
  opASTtoStringwithVarMap get_d fmt symbol h fuel opAST (stringVarMap h opAST)

/-- An op AST at address 1 for the op at address 7 with two variable leaves at
addresses 2 and 3; `groups` is the `var_map` of the branch. -/
def heapTwoVars (groups : List (List Nat)) : Nat → OpASTNode :=
  upd (upd (upd (fun _ => OpASTNode.Leaf 0)
    1 (OpASTNode.Branch 7 2 [2, 3] groups))
    2 (OpASTNode.Leaf 0))
    3 (OpASTNode.Leaf 0)

/-- Symbols used in the examples: every op prints as `+`. -/
def symbolPlus : Nat → String := fun _ => "+"

/-- Stand-in for the conversion `%f` in the examples, which print no
constant. -/
def fmtNone : CDouble → String := fun _ => ""

/-! ## Shadow operations (`runtime/shadowop/shadowop.c`) -/

/-- The C comparison `<=` on doubles: false when an operand is a NaN. -/
def CDouble.le : CDouble → CDouble → Bool
  | CDouble.num a e, CDouble.num b f =>
    decide (CDouble.scaled a e (min e f) ≤ CDouble.scaled b f (min e f))
  | _, _ => false

/-- Op codes of `libvex_ir.h`: those named by the case labels of the two
switches of `executeChannelShadowOp`, the packed additions and subtractions
(which no case label names), and `other` for every further code. -/
inductive IROp where
  | Iop_Mul32F0x4 | Iop_Mul64F0x2 | Iop_Mul32Fx8 | Iop_Mul64Fx4 | Iop_Mul32Fx4
  | Iop_Mul64Fx2 | Iop_MulF64 | Iop_MulF128 | Iop_MulF32 | Iop_MulF64r32
  | Iop_Add32F0x4 | Iop_Add64F0x2 | Iop_AddF64 | Iop_AddF32
  | Iop_Sub32F0x4 | Iop_Sub64F0x2 | Iop_SubF64 | Iop_SubF32
  | Iop_Add32Fx4 | Iop_Add64Fx2 | Iop_Add32Fx8 | Iop_Add64Fx4
  | Iop_Sub32Fx4 | Iop_Sub64Fx2 | Iop_Sub32Fx8 | Iop_Sub64Fx4
  | other (code : Nat)
  deriving DecidableEq, Repr

/-- The case labels of the first switch (multiplications). -/
def IROp.isMulCase : IROp → Bool
  | Iop_Mul32F0x4 | Iop_Mul64F0x2 | Iop_Mul32Fx8 | Iop_Mul64Fx4 | Iop_Mul32Fx4
  | Iop_Mul64Fx2 | Iop_MulF64 | Iop_MulF128 | Iop_MulF32 | Iop_MulF64r32 => true
  | _ => false

/-- The first group of case labels of the second switch (additions). -/
def IROp.isAddCase : IROp → Bool
  | Iop_Add32F0x4 | Iop_Add64F0x2 | Iop_AddF64 | Iop_AddF32 => true
  | _ => false

/-- The second group of case labels of the second switch (subtractions). -/
def IROp.isSubCase : IROp → Bool
  | Iop_Sub32F0x4 | Iop_Sub64F0x2 | Iop_SubF64 | Iop_SubF32 => true
  | _ => false

/-- The kind tag under which the pool files a value of the given precision:
`shadowop.c` hands the `ValueType` to `mkShadowValue`, whose source at hand
names the tag `FloatType`. -/
def ValueType.toFloatType : ValueType → FloatType
  | ValueType.Vt_Single => FloatType.Ft_Single
  | ValueType.Vt_Double => FloatType.Ft_Double
  | _ => FloatType.Ft_Unknown

/-- The options `executeChannelShadowOp` reads (the printing options are
off). -/
structure ShadowOpOptions where
  dont_ignore_pure_zeroes : Bool
  no_reals : Bool
  use_ranges : Bool
  compensation_detection : Bool
  error_threshold : CDouble

/-- What `executeChannelShadowOp` calls and does not define: the functions of
`ir-info`, `real.c`, `error.c`, `local-op.c`, `symbolic-op.c`, `influence-op.c`
and `runtime-util`, none of which is among the sources at hand. `E` is the type
of an error aggregate, `R` of the range records, `X` of the symbolic
expressions of the op and of the values. `toReal` is `setReal` on a fresh real.
`execLocalOp` acts on the local error aggregate of the op and `updateError` on
the aggregate it is handed; `execInfluencesOp` gets the influence list the
result holds so far and those of the arguments. -/
structure ShadowOpHelpers (E R X : Type) where
  opArgPrecision : IROp → ValueType
  numFloatArgs : Nat → Nat
  isNaN : Int → Bool
  getDouble : Int → CDouble
  toReal : CDouble → Int
  execRealOp : IROp → (Nat → Int) → Int
  updateRanges : R → (Nat → CDouble) → Nat → R
  execLocalOp : Nat → E → Int → (Nat → Int) → CDouble × E
  updateError : E → Int → CDouble → CDouble × E
  execSymbolicOp : Nat → X → Nat → CDouble → (Nat → Nat) → Bool → X
  execInfluencesOp : Nat → Option (List Nat) → (Nat → Option (List Nat)) → Bool →
    Option (List Nat)
  cloneInfluences : Option (List Nat) → Option (List Nat)
  ulpd : CDouble → CDouble → Nat

/-- The state `executeChannelShadowOp` works on: the value pool `s`, the
aggregates `agg.global_error` and `agg.local_error` and the range records
`agg.inputs.range_records` of the op, and the symbolic expressions. -/
structure ShadowOpState (E R X : Type) where
  s : State
  global_error : E
  local_error : E
  range_records : R
  exprs : X

/-- The test that guards the pure-zero return of `executeChannelShadowOp`. -/
def pureZeroCase {E R X : Type} (o : ShadowOpOptions) (f : ShadowOpHelpers E R X)
    (op_code : IROp) (args : Nat → Nat) (clientArgs : Nat → CDouble) (s : State) : Bool :=
  !o.dont_ignore_pure_zeroes && !o.no_reals && op_code.isMulCase &&
    ((CDouble.ceq (clientArgs 0) (CDouble.num 0 0) && !f.isNaN (s.vals (args 1)).real) ||
     (CDouble.ceq (clientArgs 1) (CDouble.num 0 0) && !f.isNaN (s.vals (args 0)).real))

/-- The function `executeChannelShadowOp`: the state it leaves and the value it
returns. `op_code` is `opinfo->op_code`, `args i` is `args[i]` and
`clientArgs i` is `clientArgs[i]`. -/
def executeChannelShadowOp {E R X : Type} (o : ShadowOpOptions) (f : ShadowOpHelpers E R X)
    (op_code : IROp) (opinfo : Nat) (args : Nat → Nat) (clientArgs : Nat → CDouble)
    (clientResult : CDouble) (t : ShadowOpState E R X) : ShadowOpState E R X × Nat :=
  let argPrecision := f.opArgPrecision op_code
  let nargs := f.numFloatArgs opinfo
  let ranges := if o.use_ranges then f.updateRanges t.range_records clientArgs nargs
    else t.range_records
  if pureZeroCase o f op_code args clientArgs t.s then
    let r := mkShadowValue t.s argPrecision.toFloatType (f.toReal clientResult)
    ({ t with
       s := r.1
       range_records := ranges
       exprs := f.execSymbolicOp opinfo t.exprs r.2 clientResult args false }, r.2)
  else
    let r := mkShadowValueBare t.s argPrecision.toFloatType
    let result := r.2
    let real := f.execRealOp op_code (fun i => (r.1.vals (args i)).real)
    let s1 : State := { r.1 with vals := upd r.1.vals result { r.1.vals result with real := real } }
    let bitsLocalError := f.execLocalOp opinfo t.local_error real (fun i => (s1.vals (args i)).real)
    let bitsGlobalError := f.updateError t.global_error real clientResult
    let exprs := f.execSymbolicOp opinfo t.exprs result clientResult args
      (CDouble.lt o.error_threshold bitsGlobalError.1)
    let outputError := f.ulpd (f.getDouble real) clientResult
    let finish (influences : Option (List Nat)) : ShadowOpState E R X × Nat :=
      ({ s := { s1 with vals := upd s1.vals result { s1.vals result with influences := influences } }
         global_error := bitsGlobalError.2
         local_error := bitsLocalError.2
         range_records := ranges
         exprs := exprs }, result)
    let compensating := o.compensation_detection && !o.no_reals
    if compensating && op_code.isAddCase &&
        CDouble.ceq (f.getDouble (s1.vals (args 0)).real) (CDouble.num 0 0) &&
        decide (outputError ≤ f.ulpd (f.getDouble (s1.vals (args 1)).real) (clientArgs 1)) then
      finish (f.cloneInfluences (s1.vals (args 1)).influences)
    else if compensating && (op_code.isAddCase || op_code.isSubCase) &&
        CDouble.ceq (f.getDouble (s1.vals (args 1)).real) (CDouble.num 0 0) &&
        decide (outputError ≤ f.ulpd (f.getDouble (s1.vals (args 0)).real) (clientArgs 0)) then
      finish (f.cloneInfluences (s1.vals (args 0)).influences)
    else
      finish (f.execInfluencesOp opinfo (s1.vals result).influences
        (fun i => (s1.vals (args i)).influences)
        (CDouble.le o.error_threshold bitsLocalError.1))

/-- Helpers used in the examples: reals are whole numbers, `-1` plays the NaN,
the error functions count their calls and report no error, `ulpd` is the
distance of the integral parts, and `execInfluencesOp` returns the influences
of the two arguments, preceded by the op itself when its flag is set. -/
def exampleHelpers : ShadowOpHelpers Nat Nat Nat where
  opArgPrecision := fun _ => ValueType.Vt_Double
  numFloatArgs := fun _ => 2
  isNaN := fun r => r == -1
  getDouble := fun r => CDouble.num r 0
  toReal := fun d => match d with
    | CDouble.num m e => CDouble.trunc m e
    | CDouble.nan => -1
  execRealOp := fun op a =>
    if op.isMulCase then a 0 * a 1 else if op.isSubCase then a 0 - a 1 else a 0 + a 1
  updateRanges := fun r _ _ => r + 1
  execLocalOp := fun _ e _ _ => (CDouble.num 0 0, e + 1)
  updateError := fun e _ _ => (CDouble.num 0 0, e + 1)
  execSymbolicOp := fun _ x _ _ _ _ => x + 1
  execInfluencesOp := fun opinfo _ infl flag =>
    some ((if flag then [opinfo] else []) ++ ((infl 0).getD [] ++ (infl 1).getD []))
  cloneInfluences := fun l => l
  ulpd := fun a b => (CDouble.toInt (CDouble.sub a b)).natAbs

/-- The helpers of the examples with a local error of 8 bits for every
operation. -/
def exampleHelpersLocalError : ShadowOpHelpers Nat Nat Nat :=
  { exampleHelpers with execLocalOp := fun _ e _ _ => (CDouble.num 8 0, e + 1) }

/-- Options used in the examples: compensation detection on, everything else
off, threshold 5 bits. -/
def exampleOptions : ShadowOpOptions := ⟨false, false, false, true, CDouble.num 5 0⟩

/-- A pool with the live values 1 (real 0, no influences) and 2 (real 5,
influenced by the op 9) and the freed box 3. -/
def stateTwoArgs : ShadowOpState Nat Nat Nat where
  s := { initValueShadowState with
         vals := upd (upd (upd initValueShadowState.vals
           1 ⟨0, 0, FloatType.Ft_Double, none, 1⟩)
           2 ⟨0, 5, FloatType.Ft_Double, some [9], 1⟩)
           3 ⟨0, 7, FloatType.Ft_Double, none, 0⟩
         freedVals := 3
         brk := 4 }
  global_error := 0
  local_error := 0
  range_records := 0
  exprs := 0

/-- The argument array whose entries are the values 1 and 2. -/
def argsOneTwo : Nat → Nat := fun i => if i = 0 then 1 else 2

/-- The argument array whose entries are the values 2 and 1. -/
def argsTwoOne : Nat → Nat := fun i => if i = 0 then 2 else 1

/-- Client arguments 0 and 5. -/
def clientZeroFive : Nat → CDouble := fun i => if i = 0 then CDouble.num 0 0 else CDouble.num 5 0

/-- Client arguments 5 and 0. -/
def clientFiveZero : Nat → CDouble := fun i => if i = 0 then CDouble.num 5 0 else CDouble.num 0 0

/-! ## Operand temps of a shadow operation (`getArg` of `shadowop.c`) -/

/-- The boxes `l` are those met, in order, when walking a free list of values
from `head` along `next` to the null that ends it. -/
def ChainFrom (vals : Nat → ShadowValue) : Nat → List Nat → Prop
  | head, [] => head = 0
  | head, p :: l => head = p ∧ p ≠ 0 ∧ ChainFrom vals (vals p).next l

/-- The free list of values of `s` is the finite list `l` of distinct boxes
that the allocator has handed out, and the allocator never hands out null. -/
def FreeValsAre (s : State) (l : List Nat) : Prop :=
  ChainFrom s.vals s.freedVals l ∧ l.Nodup ∧ (∀ p ∈ l, p < s.brk) ∧ 0 < s.brk

/-- What one call of `mkShadowValue(ty, v)` does to a pool `s` whose free list
is `l`: it leaves the pool `s1` with the free list `l1` and returns `box`. -/
structure MadeValue (s : State) (l : List Nat) (ty : FloatType) (v : Int)
    (s1 : State) (l1 : List Nat) (box : Nat) : Prop where
  free : FreeValsAre s1 l1
  sub : ∀ p ∈ l1, p ∈ l
  nonnull : box ≠ 0
  taken : box ∉ l1
  below : box < s1.brk
  brk : s.brk ≤ s1.brk
  fresh : box ∈ l ∨ s.brk ≤ box
  ref_count : (s1.vals box).ref_count = 1
  real : (s1.vals box).real = v
  type : (s1.vals box).type = ty
  others : ∀ q, q ≠ box → s1.vals q = s.vals q
  temps : s1.temps = s.temps
  shadowTemps : s1.shadowTemps = s.shadowTemps
  shadowThreadState : s1.shadowThreadState = s.shadowThreadState
  freedTemps : s1.freedTemps = s.freedTemps

/-- The function `instrumentLoadG`. `isFloat` is `isFloat(sbOut->tyenv, dest)`
and `dest_size` is `loadConversionSize(conversion)`. `addStoreTempUnknown` is
`addStoreTemp`, whose store is emitted; its call of `cleanupAtEndOfBlock`
(`ownership.c`, not at hand) is left out. -/
def instrumentLoadG (isFloat : Bool) (st : InstrState) (dest : Nat)
    (altValue guard addr : IRExpr) (dest_size : Nat) : InstrState :=
  if isFloat = false then st
  else
    let st1 : InstrState :=
      { st with tempShadowStatus := upd st.tempShadowStatus dest ShadowStatus.Ss_Unknown }
    let r1 := st1.run (fun t => Stmt.getMemUnknownG t guard dest_size addr)
    let r2 : InstrState × IRExpr :=
      match altValue with
      | IRExpr.Const _ => (r1.1, IRExpr.Const 0)
      | IRExpr.RdTmp tmp => r1.1.run (fun t => Stmt.loadTemp t tmp)
    let r3 := r2.1.run (fun t => Stmt.ite t guard r1.2 r2.2)
    r3.1.emit (Stmt.storeTemp dest r3.2)

/-- The shadow of the alternative value of a guarded load in the state `s`:
null for a constant, the shadow of the temp otherwise. -/
def altShadow (s : State) : IRExpr → Nat
  | IRExpr.Const _ => 0
  | IRExpr.RdTmp tmp => s.shadowTemps tmp

/-- The atom `e` does not read a temp numbered `n` or higher. -/
def IRExpr.below (n : Nat) : IRExpr → Prop
  | IRExpr.Const _ => True
  | IRExpr.RdTmp tmp => tmp < n

/-! ## Suppression of subexpressions in the report (`hg_op_tracker.c`) -/

/-- The op ASTs of the heap `h` are acyclic: `rank` falls from every branch node
to each entry of its `args` array. -/
def RankedHeap (rank : Nat → Nat) (h : Nat → OpASTNode) : Prop :=
  ∀ n op nargs args vm, h n = OpASTNode.Branch op nargs args vm → ∀ c ∈ args, rank c < rank n

/-- Depth of the nodes of `heapAdd`. -/
def rankAdd : Nat → Nat := fun n => if n = 1 then 1 else 0

/-! ## First observation of an op (`updateAST`, `convertValASTtoOpAST`) -/

/-- The op records, the heap of op-AST nodes and the next address `ALLOC` hands
out. -/
structure ASTState where
  ops : Nat → Op_Info
  h : Nat → OpASTNode
  brk : Nat

/-- The function `opvarmapFromValvarmap`. The entries of the observed map are
listed in the order `VG_(HT_Next)` yields them, each with the node
`convertValASTtoOpAST` returns for its key: the keys are leaves of the trace,
whose ops have an AST from the moment they are made, so that call returns the
recorded node and changes nothing. -/
def opvarmapFromValvarmap (valVarMap : List (Nat × Nat)) : List (List Nat) :=
  valVarMap.foldl
    (fun opVarMap valEntry =>
      let grown := opVarMap ++ List.replicate (valEntry.2 + 1 - opVarMap.length) []
      grown.set valEntry.2 (grown.getD valEntry.2 [] ++ [valEntry.1]))
    []

mutual
/-- The function `convertValASTtoOpAST`: the state it leaves and the node it
returns. `initOpBranchAST` leaves the new node a Branch with the op and the
arity of the trace, an `args` array still to be filled and no var groups. -/
def convertValASTtoOpAST (s : ASTState) : ValueASTNode → ASTState × Nat
  | ValueASTNode.mk _ op args var_map =>
    if (s.ops op).ast ≠ 0 then (s, (s.ops op).ast)
    else
      let result := s.brk
      let s1 : ASTState :=
        { s with h := upd s.h result (OpASTNode.Branch op args.length [] []), brk := s.brk + 1 }
      let r := convertValASTArgs s1 args
      let node := OpASTNode.Branch op args.length r.2 (opvarmapFromValvarmap var_map)
      let opinfo : Op_Info := { r.1.ops op with ast := result }
      ({ r.1 with h := upd r.1.h result node, ops := upd r.1.ops op opinfo }, result)
/-- The loop of `convertValASTtoOpAST` over the children, in order. -/
def convertValASTArgs (s : ASTState) : List ValueASTNode → ASTState × List Nat
  | [] => (s, [])
  | v :: vs =>
    let r := convertValASTtoOpAST s v
    let rs := convertValASTArgs r.1 vs
    (rs.1, r.2 :: rs.2)
end

/-- The field `op` of a value-AST node. -/
def ValueASTNode.op : ValueASTNode → Nat
  | ValueASTNode.mk _ op _ _ => op

/-- The nodes `nodes` are the conversions of the value ASTs `args`, one after
the other: the first is what `convertValASTtoOpAST` returns for the first value
AST in the state `s`, the second what it returns for the second in the state
the first call has left, and so on; `s2` is the state after the last call. -/
inductive ArgsConverted : ASTState → List ValueASTNode → ASTState → List Nat → Prop
  | nil (s : ASTState) : ArgsConverted s [] s []
  | cons (s : ASTState) (v : ValueASTNode) (vs : List ValueASTNode) (s2 : ASTState)
      (nodes : List Nat) :
      ArgsConverted (convertValASTtoOpAST s v).1 vs s2 nodes →
      ArgsConverted s (v :: vs) s2 ((convertValASTtoOpAST s v).2 :: nodes)

/-- The function `updateAST(op, trace_ast)` with `print_expr_updates` off;
`none` where `generalizeAST` has no result. -/
def updateAST (get_d : Nat → CDouble) (firstWord : OpASTNode → Nat) (s : ASTState) (op : Nat)
    (trace_ast : ValueASTNode) : Option ASTState :=
  if (s.ops op).ast = 0 then
    let r := convertValASTtoOpAST s trace_ast
    let opinfo : Op_Info := { r.1.ops op with ast := r.2 }
    some { r.1 with ops := upd r.1.ops op opinfo }
  else
    match generalizeAST get_d firstWord s.h (s.ops op).ast trace_ast with
    | none => none
    | some h1 => some { s with h := h1 }

/-- A state in which the leaf ops 100 and 101 have the leaf nodes 2 and 3 as
their ASTs and the op 7 has none yet. -/
def astBeforeFirstTrace : ASTState where
  ops := upd (upd (fun _ => ⟨0, CDouble.num 0 0⟩) 100 ⟨2, CDouble.num 0 0⟩)
    101 ⟨3, CDouble.num 0 0⟩
  h := upd (upd (fun _ => OpASTNode.Leaf 0) 2 (OpASTNode.Leaf 5)) 3 (OpASTNode.Leaf 8)
  brk := 4

/-- A first trace of the op 7 over the leaves of the ops 100 and 101, observed
under the variable indices 0 and 1. -/
def firstTrace : ValueASTNode :=
  ValueASTNode.mk 30 7
    [ValueASTNode.mk 5 100 [] [], ValueASTNode.mk 8 101 [] []]
    [(2, 0), (3, 1)]

/-! ## Instrumentation of Get and ITE (`instrument/instrument-storage.c`)

The predicates `canBeShadowed`, `isFloat` and `tsAddrCanHaveShadow` and the
block count `typeSize(type)` come from the type analysis, which is not part of
the sources at hand; they are parameters.  A failing `tl_assert` is the result
`none`. -/

/-- Code of `addStoreTempCopy(sbOut, original, dest, types)`: the temp of the
copy is allocated first, then the non-null check, the guarded call of
`copyShadowTemp` and the guarded store of `addStoreTempG` are added. -/
def addStoreTempCopy (st : InstrState) (original : IRExpr) (dest : Nat) : InstrState :=
  let newShadowTempCopy := st.nextTmp
  let st1 : InstrState := { st with nextTmp := st.nextTmp + 1 }
  let originalNonNull := st1.run (fun t => Stmt.nonZeroCheck64 t original)
  (originalNonNull.1.emit
    (Stmt.copyShadowTempG newShadowTempCopy originalNonNull.2 original)).emit
    (Stmt.storeTempG dest originalNonNull.2 (IRExpr.RdTmp newShadowTempCopy))

/-- The status `instrumentITE` gives its destination from the statuses of the
two arms: `if (trueShadowed == falseShadowed)` the common one, else
`Ss_Unknown`. -/
def iteStatus (trueShadowed falseShadowed : ShadowStatus) : ShadowStatus :=
  if trueShadowed = falseShadowed then trueShadowed else ShadowStatus.Ss_Unknown

/-- One arm of `instrumentITE`: the expression of its shadow temp and its
status.  An arm that cannot be shadowed is the constant null with the status
Unshadowed; any other arm must be the reading of a temp, whose shadow is
loaded. -/
def instrumentITEArm (canBeShadowed : IRExpr → Bool) (st : InstrState) (e : IRExpr) :
    Option (InstrState × IRExpr × ShadowStatus) :=
  if canBeShadowed e = false then some (st, IRExpr.Const 0, ShadowStatus.Ss_Unshadowed)
  else
    match e with
    | IRExpr.RdTmp tmp =>
      let loaded := st.run (fun t => Stmt.loadTemp t tmp)
      some (loaded.1, loaded.2, st.tempShadowStatus tmp)
    | IRExpr.Const _ => none

/-- Code of `instrumentITE(sbOut, dest, cond, trueExpr, falseExpr)`.  The call of
`typeJoins` only fills the type array handed to `addStoreTempCopy`, which does
not read it. -/
def instrumentITE (isFloat : Nat → Bool) (canBeShadowed : IRExpr → Bool) (st : InstrState)
    (dest : Nat) (cond trueExpr falseExpr : IRExpr) : Option InstrState :=
  if isFloat dest = false then some st
  else
    match instrumentITEArm canBeShadowed st trueExpr with
    | none => none
    | some (st1, trueSt, trueShadowed) =>
      match instrumentITEArm canBeShadowed st1 falseExpr with
      | none => none
      | some (st2, falseSt, falseShadowed) =>
        let status := upd st2.tempShadowStatus dest (iteStatus trueShadowed falseShadowed)
        let st3 : InstrState := { st2 with tempShadowStatus := status }
        let resultSt := st3.run (fun t => Stmt.ite t cond trueSt falseSt)
        some (addStoreTempCopy resultSt.1 resultSt.2 dest)

/-- The first loop of `instrumentGet`: the value of `targetStatus` after the
offsets `tsSrc + i` for `i < src_size` have been looked at. -/
def instrumentGetStatus (tsShadowStatus : Nat → ShadowStatus) (tsSrc src_size : Nat) :
    ShadowStatus :=
  (List.range src_size).foldl
    (fun targetStatus i =>
      if tsShadowStatus (tsSrc + i) = ShadowStatus.Ss_Shadowed then ShadowStatus.Ss_Shadowed
      else if tsShadowStatus (tsSrc + i) = ShadowStatus.Ss_Unknown ∧
          targetStatus ≠ ShadowStatus.Ss_Shadowed then ShadowStatus.Ss_Unknown
      else targetStatus)
    ShadowStatus.Ss_Unshadowed

/-- Code of `instrumentGet(sbOut, dest, tsSrc, type, instrIdx)`; `src_size` is
`typeSize(type)`.  `runGetTSVal` asserts that its offset can have a shadow. -/
def instrumentGet (canBeShadowed : IRExpr → Bool) (canHave : Nat → Bool) (st : InstrState)
    (dest tsSrc src_size : Nat) : Option InstrState :=
  if canBeShadowed (IRExpr.RdTmp dest) = false then some st
  else
    let targetStatus := instrumentGetStatus st.tsShadowStatus tsSrc src_size
    let status := upd st.tempShadowStatus dest targetStatus
    let st0 : InstrState := { st with tempShadowStatus := status }
    match targetStatus with
    | ShadowStatus.Ss_Shadowed =>
      let c := (List.range src_size).foldl
        (fun (c : Option (InstrState × List IRExpr)) i =>
          match c with
          | none => none
          | some (s, vals) =>
            let src_addr := tsSrc + i * 4
            if canHave src_addr then
              let v := s.run (fun t => Stmt.getTSVal t src_addr)
              some (v.1, vals ++ [v.2])
            else none)
        (some (st0, []))
      match c with
      | none => none
      | some (s, vals) =>
        let temp := s.run (fun t => Stmt.mkShadowTempValues t src_size vals)
        some (temp.1.emit (Stmt.storeTemp dest temp.2))
    | ShadowStatus.Ss_Unknown =>
      let c := (List.range src_size).foldl
        (fun (c : InstrState × List IRExpr × IRExpr) i =>
          let tsAddr := tsSrc + i * 4
          if c.1.tsShadowStatus tsAddr = ShadowStatus.Ss_Unshadowed ∨ canHave tsAddr = false then
            (c.1, c.2.1 ++ [IRExpr.Const 0], c.2.2)
          else
            let v := c.1.run (fun t => Stmt.getTSVal t tsAddr)
            let nz := v.1.run (fun t => Stmt.nonZeroCheck64 t v.2)
            let o := nz.1.run (fun t => Stmt.or t c.2.2 nz.2)
            (o.1, c.2.1 ++ [v.2], o.2))
        (st0, [], IRExpr.Const 0)
      let temp := c.1.run (fun t => Stmt.mkShadowTempValuesG t c.2.2 src_size c.2.1)
      some (temp.1.emit (Stmt.storeTemp dest temp.2))
    | ShadowStatus.Ss_Unshadowed => some st0

/-- Instrumenter state in which the register-file offset `o` is Shadowed and
every other offset and every temp is Unshadowed. -/
def instrOneSlotShadowed (o : Nat) : InstrState where
  tempShadowStatus := fun _ => ShadowStatus.Ss_Unshadowed
  tsShadowStatus := upd (fun _ => ShadowStatus.Ss_Unshadowed) o ShadowStatus.Ss_Shadowed
  stmts := []
  nextTmp := 100

/-- The shadowable expressions of the examples: the readings of temps. -/
def readsTemp : IRExpr → Bool
  | IRExpr.RdTmp _ => true
  | IRExpr.Const _ => false

/-- Code of `instrumentGetI(sbOut, dest, varOffset, constOffset, arrayBase,
numElems, elemType, instrIdx)`; `src_size` is `typeSize(elemType)`; `Ity_F32`
has size 4. -/
def instrumentGetI (canBeShadowed : IRExpr → Bool) (st : InstrState) (dest : Nat)
    (varOffset : IRExpr) (constOffset : Int) (arrayBase numElems src_size : Nat) : InstrState :=
  if canBeShadowed (IRExpr.RdTmp dest) = false then st
  else
    let status := upd st.tempShadowStatus dest ShadowStatus.Ss_Unknown
    let st0 : InstrState := { st with tempShadowStatus := status }
    let a := (List.range src_size).foldl
      (fun (c : InstrState × List IRExpr) i =>
        let src_addr := c.1.run (fun t =>
          Stmt.arrayLookup t arrayBase varOffset (constOffset * src_size + i) numElems 4)
        (src_addr.1, c.2 ++ [src_addr.2]))
      (st0, [])
    let src_addrs := a.2
    let c := (List.range src_size).foldl
      (fun (c : InstrState × List IRExpr × IRExpr) i =>
        let v := c.1.run (fun t => Stmt.getTSValDynamic t (src_addrs.getD i (IRExpr.Const 0)))
        let nz := v.1.run (fun t => Stmt.nonZeroCheck64 t v.2)
        let o := nz.1.run (fun t => Stmt.or t c.2.2 nz.2)
        (o.1, c.2.1 ++ [v.2], o.2))
      (a.1, [], IRExpr.Const 0)
    let temp := c.1.run (fun t => Stmt.mkShadowTempValuesG t c.2.2 src_size c.2.1)
    temp.1.emit (Stmt.storeTemp dest temp.2)

/-- The run-time state `runBeforePutI` with the value `ix` in IR temp 5, the
index of a GetI or PutI. -/
def runWithIndex (ix : Nat) : RunState :=
  { runBeforePutI with env := upd (fun _ => 0) 5 ix }

/-- Address of `&(shadowThreadState[tid][o])`, which `runGetTSVal` loads from
and `addSetTSVal` stores to; `row` is the address of the row
`shadowThreadState[tid]`, whose cells are pointers of eight bytes. -/
def tsValAddress (row o : Nat) : Nat := row + 8 * o

/-- Address that the code of `runGetTSValDynamic(sbOut, tsSrc)` loads from:
`Add64(mkU64(row), tsSrc)`. -/
def runGetTSValDynamicAddress (row tsSrc : Nat) : Nat := (row % 2 ^ 64 + tsSrc) % 2 ^ 64

/-- Address that the code of `addSetTSValDynamic(sbOut, tsDest, newVal,
instrIdx)` stores to: `Add64(mkU64(row), Mul64(tsDest, mkU64(sizeof(ShadowValue*))))`. -/
def addSetTSValDynamicAddress (row tsDest : Nat) : Nat :=
  (row % 2 ^ 64 + tsDest * 8 % 2 ^ 64) % 2 ^ 64

/-! ## Sharing of op ASTs -/

theorem upd_same {α : Type} (f : Nat → α) (a : Nat) (v : α) : upd f a v a = v := by
  simp [upd]

theorem upd_other {α : Type} (f : Nat → α) (a b : Nat) (v : α) (h : b ≠ a) :
    upd f a v b = f b := by
  simp [upd, h]

theorem upd_self_eq {α : Type} (f : Nat → α) (a : Nat) (v : α) (h : v = f a) :
    upd f a v = f := by
  funext x
  by_cases hx : x = a
  · subst hx; simp [upd, h]
  · simp [upd, hx]

theorem upd_upd {α : Type} (f : Nat → α) (a : Nat) (v w : α) :
    upd (upd f a v) a w = upd f a w := by
  funext x
  by_cases hx : x = a <;> simp [upd, hx]

/-- The box returned by `mkShadowValueBare` has reference count one. -/
theorem mkShadowValueBare_ref_count (s : State) (t : FloatType) :
    ((mkShadowValueBare s t).1.vals (mkShadowValueBare s t).2).ref_count = 1 := by
  simp [mkShadowValueBare, upd]

/-- `mkShadowValueBare` leaves every positive reference count positive. -/
theorem mkShadowValueBare_keeps (s : State) (t : FloatType) (q : Nat)
    (h : 1 ≤ (s.vals q).ref_count) :
    1 ≤ ((mkShadowValueBare s t).1.vals q).ref_count := by
  unfold mkShadowValueBare
  by_cases he : stack_empty s.freedVals = true
  · simp only [he, if_true, newShadowValue, upd]
    by_cases hq : q = s.brk <;> simp [hq, h]
  · simp only [he, stack_pop_fast, upd]
    by_cases hq : q = s.freedVals
    · simp [hq, upd]
    · simp [hq, h, upd]

theorem mkShadowValue_ref_count (s : State) (t : FloatType) (v : Int) :
    ((mkShadowValue s t v).1.vals (mkShadowValue s t v).2).ref_count = 1 := by
  have h := mkShadowValueBare_ref_count s t
  simp [mkShadowValue, upd, h]

theorem mkShadowValue_keeps (s : State) (t : FloatType) (v : Int) (q : Nat)
    (h : 1 ≤ (s.vals q).ref_count) :
    1 ≤ ((mkShadowValue s t v).1.vals q).ref_count := by
  have h1 := mkShadowValueBare_keeps s t q h
  simp only [mkShadowValue, upd]
  by_cases hq : q = (mkShadowValueBare s t).2
  · simp [hq, mkShadowValueBare_ref_count]
  · simp [hq, h1]

/-- `ownShadowValue` never lowers a reference count. -/
theorem ownShadowValue_mono (s : State) (v q : Nat) :
    (s.vals q).ref_count ≤ ((ownShadowValue s v).vals q).ref_count := by
  unfold ownShadowValue
  by_cases hv : v = 0
  · simp [hv]
  · by_cases hq : q = v
    · simp [hv, upd, hq]
    · simp [hv, upd, hq]

theorem freeShadowValue_ref_count (s : State) (v q : Nat) :
    ((freeShadowValue s v).vals q).ref_count = (s.vals q).ref_count := by
  unfold freeShadowValue stack_push_fast
  by_cases hi : (s.vals v).influences ≠ none
  · by_cases hq : q = v
    · simp [hi, upd, hq]
    · simp [hi, upd, hq]
  · by_cases hq : q = v
    · simp [hi, upd, hq]
    · simp [hi, upd, hq]

/-- `disownShadowValue` leaves every positive reference count positive. -/
theorem disownShadowValue_keeps (s : State) (v q : Nat)
    (h : 1 ≤ (s.vals q).ref_count) :
    1 ≤ ((disownShadowValue s v).vals q).ref_count := by
  unfold disownShadowValue
  by_cases hv : v = 0
  · simp [hv, h]
  · by_cases hlt : (s.vals v).ref_count < 2
    · simp only [hv, hlt, if_true, if_false]
      rw [freeShadowValue_ref_count]; exact h
    · simp only [hv, hlt, if_false]
      by_cases hq : q = v
      · subst hq; simp [upd]; omega
      · simp [upd, hq, h]

/-- Every box handed out so far has a positive reference count, after any run
that starts in a state where this is so. -/
theorem runCalls_ref_count (calls : List Call) (c : State × List Nat)
    (h : ∀ q ∈ c.2, 1 ≤ (c.1.vals q).ref_count) :
    ∀ q ∈ (runCalls c calls).2, 1 ≤ ((runCalls c calls).1.vals q).ref_count := by
  induction calls generalizing c with
  | nil => simpa [runCalls] using h
  | cons a rest ih =>
    have hstep : ∀ q ∈ (stepCall c a).2, 1 ≤ ((stepCall c a).1.vals q).ref_count := by
      cases a with
      | mkShadowValueBare t =>
        intro q hq
        simp only [stepCall, List.mem_cons] at hq ⊢
        rcases hq with hq | hq
        · rw [hq, mkShadowValueBare_ref_count]
        · exact mkShadowValueBare_keeps _ _ _ (h q hq)
      | mkShadowValue t v =>
        intro q hq
        simp only [stepCall, List.mem_cons] at hq ⊢
        rcases hq with hq | hq
        · rw [hq, mkShadowValue_ref_count]
        · exact mkShadowValue_keeps _ _ _ _ (h q hq)
      | ownShadowValue p =>
        intro q hq
        simp only [stepCall] at hq ⊢
        exact le_trans (h q hq) (ownShadowValue_mono _ _ _)
      | disownShadowValue p =>
        intro q hq
        simp only [stepCall] at hq ⊢
        exact disownShadowValue_keeps _ _ _ (h q hq)
    have := ih (stepCall c a) hstep
    simpa [runCalls] using this

theorem walkFreedVals_empty (s : State) (h : s.freedVals = 0) (n : Nat) :
    walkFreedVals s n = 0 := by
  induction n with
  | zero => simpa [walkFreedVals] using h
  | succ k ih => simp [walkFreedVals, ih]

/-- C1: after every sequence of `mkShadowValueBare`/`mkShadowValue`,
`ownShadowValue` and `disownShadowValue` calls, every shadow value handed out
by the pool that is not on the `freedVals` free-list has `ref_count ≥ 1`;
`mkShadowValueBare` returns a box with `ref_count` exactly 1 (fresh or
recycled), `ownShadowValue` only increases counts, and `disownShadowValue`
decrements only when `ref_count ≥ 2` and otherwise makes the box the head of
the free-list with its count untouched. -/
theorem C1_ref_count_ge_one_while_alive (calls : List Call) (p : Nat)
    (hp : p ∈ (runCalls (initValueShadowState, []) calls).2)
    (_hlive : ¬ onFreedVals (runCalls (initValueShadowState, []) calls).1 p) :
    1 ≤ ((runCalls (initValueShadowState, []) calls).1.vals p).ref_count ∧
    (∀ (s : State) (t : FloatType),
      ((mkShadowValueBare s t).1.vals (mkShadowValueBare s t).2).ref_count = 1) ∧
    (∀ (s : State) (v q : Nat),
      (s.vals q).ref_count ≤ ((ownShadowValue s v).vals q).ref_count) ∧
    (∀ (s : State) (v : Nat), v ≠ 0 →
      (2 ≤ (s.vals v).ref_count →
        ((disownShadowValue s v).vals v).ref_count = (s.vals v).ref_count - 1 ∧
        (disownShadowValue s v).freedVals = s.freedVals) ∧
      ((s.vals v).ref_count < 2 →
        ((disownShadowValue s v).vals v).ref_count = (s.vals v).ref_count ∧
        (disownShadowValue s v).freedVals = v)) := by
  refine ⟨?_, mkShadowValueBare_ref_count, ownShadowValue_mono, ?_⟩
  · exact runCalls_ref_count calls _ (by simp) p hp
  · intro s v hv
    constructor
    · intro h2
      have : ¬ (s.vals v).ref_count < 2 := by omega
      simp [disownShadowValue, hv, this, upd]
    · intro h2
      simp only [disownShadowValue, hv, h2, if_true, if_false]
      refine ⟨freeShadowValue_ref_count s v v, ?_⟩
      unfold freeShadowValue stack_push_fast
      by_cases hi : (s.vals v).influences ≠ none <;> simp [hi]

/-- Witness for C1: after two allocations, an own and a disown of the first
box, the first box is alive (the free-list is empty) and counted. -/
theorem C1_ref_count_ge_one_while_alive_witness :
    1 ≤ ((runCalls (initValueShadowState, [])
      [Call.mkShadowValueBare FloatType.Ft_Double, Call.mkShadowValue FloatType.Ft_Single 3,
       Call.ownShadowValue 1, Call.disownShadowValue 1]).1.vals 1).ref_count :=
  (C1_ref_count_ge_one_while_alive
    [Call.mkShadowValueBare FloatType.Ft_Double, Call.mkShadowValue FloatType.Ft_Single 3,
     Call.ownShadowValue 1, Call.disownShadowValue 1] 1
    (by decide)
    (by
      rintro ⟨h0, n, hn⟩
      rw [walkFreedVals_empty _ (by rfl) n] at hn
      exact h0 hn.symm)).1

/-- Owning and then disowning a counted non-null box restores the state. -/
theorem own_disown_roundtrip (s : State) (v : Nat) (hv : v ≠ 0)
    (hrc : 1 ≤ (s.vals v).ref_count) :
    disownShadowValue (ownShadowValue s v) v = s := by
  have hlt : ¬ (s.vals v).ref_count + 1 < 2 := by omega
  simp only [disownShadowValue, ownShadowValue, hv, if_false, upd_same, hlt, upd_upd]
  have hvals : upd s.vals v
      { next := (s.vals v).next, real := (s.vals v).real, type := (s.vals v).type,
        influences := (s.vals v).influences,
        ref_count := (s.vals v).ref_count + 1 - 1 } = s.vals := by
    apply upd_self_eq
    simp
  rw [hvals]

/-- C2: for every non-null shadow value `v` (a box whose count is at least
one, as every box handed out by the pool is), `ownShadowValue(v)` followed by
`disownShadowValue(v)` leaves the whole state, hence `v.ref_count`, every
other field of `v` and the `freedVals` free-list, as it was; both functions
are no-ops on the null pointer. -/
theorem C2_own_then_disown_is_identity (s : State) (v : Nat) (hv : v ≠ 0)
    (hrc : 1 ≤ (s.vals v).ref_count) :
    disownShadowValue (ownShadowValue s v) v = s ∧
    (∀ (calls : List Call) (q : Nat), q ≠ 0 →
      q ∈ (runCalls (initValueShadowState, []) calls).2 →
      disownShadowValue (ownShadowValue (runCalls (initValueShadowState, []) calls).1 q) q
        = (runCalls (initValueShadowState, []) calls).1) ∧
    (∀ s0 : State, ownShadowValue s0 0 = s0 ∧ disownShadowValue s0 0 = s0) := by
  refine ⟨own_disown_roundtrip s v hv hrc, ?_, ?_⟩
  · intro calls q hq hmem
    exact own_disown_roundtrip _ q hq (runCalls_ref_count calls _ (by simp) q hmem)
  · intro s0
    simp [ownShadowValue, disownShadowValue]

/-- Witness for C2: the box made by the first allocation, owned and disowned
again. -/
theorem C2_own_then_disown_is_identity_witness :
    disownShadowValue
      (ownShadowValue (mkShadowValueBare initValueShadowState FloatType.Ft_Double).1 1) 1
      = (mkShadowValueBare initValueShadowState FloatType.Ft_Double).1 :=
  (C2_own_then_disown_is_identity
    (mkShadowValueBare initValueShadowState FloatType.Ft_Double).1 1 (by decide)
    (by decide)).1

/-- C4 (the code at the failing inputs): with `print_moves` off,
`dynamicCleanup` frees the debted temp and nulls its slot but never calls
`disownShadowValue` on the temp's value, whose count stays 2, where with
`print_moves` on the count drops to 1; and for a temp with two values the temp
is pushed on its free-list once per value, so that it ends up linked to
itself. -/
theorem C4_dynamicCleanup_at_failing_inputs :
    (((dynamicCleanup false (stateDebtedTemp 1) 1 [3]).vals 1).ref_count = 2 ∧
     (dynamicCleanup false (stateDebtedTemp 1) 1 [3]).shadowTemps 3 = 0 ∧
     (dynamicCleanup false (stateDebtedTemp 1) 1 [3]).freedTemps 0 = 10) ∧
    ((dynamicCleanup true (stateDebtedTemp 1) 1 [3]).vals 1).ref_count = 1 ∧
    ((dynamicCleanup true (stateDebtedTemp 2) 1 [3]).freedTemps 1 = 10 ∧
     ((dynamicCleanup true (stateDebtedTemp 2) 1 [3]).temps 10).next = 10) := by
  decide

/-- C7 (the code at the failing input): `dynamicPut(0, st)` for a temp holding
one double installs the value at offset 0 with one more reference, but the
second 4-byte slot of the double, offset 4, keeps the value it held, and the
slot that is set to null is offset 8, which belongs to the next double. -/
theorem C7_dynamicPut_at_failing_input :
    (dynamicPut statePutDouble 0 10).shadowThreadState 0 = 1 ∧
    ((dynamicPut statePutDouble 0 10).vals 1).ref_count = 2 ∧
    (dynamicPut statePutDouble 0 10).shadowThreadState 4 = 2 ∧
    statePutDouble.shadowThreadState 8 = 3 ∧
    (dynamicPut statePutDouble 0 10).shadowThreadState 8 = 0 := by
  decide

/-! ### Generalization of op ASTs -/

theorem varGroupsRefine_refl (G : List (List Nat)) : varGroupsRefine G G :=
  fun g hg => Or.inr ⟨g, hg, fun _ hx => hx⟩

theorem varGroupsRefine_trans (A B C : List (List Nat)) (h1 : varGroupsRefine A B)
    (h2 : varGroupsRefine B C) : varGroupsRefine A C := by
  intro g hg
  rcases h2 g hg with hs | ⟨b, hb, hsub⟩
  · exact Or.inl hs
  · rcases h1 b hb with ⟨a, ha⟩ | ⟨a, ha, hsub'⟩
    · exact Or.inl ⟨a, fun x hx => ha x (hsub x hx)⟩
    · exact Or.inr ⟨a, ha, fun x hx => hsub' x (hsub x hx)⟩

/-- The inner loop of `generalizeVarMap` only refines the var groups. -/
theorem generalizeVarMapInner_refines (mem : Nat → Nat) (table : List (Nat × Nat)) (i : Nat) :
    ∀ (fuel : Nat) (opVarMap : List (List Nat)) (splitMap : List (Nat × Nat)) (j : Nat)
      (out : List (List Nat)),
      generalizeVarMapInner mem table i fuel opVarMap splitMap j = some out →
      varGroupsRefine opVarMap out := by
  intro fuel
  induction fuel with
  | zero => intro opVarMap splitMap j out h; simp [generalizeVarMapInner] at h
  | succ n ih =>
    intro opVarMap splitMap j out h
    unfold generalizeVarMapInner at h
    simp only at h
    split at h
    · rename_i hj
      split at h
      · cases h
      · split at h
        · refine varGroupsRefine_trans _ _ _ ?_ (ih _ _ _ _ h)
          intro g hg
          rcases List.mem_or_eq_of_mem_set hg with hmem | heq
          · rcases List.mem_append.mp hmem with hold | hnew
            · exact Or.inr ⟨g, hold, fun _ hx => hx⟩
            · refine Or.inl ⟨mem ((opVarMap.getD i []).getD j 0), fun x hx => ?_⟩
              simp only [List.mem_singleton] at hnew
              subst hnew
              simpa using hx
          · refine Or.inr ⟨opVarMap.getD i [], ?_, fun x hx => ?_⟩
            · by_cases hi : i < opVarMap.length
              · rw [List.getD_eq_getElem _ _ hi]
                exact List.getElem_mem _
              · rw [List.getD_eq_default _ _ (by omega)] at hj
                simp at hj
            · rw [heq] at hx
              exact List.mem_of_mem_eraseIdx hx
        · split at h
          · cases h
          · exact ih _ _ _ _ h
    · cases h
      exact varGroupsRefine_refl _

/-- The outer loop of `generalizeVarMap` only refines the var groups. -/
theorem generalizeVarMapOuter_refines (mem : Nat → Nat) (table : List (Nat × Nat)) :
    ∀ (fuel : Nat) (opVarMap : List (List Nat)) (i : Nat) (out : List (List Nat)),
      generalizeVarMapOuter mem table fuel opVarMap i = some out →
      varGroupsRefine opVarMap out := by
  intro fuel
  induction fuel with
  | zero => intro opVarMap i out h; simp [generalizeVarMapOuter] at h
  | succ n ih =>
    intro opVarMap i out h
    unfold generalizeVarMapOuter at h
    simp only at h
    split at h
    · split at h
      · cases h
      · split at h
        · cases h
        · split at h
          · cases h
          · rename_i mid hmid
            exact varGroupsRefine_trans _ _ _
              (generalizeVarMapInner_refines mem table i _ _ _ _ _ hmid) (ih _ _ _ h)
    · cases h
      exact varGroupsRefine_refl _

/-- Whenever `generalizeVarMap` returns, the var groups it returns refine the
ones it was given. -/
theorem generalizeVarMap_refines (mem : Nat → Nat) (opVarMap : List (List Nat))
    (valVarMap : List (Nat × Nat)) (out : List (List Nat))
    (h : generalizeVarMap mem opVarMap valVarMap = some out) :
    varGroupsRefine opVarMap out :=
  generalizeVarMapOuter_refines mem _ _ _ _ _ h

theorem sameObservedVar_self (table : List (Nat × Nat)) (a : Nat) :
    sameObservedVar table a a = true := by
  unfold sameObservedVar
  cases HT_lookup table a <;> simp

/-- Var groups that fit an observed var map still fit it after refinement. -/
theorem varGroupsAgree_of_refine (G G' : List (List Nat)) (M : List (Nat × Nat))
    (hr : varGroupsRefine G G') (h : varGroupsAgree G M = true) :
    varGroupsAgree G' M = true := by
  unfold varGroupsAgree at h ⊢
  simp only [List.all_eq_true] at h ⊢
  intro g' hg' a ha b hb
  rcases hr g' hg' with ⟨c, hc⟩ | ⟨g, hg, hsub⟩
  · rw [hc a ha, hc b hb]
    exact sameObservedVar_self _ _
  · exact h g hg a (hsub a ha) b (hsub b hb)

theorem generalizedBy_refl (n : OpASTNode) : n.generalizedBy n := by
  cases n with
  | Leaf l => exact Or.inl rfl
  | Branch op k args vm => exact Or.inl ⟨vm, varGroupsRefine_refl vm, rfl⟩

theorem generalizedBy_leaf0 (n : OpASTNode) : n.generalizedBy (OpASTNode.Leaf 0) := by
  cases n with
  | Leaf l => exact Or.inr rfl
  | Branch op k args vm => exact Or.inr rfl

theorem generalizedBy_trans (a b c : OpASTNode) (h1 : a.generalizedBy b)
    (h2 : b.generalizedBy c) : a.generalizedBy c := by
  cases a with
  | Leaf l =>
    rcases h1 with h1 | h1
    · subst h1; exact h2
    · subst h1
      rcases h2 with h2 | h2 <;> exact Or.inr h2
  | Branch op k args vm =>
    rcases h1 with ⟨vm1, hr1, h1⟩ | h1
    · subst h1
      rcases h2 with ⟨vm2, hr2, h2⟩ | h2
      · exact Or.inl ⟨vm2, varGroupsRefine_trans _ _ _ hr1 hr2, h2⟩
      · exact Or.inr h2
    · subst h1
      rcases h2 with h2 | h2 <;> exact Or.inr h2

theorem generalizedBy_upd (h : Nat → OpASTNode) (p : Nat) (n : OpASTNode)
    (hn : (h p).generalizedBy n) (q : Nat) : (h q).generalizedBy (upd h p n q) := by
  by_cases hq : q = p
  · subst hq; simpa [upd] using hn
  · simpa [upd, hq] using generalizedBy_refl (h q)

mutual
/-- Every node of the heap is left as it is or generalized by `generalizeAST`. -/
theorem generalizeAST_generalizes (get_d : Nat → CDouble) (firstWord : OpASTNode → Nat) :
    ∀ (t : ValueASTNode) (h : Nat → OpASTNode) (p : Nat) (h' : Nat → OpASTNode),
      generalizeAST get_d firstWord h p t = some h' →
      ∀ q, (h q).generalizedBy (h' q)
  | ValueASTNode.mk val op args var_map, h, p, h', hres, q => by
    unfold generalizeAST at hres
    cases hp : h p with
    | Leaf lval =>
      simp only [hp] at hres
      split at hres
      · cases hres; exact generalizedBy_refl _
      · cases hres
        exact generalizedBy_upd h p _ (generalizedBy_leaf0 _) q
    | Branch bop nargs bargs bvm =>
      simp only [hp] at hres
      split at hres
      · cases hres
        exact generalizedBy_upd h p _ (generalizedBy_leaf0 _) q
      · split at hres
        · split at hres
          · cases hres
          · rename_i vm hvm
            have h1 : (h q).generalizedBy
                (upd h p (OpASTNode.Branch bop nargs bargs vm) q) :=
              generalizedBy_upd h p _
                (by rw [hp]; exact Or.inl ⟨vm, generalizeVarMap_refines _ _ _ _ hvm, rfl⟩) q
            exact generalizedBy_trans _ _ _ h1
              (generalizeASTArgs_generalizes get_d firstWord args _ bargs h' hres q)
        · cases hres; exact generalizedBy_refl _
/-- Every node of the heap is left as it is or generalized by the loop over
the children. -/
theorem generalizeASTArgs_generalizes (get_d : Nat → CDouble)
    (firstWord : OpASTNode → Nat) :
    ∀ (ts : List ValueASTNode) (h : Nat → OpASTNode) (ps : List Nat)
      (h' : Nat → OpASTNode),
      generalizeASTArgs get_d firstWord h ps ts = some h' →
      ∀ q, (h q).generalizedBy (h' q)
  | [], h, ps, h', hres, q => by
    have hh : h' = h := by
      cases ps <;> simp [generalizeASTArgs] at hres <;> exact hres.symm
    subst hh; exact generalizedBy_refl _
  | v :: vs, h, [], h', hres, q => by
    unfold generalizeASTArgs at hres
    cases hres
  | v :: vs, h, a :: rest, h', hres, q => by
    unfold generalizeASTArgs at hres
    cases h1 : generalizeAST get_d firstWord h a v with
    | none => simp [h1] at hres
    | some hmid =>
      simp only [h1] at hres
      exact generalizedBy_trans _ _ _
        (generalizeAST_generalizes get_d firstWord v h a hmid h1 q)
        (generalizeASTArgs_generalizes get_d firstWord vs hmid rest h' hres q)
end

mutual
/-- A trace accepted at a node stays accepted when nodes are only generalized. -/
theorem acceptsAST_mono (get_d : Nat → CDouble) (h h' : Nat → OpASTNode)
    (hg : ∀ q, (h q).generalizedBy (h' q)) :
    ∀ (t : ValueASTNode) (q : Nat),
      acceptsAST get_d h q t = true → acceptsAST get_d h' q t = true
  | ValueASTNode.mk val op args var_map, q, hacc => by
    unfold acceptsAST at hacc ⊢
    have hq' := hg q
    cases hq : h q with
    | Leaf l =>
      rw [hq] at hq' hacc
      rcases hq' with e | e
      · rw [e]; exact hacc
      · rw [e]; simp
    | Branch bop k bargs bvm =>
      rw [hq] at hq' hacc
      rcases hq' with ⟨vm, hr, e⟩ | e
      · rw [e]
        simp only [Bool.and_eq_true] at hacc ⊢
        exact ⟨⟨hacc.1.1, varGroupsAgree_of_refine _ _ _ hr hacc.1.2⟩,
          acceptsASTArgs_mono get_d h h' hg args bargs hacc.2⟩
      · rw [e]; simp
/-- Children accepted position by position stay accepted. -/
theorem acceptsASTArgs_mono (get_d : Nat → CDouble) (h h' : Nat → OpASTNode)
    (hg : ∀ q, (h q).generalizedBy (h' q)) :
    ∀ (ts : List ValueASTNode) (ps : List Nat),
      acceptsASTArgs get_d h ps ts = true → acceptsASTArgs get_d h' ps ts = true
  | [], ps, _ => by cases ps <;> simp [acceptsASTArgs]
  | v :: vs, [], hacc => by simp [acceptsASTArgs] at hacc
  | v :: vs, a :: rest, hacc => by
    unfold acceptsASTArgs at hacc ⊢
    simp only [Bool.and_eq_true] at hacc ⊢
    exact ⟨acceptsAST_mono get_d h h' hg v a hacc.1,
      acceptsASTArgs_mono get_d h h' hg vs rest hacc.2⟩
end

/-- C8: generalization is monotone.  Whenever `generalizeAST(opast, valast)`
returns, every node of the op AST is as before or more general: a variable
leaf (null value) stays a variable leaf, a constant leaf keeps its constant or
becomes a variable, a branch keeps its op, arity and children or becomes a
variable leaf; hence every trace accepted at a node before the call is
accepted at it after the call. -/
theorem C8_generalization_is_monotone (get_d : Nat → CDouble)
    (firstWord : OpASTNode → Nat) (h : Nat → OpASTNode) (opast : Nat)
    (valast : ValueASTNode) (h' : Nat → OpASTNode)
    (hres : generalizeAST get_d firstWord h opast valast = some h') :
    (∀ q,
      (h q = OpASTNode.Leaf 0 → h' q = OpASTNode.Leaf 0) ∧
      (∀ c, h q = OpASTNode.Leaf c → h' q = OpASTNode.Leaf c ∨ h' q = OpASTNode.Leaf 0) ∧
      (∀ op k args vm, h q = OpASTNode.Branch op k args vm →
        (∃ vm', h' q = OpASTNode.Branch op k args vm') ∨ h' q = OpASTNode.Leaf 0)) ∧
    (∀ (q : Nat) (t : ValueASTNode),
      acceptsAST get_d h q t = true → acceptsAST get_d h' q t = true) := by
  have hg := generalizeAST_generalizes get_d firstWord valast h opast h' hres
  refine ⟨fun q => ⟨?_, ?_, ?_⟩, fun q t => acceptsAST_mono get_d h h' hg t q⟩
  · intro e
    have := hg q
    rw [e] at this
    rcases this with e' | e' <;> exact e'
  · intro c e
    have := hg q
    rw [e] at this
    exact this
  · intro op k args vm e
    have := hg q
    rw [e] at this
    rcases this with ⟨vm', _, e'⟩ | e'
    · exact Or.inl ⟨vm', e'⟩
    · exact Or.inr e'

/-- Witness for C8: the branch `heapAdd` generalized against `traceAdd`; the
second leaf (constant 6, observed 8) becomes a variable, and the trace with
the constants 5 and 6 that was accepted before is accepted afterwards. -/
theorem C8_generalization_is_monotone_witness :
    generalizeAST get_d_addr (fun _ => 0) heapAdd 1 traceAdd
      = some (upd (upd heapAdd 1 (OpASTNode.Branch 7 2 [2, 3] [[2, 3]])) 3
          (OpASTNode.Leaf 0)) ∧
    acceptsAST get_d_addr
      (upd (upd heapAdd 1 (OpASTNode.Branch 7 2 [2, 3] [[2, 3]])) 3 (OpASTNode.Leaf 0)) 1
      (ValueASTNode.mk 30 7 [ValueASTNode.mk 5 100 [] [], ValueASTNode.mk 6 101 [] []] [])
      = true :=
  ⟨rfl,
   (C8_generalization_is_monotone get_d_addr (fun _ => 0) heapAdd 1 traceAdd
      (upd (upd heapAdd 1 (OpASTNode.Branch 7 2 [2, 3] [[2, 3]])) 3 (OpASTNode.Leaf 0))
      rfl).2 1
      (ValueASTNode.mk 30 7 [ValueASTNode.mk 5 100 [] [], ValueASTNode.mk 6 101 [] []] [])
      (by decide)⟩

/-- C10 (as amended): `generalizeAST` applied to a Leaf op-AST node always
returns, changes no other node, and keeps the leaf's constant exactly when the
leaf carries a value and the observed node either carries no value or carries
one whose double compares equal; in every other case the value field is null
afterwards, so a leaf that is already a variable remains a variable. -/
theorem C10_leaf_generalization (get_d : Nat → CDouble) (firstWord : OpASTNode → Nat)
    (h : Nat → OpASTNode) (opast lval val op : Nat) (args : List ValueASTNode)
    (var_map : List (Nat × Nat)) (hleaf : h opast = OpASTNode.Leaf lval) :
    ∃ h', generalizeAST get_d firstWord h opast (ValueASTNode.mk val op args var_map)
        = some h' ∧
      (∀ q, q ≠ opast → h' q = h q) ∧
      h' opast = OpASTNode.Leaf
        (if lval ≠ 0 ∧ (val = 0 ∨ CDouble.ceq (get_d val) (get_d lval) = true)
         then lval else 0) := by
  unfold generalizeAST
  simp only [hleaf]
  by_cases hc : val = 0 ∨ lval = 0 ∨ CDouble.ceq (get_d val) (get_d lval) = true
  · refine ⟨h, by simp [hc], fun q _ => rfl, ?_⟩
    rw [hleaf]
    by_cases hl : lval = 0
    · simp [hl]
    · have : val = 0 ∨ CDouble.ceq (get_d val) (get_d lval) = true := by
        rcases hc with hc | hc | hc
        · exact Or.inl hc
        · exact absurd hc hl
        · exact Or.inr hc
      simp [hl, this]
  · refine ⟨upd h opast (OpASTNode.Leaf 0), by simp [hc], fun q hq => by simp [upd, hq], ?_⟩
    have h1 : ¬ (val = 0 ∨ CDouble.ceq (get_d val) (get_d lval) = true) := by
      intro hh
      rcases hh with hh | hh
      · exact hc (Or.inl hh)
      · exact hc (Or.inr (Or.inr hh))
    simp [upd, h1]

/-- Witness for C10: the constant leaf 5 of `heapConstLeaf` observed with a
different value is abstracted to a variable. -/
theorem C10_leaf_generalization_witness :
    ∃ h', generalizeAST get_d_addr (fun _ => 0) heapConstLeaf 1 (ValueASTNode.mk 8 100 [] [])
        = some h' ∧
      (∀ q, q ≠ 1 → h' q = heapConstLeaf q) ∧
      h' 1 = OpASTNode.Leaf
        (if 5 ≠ 0 ∧ (8 = 0 ∨ CDouble.ceq (get_d_addr 8) (get_d_addr 5) = true)
         then 5 else 0) :=
  C10_leaf_generalization get_d_addr (fun _ => 0) heapConstLeaf 1 5 8 100 [] [] rfl

/-- C10 (counterexample to the claim as stated): the observed node carries no
value (`val` is null), so it is not the case that both nodes carry a value
with equal doubles, and yet the leaf keeps its constant 5 instead of being
nulled. -/
theorem C10_counterexample :
    (generalizeAST get_d_addr (fun _ => 0) heapConstLeaf 1
        (ValueASTNode.mk 0 100 [] [])).map (fun h' => h' 1)
      = some (OpASTNode.Leaf 5) ∧
    ¬ ((0 : Nat) ≠ 0 ∧ (5 : Nat) ≠ 0 ∧
        CDouble.ceq (get_d_addr 0) (get_d_addr 5) = true) := by
  decide

/-! ### Instrumentation of Put and PutI -/

theorem execStmts_emit (r0 : RunState) (st : InstrState) (s : Stmt) :
    execStmts r0 (st.emit s).stmts = execStmt (execStmts r0 st.stmts) s := by
  simp [execStmts, InstrState.emit, List.foldl_append]

theorem execStmts_run (r0 : RunState) (st : InstrState) (mk : Nat → Stmt) :
    execStmts r0 (st.run mk).1.stmts = execStmt (execStmts r0 st.stmts) (mk st.nextTmp) := by
  simp [execStmts, InstrState.run, List.foldl_append]

theorem disownShadowValue_frame (s : State) (v : Nat) :
    (disownShadowValue s v).shadowTemps = s.shadowTemps ∧
    (disownShadowValue s v).temps = s.temps ∧
    (disownShadowValue s v).shadowThreadState = s.shadowThreadState := by
  unfold disownShadowValue freeShadowValue stack_push_fast
  by_cases hv : v = 0
  · simp [hv]
  · by_cases hlt : (s.vals v).ref_count < 2
    · by_cases hi : (s.vals v).influences ≠ none <;> simp [hv, hlt, hi]
    · simp [hv, hlt]

theorem ownShadowValue_frame (s : State) (v : Nat) :
    (ownShadowValue s v).shadowTemps = s.shadowTemps ∧
    (ownShadowValue s v).temps = s.temps ∧
    (ownShadowValue s v).shadowThreadState = s.shadowThreadState := by
  unfold ownShadowValue
  by_cases hv : v = 0 <;> simp [hv]

theorem PutFrame_refl (st : InstrState) : PutFrame st st :=
  ⟨rfl, rfl, fun _ => ⟨rfl, rfl, rfl⟩⟩

theorem PutFrame_trans (a b c : InstrState) (h1 : PutFrame a b) (h2 : PutFrame b c) :
    PutFrame a c := by
  refine ⟨h2.1.trans h1.1, h2.2.1.trans h1.2.1, fun r0 => ?_⟩
  have e1 := h1.2.2 r0
  have e2 := h2.2.2 r0
  exact ⟨e2.1.trans e1.1, e2.2.1.trans e1.2.1, e2.2.2.trans e1.2.2⟩

/-- A statement other than a store to the register shadow or to the temp table
leaves the temp table, the temps and the register shadow as they are. -/
theorem execStmt_frame (r : RunState) (s : Stmt)
    (hs : (∀ a b, s ≠ Stmt.setTSVal a b) ∧ (∀ a b, s ≠ Stmt.setTSValDynamic a b) ∧
      (∀ a b, s ≠ Stmt.storeTemp a b) ∧ (∀ a b c, s ≠ Stmt.mkShadowTempValues a b c) ∧
      (∀ a b c d, s ≠ Stmt.mkShadowTempValuesG a b c d) ∧
      (∀ a b c, s ≠ Stmt.copyShadowTempG a b c) ∧ (∀ a b c, s ≠ Stmt.storeTempG a b c)) :
    (execStmt r s).s.shadowTemps = r.s.shadowTemps ∧
    (execStmt r s).s.temps = r.s.temps ∧
    (execStmt r s).s.shadowThreadState = r.s.shadowThreadState := by
  cases s with
  | svOwn sv => exact ownShadowValue_frame _ _
  | svDisown sv => exact disownShadowValue_frame _ _
  | svDisownNonNullG g sv =>
    have hdef : execStmt r (Stmt.svDisownNonNullG g sv)
        = if evalExpr r.env g ≠ 0 then
            { r with s := disownShadowValue r.s (evalExpr r.env sv) }
          else r := rfl
    rw [hdef]
    by_cases hg : evalExpr r.env g ≠ 0
    · rw [if_pos hg]
      exact disownShadowValue_frame _ _
    · rw [if_neg hg]
      exact ⟨rfl, rfl, rfl⟩
  | setTSVal a b => exact absurd rfl (hs.1 a b)
  | setTSValDynamic a b => exact absurd rfl (hs.2.1 a b)
  | storeTemp a b => exact absurd rfl (hs.2.2.1 a b)
  | mkShadowTempValues a b c => exact absurd rfl (hs.2.2.2.1 a b c)
  | mkShadowTempValuesG a b c d => exact absurd rfl (hs.2.2.2.2.1 a b c d)
  | copyShadowTempG a b c => exact absurd rfl (hs.2.2.2.2.2.1 a b c)
  | storeTempG a b c => exact absurd rfl (hs.2.2.2.2.2.2 a b c)
  | _ => exact ⟨rfl, rfl, rfl⟩

theorem instrumentPutDisown_frame (canHave hasStatic : Nat → Bool) (tsDest : Nat)
    (st : InstrState) (i : Nat) :
    PutFrame st (instrumentPutDisown canHave hasStatic tsDest st i) := by
  unfold instrumentPutDisown
  by_cases hc : canHave (tsDest + i * 4) = true
  · by_cases hs : hasStatic (tsDest + i * 4) = true
    · simp only [hc, hs, if_true]
      refine ⟨rfl, rfl, fun r0 => ?_⟩
      rw [execStmts_emit, execStmts_run]
      have e1 := execStmt_frame (execStmts r0 st.stmts)
        (Stmt.getTSVal st.nextTmp (tsDest + i * 4)) (by simp)
      have e2 := execStmt_frame
        (execStmt (execStmts r0 st.stmts) (Stmt.getTSVal st.nextTmp (tsDest + i * 4)))
        (Stmt.svDisown (st.run fun t => Stmt.getTSVal t (tsDest + i * 4)).2) (by simp)
      exact ⟨e2.1.trans e1.1, e2.2.1.trans e1.2.1, e2.2.2.trans e1.2.2⟩
    · simp only [hc, hs, if_true, Bool.false_eq_true, if_false]
      refine ⟨rfl, rfl, fun r0 => ?_⟩
      rw [execStmts_emit, execStmts_run, execStmts_run]
      have e1 := execStmt_frame (execStmts r0 st.stmts)
        (Stmt.getTSVal st.nextTmp (tsDest + i * 4)) (by simp)
      have e2 := execStmt_frame
        (execStmt (execStmts r0 st.stmts) (Stmt.getTSVal st.nextTmp (tsDest + i * 4)))
        (Stmt.nonZeroCheck64 (st.run fun t => Stmt.getTSVal t (tsDest + i * 4)).1.nextTmp
          (st.run fun t => Stmt.getTSVal t (tsDest + i * 4)).2) (by simp)
      have e3 := execStmt_frame
        (execStmt (execStmt (execStmts r0 st.stmts)
          (Stmt.getTSVal st.nextTmp (tsDest + i * 4)))
          (Stmt.nonZeroCheck64 (st.run fun t => Stmt.getTSVal t (tsDest + i * 4)).1.nextTmp
            (st.run fun t => Stmt.getTSVal t (tsDest + i * 4)).2))
        (Stmt.svDisownNonNullG
          ((st.run fun t => Stmt.getTSVal t (tsDest + i * 4)).1.run fun t =>
            Stmt.nonZeroCheck64 t (st.run fun t => Stmt.getTSVal t (tsDest + i * 4)).2).2
          (st.run fun t => Stmt.getTSVal t (tsDest + i * 4)).2) (by simp)
      exact ⟨e3.1.trans (e2.1.trans e1.1), e3.2.1.trans (e2.2.1.trans e1.2.1),
        e3.2.2.trans (e2.2.2.trans e1.2.2)⟩
  · simp only [hc]
    exact PutFrame_refl st

theorem instrumentPutDisown_foldl_frame (canHave hasStatic : Nat → Bool) (tsDest : Nat)
    (l : List Nat) (st : InstrState) :
    PutFrame st (l.foldl (instrumentPutDisown canHave hasStatic tsDest) st) := by
  induction l generalizing st with
  | nil => exact PutFrame_refl st
  | cons a rest ih =>
    simp only [List.foldl_cons]
    exact PutFrame_trans _ _ _ (instrumentPutDisown_frame canHave hasStatic tsDest st a)
      (ih _)

theorem execStmts_addSetTSValUnshadowed (r0 : RunState) (st : InstrState) (a : Nat) :
    execStmts r0 (addSetTSValUnshadowed st a).stmts
      = execStmt (execStmts r0 st.stmts) (Stmt.setTSVal a (IRExpr.Const 0)) := by
  simp [addSetTSValUnshadowed, InstrState.setTsStatus, InstrState.emit, execStmts,
    List.foldl_append]

/-- The loop of `addSetTSValUnshadowed` calls: every covered offset gets the
status Unshadowed and, at run time, a null register shadow. -/
theorem putUnshadowed_loop (tsDest n : Nat) (st : InstrState) :
    ∀ i, i < n →
      ((List.range n).foldl (fun s j => addSetTSValUnshadowed s (tsDest + j * 4)) st).tsShadowStatus
          (tsDest + i * 4) = ShadowStatus.Ss_Unshadowed ∧
      ∀ r0 : RunState,
        (execStmts r0 ((List.range n).foldl
          (fun s j => addSetTSValUnshadowed s (tsDest + j * 4)) st).stmts).s.shadowThreadState
            (tsDest + i * 4) = 0 := by
  induction n with
  | zero => intro i hi; omega
  | succ k ih =>
    intro i hi
    rw [List.range_succ, List.foldl_append]
    simp only [List.foldl_cons, List.foldl_nil]
    by_cases hik : i = k
    · subst hik
      refine ⟨by simp [addSetTSValUnshadowed, InstrState.setTsStatus, upd], fun r0 => ?_⟩
      rw [execStmts_addSetTSValUnshadowed]
      simp [execStmt, upd, evalExpr]
    · have hlt : i < k := by omega
      have hne : tsDest + i * 4 ≠ tsDest + k * 4 := by omega
      obtain ⟨h1, h2⟩ := ih i hlt
      refine ⟨?_, fun r0 => ?_⟩
      · simpa [addSetTSValUnshadowed, InstrState.setTsStatus, InstrState.emit, upd, hne] using h1
      · rw [execStmts_addSetTSValUnshadowed]
        simpa [execStmt, upd, hne] using h2 r0

/-- Body of the loop of the Shadowed case of `instrumentPut`, for the values
array read from temp `vals`. -/
theorem putShadowed_loop (tsDest tV n : Nat) (st : InstrState) (htV : tV < st.nextTmp) :
    st.nextTmp ≤ ((List.range n).foldl
        (fun s j =>
          ((((s.run (fun t => Stmt.index t (IRExpr.RdTmp tV) j)).1.emit
            (Stmt.svOwn (s.run (fun t => Stmt.index t (IRExpr.RdTmp tV) j)).2)).emit
            (Stmt.setTSVal (tsDest + j * 4)
              (s.run (fun t => Stmt.index t (IRExpr.RdTmp tV) j)).2)).setTsStatus
                (tsDest + j * 4) ShadowStatus.Ss_Shadowed)) st).nextTmp ∧
    (∀ i, i < n → ((List.range n).foldl
        (fun s j =>
          ((((s.run (fun t => Stmt.index t (IRExpr.RdTmp tV) j)).1.emit
            (Stmt.svOwn (s.run (fun t => Stmt.index t (IRExpr.RdTmp tV) j)).2)).emit
            (Stmt.setTSVal (tsDest + j * 4)
              (s.run (fun t => Stmt.index t (IRExpr.RdTmp tV) j)).2)).setTsStatus
                (tsDest + j * 4) ShadowStatus.Ss_Shadowed)) st).tsShadowStatus
          (tsDest + i * 4) = ShadowStatus.Ss_Shadowed) ∧
    ∀ r0 : RunState,
      (execStmts r0 ((List.range n).foldl
        (fun s j =>
          ((((s.run (fun t => Stmt.index t (IRExpr.RdTmp tV) j)).1.emit
            (Stmt.svOwn (s.run (fun t => Stmt.index t (IRExpr.RdTmp tV) j)).2)).emit
            (Stmt.setTSVal (tsDest + j * 4)
              (s.run (fun t => Stmt.index t (IRExpr.RdTmp tV) j)).2)).setTsStatus
                (tsDest + j * 4) ShadowStatus.Ss_Shadowed)) st).stmts).env tV
        = (execStmts r0 st.stmts).env tV ∧
      (execStmts r0 ((List.range n).foldl
        (fun s j =>
          ((((s.run (fun t => Stmt.index t (IRExpr.RdTmp tV) j)).1.emit
            (Stmt.svOwn (s.run (fun t => Stmt.index t (IRExpr.RdTmp tV) j)).2)).emit
            (Stmt.setTSVal (tsDest + j * 4)
              (s.run (fun t => Stmt.index t (IRExpr.RdTmp tV) j)).2)).setTsStatus
                (tsDest + j * 4) ShadowStatus.Ss_Shadowed)) st).stmts).s.temps
        = (execStmts r0 st.stmts).s.temps ∧
      ∀ i, i < n →
        (execStmts r0 ((List.range n).foldl
          (fun s j =>
            ((((s.run (fun t => Stmt.index t (IRExpr.RdTmp tV) j)).1.emit
              (Stmt.svOwn (s.run (fun t => Stmt.index t (IRExpr.RdTmp tV) j)).2)).emit
              (Stmt.setTSVal (tsDest + j * 4)
                (s.run (fun t => Stmt.index t (IRExpr.RdTmp tV) j)).2)).setTsStatus
                  (tsDest + j * 4) ShadowStatus.Ss_Shadowed)) st).stmts).s.shadowThreadState
            (tsDest + i * 4)
          = ((execStmts r0 st.stmts).s.temps ((execStmts r0 st.stmts).env tV)).values.getD i 0 := by
  induction n with
  | zero =>
    refine ⟨le_refl _, fun i hi => by omega, fun r0 => ⟨rfl, rfl, fun i hi => by omega⟩⟩
  | succ k ih =>
    obtain ⟨hnext, hstat, hrun⟩ := ih
    rw [List.range_succ, List.foldl_append]
    simp only [List.foldl_cons, List.foldl_nil]
    generalize hst : (List.range k).foldl
        (fun s j =>
          ((((s.run (fun t => Stmt.index t (IRExpr.RdTmp tV) j)).1.emit
            (Stmt.svOwn (s.run (fun t => Stmt.index t (IRExpr.RdTmp tV) j)).2)).emit
            (Stmt.setTSVal (tsDest + j * 4)
              (s.run (fun t => Stmt.index t (IRExpr.RdTmp tV) j)).2)).setTsStatus
                (tsDest + j * 4) ShadowStatus.Ss_Shadowed)) st = stk at hnext hstat hrun ⊢
    have hne : stk.nextTmp ≠ tV := by omega
    have hexec : ∀ r0 : RunState,
        execStmts r0 ((((stk.run (fun t => Stmt.index t (IRExpr.RdTmp tV) k)).1.emit
            (Stmt.svOwn (stk.run (fun t => Stmt.index t (IRExpr.RdTmp tV) k)).2)).emit
            (Stmt.setTSVal (tsDest + k * 4)
              (stk.run (fun t => Stmt.index t (IRExpr.RdTmp tV) k)).2)).setTsStatus
                (tsDest + k * 4) ShadowStatus.Ss_Shadowed).stmts
          = execStmt (execStmt (execStmt (execStmts r0 stk.stmts)
              (Stmt.index stk.nextTmp (IRExpr.RdTmp tV) k))
              (Stmt.svOwn (IRExpr.RdTmp stk.nextTmp)))
              (Stmt.setTSVal (tsDest + k * 4) (IRExpr.RdTmp stk.nextTmp)) := by
      intro r0
      simp [InstrState.setTsStatus, InstrState.emit, InstrState.run, execStmts,
        List.foldl_append]
    refine ⟨?_, ?_, fun r0 => ?_⟩
    · simp [InstrState.setTsStatus, InstrState.emit, InstrState.run]; omega
    · intro i hi
      by_cases hik : i = k
      · subst hik; simp [InstrState.setTsStatus, upd]
      · have hlt : i < k := by omega
        have hne' : tsDest + i * 4 ≠ tsDest + k * 4 := by omega
        simpa [InstrState.setTsStatus, InstrState.emit, InstrState.run, upd, hne'] using
          hstat i hlt
    · obtain ⟨henv, htemps, hts⟩ := hrun r0
      rw [hexec r0]
      have hown := ownShadowValue_frame (execStmts r0 stk.stmts).s
        ((((execStmts r0 stk.stmts).s.temps ((execStmts r0 stk.stmts).env tV)).values.getD k 0))
      refine ⟨?_, ?_, ?_⟩
      · simp [execStmt, upd, hne.symm, henv]
      · simp only [execStmt, evalExpr, upd_same]
        rw [hown.2.1]; exact htemps
      · intro i hi
        simp only [execStmt, evalExpr, upd_same]
        by_cases hik : i = k
        · subst hik
          simp [upd, hne.symm, henv, htemps]
        · have hlt : i < k := by omega
          have hne' : tsDest + i * 4 ≠ tsDest + k * 4 := by omega
          simp only [upd, hne', if_false]
          rw [hown.2.2]
          exact hts i hlt

/-- The loop of the Unknown case of `instrumentPut` gives every covered offset
the status Unknown. -/
theorem putUnknown_loop (tsDest n : Nat) (g vals : IRExpr) (st : InstrState) :
    ∀ i, i < n → ((List.range n).foldl
        (fun s j =>
          addSetTSValUnknown
            ((s.run (fun t => Stmt.indexG t g vals j)).1.emit
              (Stmt.svOwn (s.run (fun t => Stmt.indexG t g vals j)).2))
            (tsDest + j * 4) (s.run (fun t => Stmt.indexG t g vals j)).2) st).tsShadowStatus
          (tsDest + i * 4) = ShadowStatus.Ss_Unknown := by
  induction n with
  | zero => intro i hi; omega
  | succ k ih =>
    intro i hi
    rw [List.range_succ, List.foldl_append]
    simp only [List.foldl_cons, List.foldl_nil]
    by_cases hik : i = k
    · subst hik; simp [addSetTSValUnknown, InstrState.setTsStatus, upd]
    · have hlt : i < k := by omega
      have hne' : tsDest + i * 4 ≠ tsDest + k * 4 := by omega
      simpa [addSetTSValUnknown, InstrState.setTsStatus, InstrState.emit, InstrState.run, upd,
        hne'] using ih i hlt

/-- After the code emitted by `instrumentPut(tsDest, data)` has run, a covered
slot whose static status was set to Unshadowed holds null, and a covered slot
whose static status was set to Shadowed holds the block of the same index of
the source temp's shadow. -/
theorem put_status_matches_runtime (canHave hasStatic : Nat → Bool) (st : InstrState)
    (r0 : RunState) (tsDest : Nat) (data : IRExpr) (dest_size i : Nat) (hi : i < dest_size)
    (hsound : ∀ idx, data = IRExpr.RdTmp idx →
      st.tempShadowStatus idx = ShadowStatus.Ss_Shadowed →
      (execStmts r0 st.stmts).s.shadowTemps idx ≠ 0) :
    ((instrumentPut canHave hasStatic st tsDest data dest_size).tsShadowStatus (tsDest + i * 4)
        = ShadowStatus.Ss_Unshadowed →
      (execStmts r0 (instrumentPut canHave hasStatic st tsDest data dest_size).stmts
        ).s.shadowThreadState (tsDest + i * 4) = 0) ∧
    ((instrumentPut canHave hasStatic st tsDest data dest_size).tsShadowStatus (tsDest + i * 4)
        = ShadowStatus.Ss_Shadowed →
      ∃ idx, data = IRExpr.RdTmp idx ∧
        (execStmts r0 st.stmts).s.shadowTemps idx ≠ 0 ∧
        (execStmts r0 (instrumentPut canHave hasStatic st tsDest data dest_size).stmts
          ).s.shadowThreadState (tsDest + i * 4)
          = ((execStmts r0 st.stmts).s.temps
              ((execStmts r0 st.stmts).s.shadowTemps idx)).values.getD i 0) := by
  have hframe := instrumentPutDisown_foldl_frame canHave hasStatic tsDest
    (List.range dest_size) st
  generalize hst1 : (List.range dest_size).foldl
    (instrumentPutDisown canHave hasStatic tsDest) st = st1 at hframe
  obtain ⟨_, htemp, hrun⟩ := hframe
  cases data with
  | Const w =>
    have hdef : instrumentPut canHave hasStatic st tsDest (IRExpr.Const w) dest_size
        = (List.range dest_size).foldl
            (fun s j => addSetTSValUnshadowed s (tsDest + j * 4)) st1 := by
      simp only [instrumentPut, hst1]
    rw [hdef]
    obtain ⟨h1, h2⟩ := putUnshadowed_loop tsDest dest_size st1 i hi
    refine ⟨fun _ => h2 r0, fun h => ?_⟩
    rw [h1] at h; cases h
  | RdTmp idx =>
    cases hstat : st1.tempShadowStatus idx with
    | Ss_Unshadowed =>
      have hdef : instrumentPut canHave hasStatic st tsDest (IRExpr.RdTmp idx) dest_size
          = (List.range dest_size).foldl
              (fun s j => addSetTSValUnshadowed s (tsDest + j * 4)) st1 := by
        simp only [instrumentPut, hst1, hstat]
      rw [hdef]
      obtain ⟨h1, h2⟩ := putUnshadowed_loop tsDest dest_size st1 i hi
      refine ⟨fun _ => h2 r0, fun h => ?_⟩
      rw [h1] at h; cases h
    | Ss_Unknown =>
      have hdef : instrumentPut canHave hasStatic st tsDest (IRExpr.RdTmp idx) dest_size
          = (List.range dest_size).foldl
              (fun s j =>
                addSetTSValUnknown
                  ((s.run (fun t => Stmt.indexG t (IRExpr.RdTmp (st1.nextTmp + 1))
                      (IRExpr.RdTmp (st1.nextTmp + 1 + 1)) j)).1.emit
                    (Stmt.svOwn (s.run (fun t => Stmt.indexG t (IRExpr.RdTmp (st1.nextTmp + 1))
                      (IRExpr.RdTmp (st1.nextTmp + 1 + 1)) j)).2))
                  (tsDest + j * 4)
                  (s.run (fun t => Stmt.indexG t (IRExpr.RdTmp (st1.nextTmp + 1))
                      (IRExpr.RdTmp (st1.nextTmp + 1 + 1)) j)).2)
              (((st1.run (fun t => Stmt.loadTemp t idx)).1.run
                (fun t => Stmt.nonZeroCheck64 t (IRExpr.RdTmp st1.nextTmp))).1.run
                (fun t => Stmt.arrowValuesG t (IRExpr.RdTmp (st1.nextTmp + 1))
                  (IRExpr.RdTmp st1.nextTmp))).1 := by
        simp only [instrumentPut, hst1, hstat]
        rfl
      rw [hdef]
      have h1 := putUnknown_loop tsDest dest_size (IRExpr.RdTmp (st1.nextTmp + 1))
        (IRExpr.RdTmp (st1.nextTmp + 1 + 1))
        (((st1.run (fun t => Stmt.loadTemp t idx)).1.run
          (fun t => Stmt.nonZeroCheck64 t (IRExpr.RdTmp st1.nextTmp))).1.run
          (fun t => Stmt.arrowValuesG t (IRExpr.RdTmp (st1.nextTmp + 1))
            (IRExpr.RdTmp st1.nextTmp))).1 i hi
      refine ⟨fun h => ?_, fun h => ?_⟩
      · rw [h1] at h; cases h
      · rw [h1] at h; cases h
    | Ss_Shadowed =>
      have hdef : instrumentPut canHave hasStatic st tsDest (IRExpr.RdTmp idx) dest_size
          = (List.range dest_size).foldl
              (fun s j =>
                ((((s.run (fun t => Stmt.index t (IRExpr.RdTmp (st1.nextTmp + 1)) j)).1.emit
                  (Stmt.svOwn (s.run (fun t => Stmt.index t
                    (IRExpr.RdTmp (st1.nextTmp + 1)) j)).2)).emit
                  (Stmt.setTSVal (tsDest + j * 4)
                    (s.run (fun t => Stmt.index t
                      (IRExpr.RdTmp (st1.nextTmp + 1)) j)).2)).setTsStatus
                      (tsDest + j * 4) ShadowStatus.Ss_Shadowed))
              ((st1.run (fun t => Stmt.loadTemp t idx)).1.run
                (fun t => Stmt.arrowValues t (IRExpr.RdTmp st1.nextTmp))).1 := by
        simp only [instrumentPut, hst1, hstat]
        rfl
      rw [hdef]
      obtain ⟨_, h1, h2⟩ := putShadowed_loop tsDest (st1.nextTmp + 1) dest_size
        ((st1.run (fun t => Stmt.loadTemp t idx)).1.run
          (fun t => Stmt.arrowValues t (IRExpr.RdTmp st1.nextTmp))).1
        (by simp [InstrState.run])
      obtain ⟨_, _, h3⟩ := h2 r0
      have hstart : execStmts r0 ((st1.run (fun t => Stmt.loadTemp t idx)).1.run
            (fun t => Stmt.arrowValues t (IRExpr.RdTmp st1.nextTmp))).1.stmts
          = execStmt (execStmt (execStmts r0 st1.stmts) (Stmt.loadTemp st1.nextTmp idx))
              (Stmt.arrowValues (st1.nextTmp + 1) (IRExpr.RdTmp st1.nextTmp)) := by
        simp [InstrState.run, execStmts, List.foldl_append]
      obtain ⟨e1, e2, _⟩ := hrun r0
      have hstat' : st.tempShadowStatus idx = ShadowStatus.Ss_Shadowed := by
        rw [← htemp]; exact hstat
      refine ⟨fun h => ?_, fun _ => ⟨idx, rfl, hsound idx rfl hstat', ?_⟩⟩
      · rw [h1 i hi] at h; cases h
      · rw [h3 i hi, hstart]
        simp [execStmt, evalExpr, upd, e1, e2]

/-- Block `i` of the `values` array that the operand loop of `executeShadowOp`
leaves: null in the odd blocks of a double-precision operation, the result of
the channel otherwise. -/
theorem executeShadowOpValues_getD (argPrecision : ValueType) (n : Nat) (channel : Nat → Nat)
    (i : Nat) (hi : i < n) :
    (executeShadowOpValues argPrecision n channel).getD i 0 =
      if argPrecision = ValueType.Vt_Double ∧ i % 2 = 1 then 0 else channel i := by
  simp [executeShadowOpValues, List.getD_eq_getElem?_getD, hi]

/-- C5 (as amended): after the instrumentation emitted by
`instrumentPut(tsDest, data)` has run, every covered register-shadow slot
whose static status was set to Unshadowed holds null, and every covered slot
whose static status was set to Shadowed holds the block of the same index of
the source temp's shadow, which is non-null when the source temp's status
Shadowed was sound; this holds on every execution and for every size of
`data`. When that shadow is the temp `executeShadowOp` has built for an
operation of `dest_size` operand blocks whose channels returned non-null
values, the slot holds null exactly if the operation is double-precision and
the block is an odd one: a single-precision block and the first block of a
double are non-null, the second block of a double is null. -/
theorem C5_put_status_matches_runtime (canHave hasStatic : Nat → Bool) (st : InstrState)
    (r0 : RunState) (tsDest : Nat) (data : IRExpr) (dest_size i : Nat) (hi : i < dest_size)
    (hsound : ∀ idx, data = IRExpr.RdTmp idx →
      st.tempShadowStatus idx = ShadowStatus.Ss_Shadowed →
      (execStmts r0 st.stmts).s.shadowTemps idx ≠ 0) :
    ((instrumentPut canHave hasStatic st tsDest data dest_size).tsShadowStatus (tsDest + i * 4)
        = ShadowStatus.Ss_Unshadowed →
      (execStmts r0 (instrumentPut canHave hasStatic st tsDest data dest_size).stmts
        ).s.shadowThreadState (tsDest + i * 4) = 0) ∧
    ((instrumentPut canHave hasStatic st tsDest data dest_size).tsShadowStatus (tsDest + i * 4)
        = ShadowStatus.Ss_Shadowed →
      ∃ idx, data = IRExpr.RdTmp idx ∧
        (execStmts r0 st.stmts).s.shadowTemps idx ≠ 0 ∧
        (execStmts r0 (instrumentPut canHave hasStatic st tsDest data dest_size).stmts
          ).s.shadowThreadState (tsDest + i * 4)
          = ((execStmts r0 st.stmts).s.temps
              ((execStmts r0 st.stmts).s.shadowTemps idx)).values.getD i 0) ∧
    (∀ idx argPrecision channel, data = IRExpr.RdTmp idx →
      (instrumentPut canHave hasStatic st tsDest data dest_size).tsShadowStatus (tsDest + i * 4)
        = ShadowStatus.Ss_Shadowed →
      ((execStmts r0 st.stmts).s.temps ((execStmts r0 st.stmts).s.shadowTemps idx)).values
        = executeShadowOpValues argPrecision dest_size channel →
      (∀ j, j < dest_size → channel j ≠ 0) →
      ((execStmts r0 (instrumentPut canHave hasStatic st tsDest data dest_size).stmts
          ).s.shadowThreadState (tsDest + i * 4) = 0 ↔
        (argPrecision = ValueType.Vt_Double ∧ i % 2 = 1))) := by
  have hold := put_status_matches_runtime canHave hasStatic st r0 tsDest data dest_size i hi
    hsound
  refine ⟨hold.1, hold.2, ?_⟩
  intro idx argPrecision channel hdata hstat hvals hch
  obtain ⟨idx1, hd1, _, hslot⟩ := hold.2 hstat
  have hidx : idx1 = idx := by
    rw [hdata] at hd1
    cases hd1
    rfl
  subst hidx
  rw [hslot, hvals, executeShadowOpValues_getD argPrecision dest_size channel i hi]
  by_cases hc : argPrecision = ValueType.Vt_Double ∧ i % 2 = 1
  · simp [hc]
  · simp only [if_neg hc]
    exact ⟨fun h0 => absurd h0 (hch i hi), fun h => absurd h hc⟩

/-- Witness of C5: temp 7 holds the result of a double-precision operation of
two blocks; after the Put at offset 64 the slot 64 holds the value at address 1
and the slot 68 holds null, both with the status Shadowed. -/
theorem C5_put_status_matches_runtime_witness :
    (execStmts runAfterDoubleOp
      (instrumentPut (fun _ => true) (fun _ => false) instrAfterFloatOp 64
        (IRExpr.RdTmp 7) 2).stmts).s.shadowThreadState 64 = 1 ∧
    ((execStmts runAfterDoubleOp
      (instrumentPut (fun _ => true) (fun _ => false) instrAfterFloatOp 64
        (IRExpr.RdTmp 7) 2).stmts).s.shadowThreadState (64 + 1 * 4) = 0 ↔
      (ValueType.Vt_Double = ValueType.Vt_Double ∧ 1 % 2 = 1)) ∧
    ∃ idx, IRExpr.RdTmp 7 = IRExpr.RdTmp idx ∧
      (execStmts runAfterDoubleOp instrAfterFloatOp.stmts).s.shadowTemps idx ≠ 0 ∧
      (execStmts runAfterDoubleOp
        (instrumentPut (fun _ => true) (fun _ => false) instrAfterFloatOp 64
          (IRExpr.RdTmp 7) 2).stmts).s.shadowThreadState (64 + 0 * 4)
        = ((execStmts runAfterDoubleOp instrAfterFloatOp.stmts).s.temps
            ((execStmts runAfterDoubleOp instrAfterFloatOp.stmts).s.shadowTemps idx)
          ).values.getD 0 0 :=
  ⟨by decide,
   (C5_put_status_matches_runtime (fun _ => true) (fun _ => false) instrAfterFloatOp
    runAfterDoubleOp 64 (IRExpr.RdTmp 7) 2 1 (by decide)
    (by
      intro idx h _
      cases h
      decide)).2.2 7 ValueType.Vt_Double (fun _ => 1) rfl (by decide) rfl
      (fun _ _ => Nat.one_ne_zero),
   (C5_put_status_matches_runtime (fun _ => true) (fun _ => false) instrAfterFloatOp
    runAfterDoubleOp 64 (IRExpr.RdTmp 7) 2 0 (by decide)
    (by
      intro idx h _
      cases h
      decide)).2.1 (by decide)⟩

/-- C5 (counterexample to the claim as stated): temp 7 holds the result of a
double-precision operation, so its static status Shadowed is sound (its shadow
temp is non-null) and the second block of that shadow temp is null, as
`executeShadowOp` leaves it.  After the code emitted by `instrumentPut(64, t7)`
has run, the covered slot at offset 68 has static status Shadowed and holds
null. -/
theorem C5_counterexample :
    instrAfterFloatOp.tempShadowStatus 7 = ShadowStatus.Ss_Shadowed ∧
    runAfterDoubleOp.s.shadowTemps 7 ≠ 0 ∧
    (runAfterDoubleOp.s.temps (runAfterDoubleOp.s.shadowTemps 7)).values = [1, 0] ∧
    (instrumentPut (fun _ => true) (fun _ => false) instrAfterFloatOp 64
      (IRExpr.RdTmp 7) 2).tsShadowStatus 68 = ShadowStatus.Ss_Shadowed ∧
    (execStmts runAfterDoubleOp
      (instrumentPut (fun _ => true) (fun _ => false) instrAfterFloatOp 64
        (IRExpr.RdTmp 7) 2).stmts).s.shadowThreadState 68 = 0 := by
  decide

/-- C6 (the code at the failing input): a PutI of a constant into the array at
base 32 with index 0.  The store of `addSetTSValDynamic` goes to cell 32 of the
register shadow, but the value that `runGetTSValDynamic` loads for the disown
is read 32 bytes into the row, which is cell 4: the occupant of cell 32 (the
value at address 1) is overwritten with its count still 1 and without being
put on the free-list, while the occupant of cell 4 (the value at address 2) is
disowned and freed although cell 4 still refers to it. -/
theorem C6_instrumentPutI_at_failing_input :
    (instrumentPutI instrAfterFloatOp (IRExpr.RdTmp 5) 0 32 8 8 (IRExpr.Const 0) 1).stmts
      = [Stmt.arrayLookup 100 32 (IRExpr.RdTmp 5) 0 8 4,
         Stmt.getTSValDynamic 101 (IRExpr.RdTmp 100),
         Stmt.svDisown (IRExpr.RdTmp 101),
         Stmt.setTSValDynamic (IRExpr.RdTmp 100) (IRExpr.Const 0),
         Stmt.setTSValDynamic (IRExpr.RdTmp 100) (IRExpr.Const 0)] ∧
    runBeforePutI.s.shadowThreadState 32 = 1 ∧
    (execStmts runBeforePutI
      (instrumentPutI instrAfterFloatOp (IRExpr.RdTmp 5) 0 32 8 8 (IRExpr.Const 0) 1).stmts
      ).env 100 = 32 ∧
    (execStmts runBeforePutI
      (instrumentPutI instrAfterFloatOp (IRExpr.RdTmp 5) 0 32 8 8 (IRExpr.Const 0) 1).stmts
      ).env 101 = 2 ∧
    (execStmts runBeforePutI
      (instrumentPutI instrAfterFloatOp (IRExpr.RdTmp 5) 0 32 8 8 (IRExpr.Const 0) 1).stmts
      ).s.shadowThreadState 32 = 0 ∧
    ((execStmts runBeforePutI
      (instrumentPutI instrAfterFloatOp (IRExpr.RdTmp 5) 0 32 8 8 (IRExpr.Const 0) 1).stmts
      ).s.vals 1).ref_count = 1 ∧
    (execStmts runBeforePutI
      (instrumentPutI instrAfterFloatOp (IRExpr.RdTmp 5) 0 32 8 8 (IRExpr.Const 0) 1).stmts
      ).s.freedVals = 2 ∧
    ((execStmts runBeforePutI
      (instrumentPutI instrAfterFloatOp (IRExpr.RdTmp 5) 0 32 8 8 (IRExpr.Const 0) 1).stmts
      ).s.vals 2).next = 0 ∧
    (execStmts runBeforePutI
      (instrumentPutI instrAfterFloatOp (IRExpr.RdTmp 5) 0 32 8 8 (IRExpr.Const 0) 1).stmts
      ).s.shadowThreadState 4 = 2 := by
  decide

/-- C9 (the code at the failing input): one var group `[2, 3]` whose members
are observed under the different indices 0 and 1.  The inner loop takes node 3
out of the group and fills the new group with `mem 3`, the word stored at node
3, because the node pointer itself is passed to `VG_(addToXA)` as the address
of the element; the call as a whole ends with the partition `[[2], [3]]` only
if that word happens to be the address 3, and has no result (the scan of the
new group finds no lookup entry for its member) unless the word is one of the
two node addresses. -/
theorem C9_generalizeVarMap_at_failing_input :
    (∀ mem : Nat → Nat,
      generalizeVarMapInner mem (opLookupTable [(2, 0), (3, 1)]) 0 3 [[2, 3]] [(0, 0)] 1
        = some [[2], [mem 3]]) ∧
    (∀ mem : Nat → Nat,
      generalizeVarMap mem [[2, 3]] [(2, 0), (3, 1)]
        = if mem 3 = 2 ∨ mem 3 = 3 then some [[2], [mem 3]] else none) ∧
    generalizeVarMap (fun _ => 0) [[2, 3]] [(2, 0), (3, 1)] = none := by
  have hk : idxEntryKey 0 0 = 0 := by decide
  refine ⟨fun mem => ?_, fun mem => ?_, by decide⟩
  · simp [generalizeVarMapInner, opLookupTable, HT_lookup]
  · by_cases h2 : mem 3 = 2
    · simp [generalizeVarMap, generalizeVarMapOuter, generalizeVarMapInner, opLookupTable,
        HT_lookup, h2, hk]
    · by_cases h3 : mem 3 = 3
      · simp [generalizeVarMap, generalizeVarMapOuter, generalizeVarMapInner, opLookupTable,
          HT_lookup, h3, hk]
      · have h3' : ¬ 3 = mem 3 := fun h => h3 h.symm
        have h2' : ¬ 2 = mem 3 := fun h => h2 h.symm
        simp [generalizeVarMap, generalizeVarMapOuter, generalizeVarMapInner, opLookupTable,
          HT_lookup, h2, h3, h2', h3', hk]

theorem emitsOnly_fold (P : Stmt → Prop) (f : InstrState → Nat → InstrState)
    (hf : ∀ st i, ∃ c, EmitsOnly P st (f st i) c) (l : List Nat) (st : InstrState) :
    ∃ c, EmitsOnly P st (l.foldl f st) c := by
  induction l generalizing st with
  | nil => exact ⟨[], by simp [EmitsOnly]⟩
  | cons a rest ih =>
    obtain ⟨c1, h1, p1⟩ := hf st a
    obtain ⟨c2, h2, p2⟩ := ih (f st a)
    refine ⟨c1 ++ c2, ?_, ?_⟩
    · simp only [List.foldl_cons]
      rw [h2, h1, List.append_assoc]
    · intro s hs
      rcases List.mem_append.mp hs with h | h
      · exact p1 s h
      · exact p2 s h

/-- The first loop of `instrumentPut` emits no store, and for every covered
offset that can have a shadow it emits the load of the old occupant and the
disown (plain or guarded on non-null) of what was loaded. -/
theorem instrumentPut_disown_phase (canHave hasStatic : Nat → Bool) (tsDest : Nat)
    (l : List Nat) (st : InstrState) :
    ∃ pre, EmitsOnly (fun s => s.isTSStore = false) st
        (l.foldl (instrumentPutDisown canHave hasStatic tsDest) st) pre ∧
      ∀ i ∈ l, canHave (tsDest + i * 4) = true →
        ∃ t, Stmt.getTSVal t (tsDest + i * 4) ∈ pre ∧
          (Stmt.svDisown (IRExpr.RdTmp t) ∈ pre ∨
           ∃ g, Stmt.svDisownNonNullG g (IRExpr.RdTmp t) ∈ pre) := by
  induction l generalizing st with
  | nil => exact ⟨[], by simp [EmitsOnly], by simp⟩
  | cons a rest ih =>
    obtain ⟨pre2, ⟨h2, p2⟩, e2⟩ := ih (instrumentPutDisown canHave hasStatic tsDest st a)
    have hstep : ∃ c, EmitsOnly (fun s => s.isTSStore = false) st
        (instrumentPutDisown canHave hasStatic tsDest st a) c ∧
        (canHave (tsDest + a * 4) = true →
          ∃ t, Stmt.getTSVal t (tsDest + a * 4) ∈ c ∧
            (Stmt.svDisown (IRExpr.RdTmp t) ∈ c ∨
             ∃ g, Stmt.svDisownNonNullG g (IRExpr.RdTmp t) ∈ c)) := by
      unfold instrumentPutDisown
      by_cases hc : canHave (tsDest + a * 4) = true
      · by_cases hs : hasStatic (tsDest + a * 4) = true
        · refine ⟨[Stmt.getTSVal st.nextTmp (tsDest + a * 4),
            Stmt.svDisown (IRExpr.RdTmp st.nextTmp)], ⟨?_, ?_⟩, fun _ => ⟨st.nextTmp, ?_, ?_⟩⟩
          · simp [hc, hs, InstrState.emit, InstrState.run]
          · intro s hs'
            simp only [List.mem_cons, List.mem_singleton, List.not_mem_nil, or_false] at hs'
            rcases hs' with h | h <;> subst h <;> rfl
          · simp
          · simp
        · refine ⟨[Stmt.getTSVal st.nextTmp (tsDest + a * 4),
            Stmt.nonZeroCheck64 (st.nextTmp + 1) (IRExpr.RdTmp st.nextTmp),
            Stmt.svDisownNonNullG (IRExpr.RdTmp (st.nextTmp + 1)) (IRExpr.RdTmp st.nextTmp)],
            ⟨?_, ?_⟩, fun _ => ⟨st.nextTmp, ?_, ?_⟩⟩
          · simp [hc, hs, InstrState.emit, InstrState.run]
          · intro s hs'
            simp only [List.mem_cons, List.mem_singleton, List.not_mem_nil, or_false] at hs'
            rcases hs' with h | h | h <;> subst h <;> rfl
          · simp
          · exact Or.inr ⟨IRExpr.RdTmp (st.nextTmp + 1), by simp⟩
      · exact ⟨[], ⟨by simp [hc], by simp⟩, fun h => absurd h hc⟩
    obtain ⟨c1, ⟨h1, p1⟩, e1⟩ := hstep
    refine ⟨c1 ++ pre2, ⟨?_, ?_⟩, ?_⟩
    · simp only [List.foldl_cons]
      rw [h2, h1, List.append_assoc]
    · intro s hs
      rcases List.mem_append.mp hs with h | h
      · exact p1 s h
      · exact p2 s h
    · intro i hi hc
      rcases List.mem_cons.mp hi with h | h
      · subst h
        obtain ⟨t, ht, hd⟩ := e1 hc
        refine ⟨t, List.mem_append_left _ ht, ?_⟩
        rcases hd with hd | ⟨g, hd⟩
        · exact Or.inl (List.mem_append_left _ hd)
        · exact Or.inr ⟨g, List.mem_append_left _ hd⟩
      · obtain ⟨t, ht, hd⟩ := e2 i h hc
        refine ⟨t, List.mem_append_right _ ht, ?_⟩
        rcases hd with hd | ⟨g, hd⟩
        · exact Or.inl (List.mem_append_right _ hd)
        · exact Or.inr ⟨g, List.mem_append_right _ hd⟩

theorem emitsOnly_run (P : Stmt → Prop) (st : InstrState) (mk : Nat → Stmt)
    (h : P (mk st.nextTmp)) : EmitsOnly P st (st.run mk).1 [mk st.nextTmp] := by
  refine ⟨by simp [InstrState.run], ?_⟩
  intro s hs
  simp only [List.mem_singleton] at hs
  subst hs; exact h

theorem emitsOnly_trans (P : Stmt → Prop) (a b c : InstrState) (c1 c2 : List Stmt)
    (h1 : EmitsOnly P a b c1) (h2 : EmitsOnly P b c c2) : EmitsOnly P a c (c1 ++ c2) := by
  refine ⟨by rw [h2.1, h1.1, List.append_assoc], ?_⟩
  intro s hs
  rcases List.mem_append.mp hs with h | h
  · exact h1.2 s h
  · exact h2.2 s h

theorem instrumentPut_unfold_unshadowed (canHave hasStatic : Nat → Bool) (st : InstrState)
    (tsDest : Nat) (data : IRExpr) (dest_size : Nat)
    (h : (∃ w, data = IRExpr.Const w) ∨
      ∃ idx, data = IRExpr.RdTmp idx ∧
        ((List.range dest_size).foldl (instrumentPutDisown canHave hasStatic tsDest)
          st).tempShadowStatus idx = ShadowStatus.Ss_Unshadowed) :
    instrumentPut canHave hasStatic st tsDest data dest_size
      = (List.range dest_size).foldl
          (fun s j => addSetTSValUnshadowed s (tsDest + j * 4))
          ((List.range dest_size).foldl (instrumentPutDisown canHave hasStatic tsDest) st) := by
  rcases h with ⟨w, hw⟩ | ⟨idx, hidx, hstat⟩
  · subst hw; simp only [instrumentPut]
  · subst hidx; simp only [instrumentPut, hstat]

theorem instrumentPut_unfold_unknown (canHave hasStatic : Nat → Bool) (st st1 : InstrState)
    (tsDest idx dest_size : Nat)
    (hst1 : (List.range dest_size).foldl (instrumentPutDisown canHave hasStatic tsDest) st = st1)
    (hstat : st1.tempShadowStatus idx = ShadowStatus.Ss_Unknown) :
    instrumentPut canHave hasStatic st tsDest (IRExpr.RdTmp idx) dest_size
      = (List.range dest_size).foldl
          (fun s j =>
            addSetTSValUnknown
              ((s.run (fun t => Stmt.indexG t (IRExpr.RdTmp (st1.nextTmp + 1))
                  (IRExpr.RdTmp (st1.nextTmp + 1 + 1)) j)).1.emit
                (Stmt.svOwn (s.run (fun t => Stmt.indexG t (IRExpr.RdTmp (st1.nextTmp + 1))
                  (IRExpr.RdTmp (st1.nextTmp + 1 + 1)) j)).2))
              (tsDest + j * 4)
              (s.run (fun t => Stmt.indexG t (IRExpr.RdTmp (st1.nextTmp + 1))
                  (IRExpr.RdTmp (st1.nextTmp + 1 + 1)) j)).2)
          (((st1.run (fun t => Stmt.loadTemp t idx)).1.run
            (fun t => Stmt.nonZeroCheck64 t (IRExpr.RdTmp st1.nextTmp))).1.run
            (fun t => Stmt.arrowValuesG t (IRExpr.RdTmp (st1.nextTmp + 1))
              (IRExpr.RdTmp st1.nextTmp))).1 := by
  simp only [instrumentPut, hst1, hstat]
  rfl

theorem instrumentPut_unfold_shadowed (canHave hasStatic : Nat → Bool) (st st1 : InstrState)
    (tsDest idx dest_size : Nat)
    (hst1 : (List.range dest_size).foldl (instrumentPutDisown canHave hasStatic tsDest) st = st1)
    (hstat : st1.tempShadowStatus idx = ShadowStatus.Ss_Shadowed) :
    instrumentPut canHave hasStatic st tsDest (IRExpr.RdTmp idx) dest_size
      = (List.range dest_size).foldl
          (fun s j =>
            ((((s.run (fun t => Stmt.index t (IRExpr.RdTmp (st1.nextTmp + 1)) j)).1.emit
              (Stmt.svOwn (s.run (fun t => Stmt.index t
                (IRExpr.RdTmp (st1.nextTmp + 1)) j)).2)).emit
              (Stmt.setTSVal (tsDest + j * 4)
                (s.run (fun t => Stmt.index t
                  (IRExpr.RdTmp (st1.nextTmp + 1)) j)).2)).setTsStatus
                  (tsDest + j * 4) ShadowStatus.Ss_Shadowed))
          ((st1.run (fun t => Stmt.loadTemp t idx)).1.run
            (fun t => Stmt.arrowValues t (IRExpr.RdTmp st1.nextTmp))).1 := by
  simp only [instrumentPut, hst1, hstat]
  rfl

theorem putShadowed_loop_emits (tsDest n : Nat) (vals : IRExpr) (st : InstrState) :
    ∃ c, EmitsOnly (fun s => s.isDisown = false) st
      ((List.range n).foldl
        (fun s j =>
          ((((s.run (fun t => Stmt.index t vals j)).1.emit
            (Stmt.svOwn (s.run (fun t => Stmt.index t vals j)).2)).emit
            (Stmt.setTSVal (tsDest + j * 4)
              (s.run (fun t => Stmt.index t vals j)).2)).setTsStatus
                (tsDest + j * 4) ShadowStatus.Ss_Shadowed)) st) c :=
  emitsOnly_fold _ _ (fun s i =>
    ⟨[Stmt.index s.nextTmp vals i, Stmt.svOwn (IRExpr.RdTmp s.nextTmp),
        Stmt.setTSVal (tsDest + i * 4) (IRExpr.RdTmp s.nextTmp)],
      by simp [InstrState.setTsStatus, InstrState.emit, InstrState.run],
      by
        intro x hx
        simp only [List.mem_cons, List.mem_singleton, List.not_mem_nil, or_false] at hx
        rcases hx with h | h | h <;> subst h <;> rfl⟩) _ _

theorem putUnknown_loop_emits (tsDest n : Nat) (g vals : IRExpr) (st : InstrState) :
    ∃ c, EmitsOnly (fun s => s.isDisown = false) st
      ((List.range n).foldl
        (fun s j =>
          addSetTSValUnknown
            ((s.run (fun t => Stmt.indexG t g vals j)).1.emit
              (Stmt.svOwn (s.run (fun t => Stmt.indexG t g vals j)).2))
            (tsDest + j * 4) (s.run (fun t => Stmt.indexG t g vals j)).2) st) c :=
  emitsOnly_fold _ _ (fun s i =>
    ⟨[Stmt.indexG s.nextTmp g vals i, Stmt.svOwn (IRExpr.RdTmp s.nextTmp),
        Stmt.setTSVal (tsDest + i * 4) (IRExpr.RdTmp s.nextTmp)],
      by simp [addSetTSValUnknown, InstrState.setTsStatus, InstrState.emit, InstrState.run],
      by
        intro x hx
        simp only [List.mem_cons, List.mem_singleton, List.not_mem_nil, or_false] at hx
        rcases hx with h | h | h <;> subst h <;> rfl⟩) _ _

/-- Everything `instrumentPut` emits after its first loop is free of disowns. -/
theorem instrumentPut_store_phase (canHave hasStatic : Nat → Bool) (st : InstrState)
    (tsDest : Nat) (data : IRExpr) (dest_size : Nat) :
    ∃ post, EmitsOnly (fun s => s.isDisown = false)
      ((List.range dest_size).foldl (instrumentPutDisown canHave hasStatic tsDest) st)
      (instrumentPut canHave hasStatic st tsDest data dest_size) post := by
  have hunsh : ∀ st1 : InstrState, ∃ post, EmitsOnly (fun s => s.isDisown = false) st1
      ((List.range dest_size).foldl
        (fun s j => addSetTSValUnshadowed s (tsDest + j * 4)) st1) post := fun st1 =>
    emitsOnly_fold _ _ (fun s i =>
      ⟨[Stmt.setTSVal (tsDest + i * 4) (IRExpr.Const 0)],
        by simp [addSetTSValUnshadowed, InstrState.setTsStatus, InstrState.emit],
        by intro x hx; simp only [List.mem_singleton] at hx; subst hx; rfl⟩) _ _
  cases data with
  | Const w =>
    rw [instrumentPut_unfold_unshadowed canHave hasStatic st tsDest _ dest_size
      (Or.inl ⟨w, rfl⟩)]
    exact hunsh _
  | RdTmp idx =>
    cases hstat : ((List.range dest_size).foldl (instrumentPutDisown canHave hasStatic tsDest)
        st).tempShadowStatus idx with
    | Ss_Unshadowed =>
      rw [instrumentPut_unfold_unshadowed canHave hasStatic st tsDest _ dest_size
        (Or.inr ⟨idx, rfl, hstat⟩)]
      exact hunsh _
    | Ss_Unknown =>
      rw [instrumentPut_unfold_unknown canHave hasStatic st _ tsDest idx dest_size rfl hstat]
      obtain ⟨c3, h3⟩ := putUnknown_loop_emits tsDest dest_size _ _ _
      exact ⟨_, emitsOnly_trans _ _ _ _ _ _
        (emitsOnly_trans _ _ _ _ _ _
          (emitsOnly_trans _ _ _ _ _ _
            (emitsOnly_run (fun s => s.isDisown = false) _ (fun t => Stmt.loadTemp t idx) rfl)
            (emitsOnly_run (fun s => s.isDisown = false) _
              (fun t => Stmt.nonZeroCheck64 t _) rfl))
          (emitsOnly_run (fun s => s.isDisown = false) _
            (fun t => Stmt.arrowValuesG t _ _) rfl)) h3⟩
    | Ss_Shadowed =>
      rw [instrumentPut_unfold_shadowed canHave hasStatic st _ tsDest idx dest_size rfl hstat]
      obtain ⟨c3, h3⟩ := putShadowed_loop_emits tsDest dest_size _ _
      exact ⟨_, emitsOnly_trans _ _ _ _ _ _
        (emitsOnly_trans _ _ _ _ _ _
          (emitsOnly_run (fun s => s.isDisown = false) _ (fun t => Stmt.loadTemp t idx) rfl)
          (emitsOnly_run (fun s => s.isDisown = false) _ (fun t => Stmt.arrowValues t _) rfl))
        h3⟩

/-- Order of the code emitted by `instrumentPut`: it consists of a first part
without any store into the register shadow, which for every covered offset
that can have a shadow contains the load of the old occupant and its disown,
followed by a second part without any disown. -/
theorem instrumentPut_disowns_before_stores (canHave hasStatic : Nat → Bool)
    (st : InstrState) (tsDest : Nat) (data : IRExpr) (dest_size : Nat) :
    ∃ pre post,
      (instrumentPut canHave hasStatic st tsDest data dest_size).stmts
        = st.stmts ++ pre ++ post ∧
      (∀ s ∈ pre, s.isTSStore = false) ∧
      (∀ s ∈ post, s.isDisown = false) ∧
      ∀ i, i < dest_size → canHave (tsDest + i * 4) = true →
        ∃ t, Stmt.getTSVal t (tsDest + i * 4) ∈ pre ∧
          (Stmt.svDisown (IRExpr.RdTmp t) ∈ pre ∨
           ∃ g, Stmt.svDisownNonNullG g (IRExpr.RdTmp t) ∈ pre) := by
  obtain ⟨pre, ⟨h1, p1⟩, e1⟩ :=
    instrumentPut_disown_phase canHave hasStatic tsDest (List.range dest_size) st
  obtain ⟨post, h2, p2⟩ := instrumentPut_store_phase canHave hasStatic st tsDest data dest_size
  refine ⟨pre, post, by rw [h2, h1], p1, p2, fun i hi hc => e1 i (List.mem_range.mpr hi) hc⟩

/-! ## Client requests -/

theorem handler_untagged {σ : Type} (c : UserReqCodes) (f : RequestCallees σ)
    (arg : Nat → Nat) (t : ToolState σ)
    (h : VG_IS_TOOL_USERREQ 0x48 0x42 (arg 0) = false) :
    hg_handle_client_request c f arg t = (false, t) := by
  simp [hg_handle_client_request, h]

theorem handler_unknown {σ : Type} (c : UserReqCodes) (f : RequestCallees σ)
    (arg : Nat → Nat) (t : ToolState σ) (h : arg 0 ∉ c.labels) :
    hg_handle_client_request c f arg t = (false, t) := by
  simp only [UserReqCodes.labels, List.mem_cons, List.mem_singleton, List.mem_nil_iff,
    or_false, not_or] at h
  obtain ⟨h1, h2, h3, h4, h5, h6, h7, h8, h9⟩ := h
  simp [hg_handle_client_request, h1, h2, h3, h4, h5, h6, h7, h8, h9]

theorem handler_known {σ : Type} (c : UserReqCodes) (f : RequestCallees σ)
    (arg : Nat → Nat) (t : ToolState σ)
    (htag : VG_IS_TOOL_USERREQ 0x48 0x42 (arg 0) = true) (h : arg 0 ∈ c.labels) :
    (hg_handle_client_request c f arg t).1 = true ∧
      (hg_handle_client_request c f arg t).2.ret = 0 := by
  simp only [UserReqCodes.labels, List.mem_cons, List.mem_singleton, List.mem_nil_iff,
    or_false] at h
  unfold hg_handle_client_request
  rw [if_neg (by simp [htag])]
  dsimp only
  repeat' split
  all_goals first | exact ⟨rfl, rfl⟩ | (exfalso; simp_all)

/-- Claim C19: `hg_handle_client_request` returns `False` and leaves
`running_depth`, `*ret` and everything else as they were when the request does
not carry the tool tag or its code is none of the case labels; for a tagged
request whose code is one of the labels it returns `True` and `*ret` is 0. -/
theorem C19_handler_result {σ : Type} (c : UserReqCodes) (f : RequestCallees σ)
    (arg : Nat → Nat) (t : ToolState σ) :
    ((VG_IS_TOOL_USERREQ 0x48 0x42 (arg 0) = false ∨ arg 0 ∉ c.labels) →
        hg_handle_client_request c f arg t = (false, t)) ∧
    ((VG_IS_TOOL_USERREQ 0x48 0x42 (arg 0) = true ∧ arg 0 ∈ c.labels) →
        (hg_handle_client_request c f arg t).1 = true ∧
        (hg_handle_client_request c f arg t).2.ret = 0) := by
  refine ⟨fun h => ?_, fun h => handler_known c f arg t h.1 h.2⟩
  rcases h with h | h
  · exact handler_untagged c f arg t h
  · exact handler_unknown c f arg t h

/-- Witness of C19: an untagged word is refused with the state unchanged, and
the tagged request MARK_IMPORTANT is taken with `*ret` set to 0. -/
theorem C19_handler_result_witness :
    hg_handle_client_request exampleCodes exampleCallees (argsConst 7) ⟨3, 9, 0⟩
        = (false, ⟨3, 9, 0⟩) ∧
    ((hg_handle_client_request exampleCodes exampleCallees (argsConst 0x48420005)
        ⟨3, 9, 0⟩).1 = true ∧
     (hg_handle_client_request exampleCodes exampleCallees (argsConst 0x48420005)
        ⟨3, 9, 0⟩).2.ret = 0) :=
  ⟨(C19_handler_result exampleCodes exampleCallees (argsConst 7) ⟨3, 9, 0⟩).1
      (Or.inl (by decide)),
   (C19_handler_result exampleCodes exampleCallees (argsConst 0x48420005) ⟨3, 9, 0⟩).2
      ⟨by decide, by decide⟩⟩

/-- Claim C20: a tagged BEGIN request leaves `running_depth` one higher, a
tagged END request one lower, and every request that is neither leaves it as it
was. -/
theorem C20_running_depth {σ : Type} (c : UserReqCodes) (f : RequestCallees σ)
    (arg : Nat → Nat) (t : ToolState σ) (hne : c.BEGIN ≠ c.END) :
    (VG_IS_TOOL_USERREQ 0x48 0x42 (arg 0) = true → arg 0 = c.BEGIN →
        (hg_handle_client_request c f arg t).2.running_depth = t.running_depth + 1) ∧
    (VG_IS_TOOL_USERREQ 0x48 0x42 (arg 0) = true → arg 0 = c.END →
        (hg_handle_client_request c f arg t).2.running_depth = t.running_depth - 1) ∧
    ((arg 0 ≠ c.BEGIN ∧ arg 0 ≠ c.END) →
        (hg_handle_client_request c f arg t).2.running_depth = t.running_depth) := by
  refine ⟨fun htag h => ?_, fun htag h => ?_, fun h => ?_⟩
  · rw [h] at htag
    simp [hg_handle_client_request, htag, h]
  · have h1 : ¬ c.END = c.BEGIN := fun e => hne e.symm
    rw [h] at htag
    simp [hg_handle_client_request, htag, h, h1]
  · obtain ⟨h1, h2⟩ := h
    unfold hg_handle_client_request
    simp only [h1, h2, if_false]
    repeat' split
    all_goals rfl

/-- Witness of C20: from depth 3, BEGIN gives 4, END gives 2, FORCE_TRACK
gives 3. -/
theorem C20_running_depth_witness :
    (hg_handle_client_request exampleCodes exampleCallees (argsConst 0x48420000)
        ⟨3, 9, 0⟩).2.running_depth = 3 + 1 ∧
    (hg_handle_client_request exampleCodes exampleCallees (argsConst 0x48420001)
        ⟨3, 9, 0⟩).2.running_depth = 3 - 1 ∧
    (hg_handle_client_request exampleCodes exampleCallees (argsConst 0x48420008)
        ⟨3, 9, 0⟩).2.running_depth = 3 :=
  ⟨(C20_running_depth exampleCodes exampleCallees (argsConst 0x48420000) ⟨3, 9, 0⟩
      (by decide)).1 (by decide) (by decide),
   (C20_running_depth exampleCodes exampleCallees (argsConst 0x48420001) ⟨3, 9, 0⟩
      (by decide)).2.1 (by decide) (by decide),
   (C20_running_depth exampleCodes exampleCallees (argsConst 0x48420008) ⟨3, 9, 0⟩
      (by decide)).2.2 ⟨by decide, by decide⟩⟩

/-! ## The op tracker -/

/-- Claim C14, evaluated on the code: for an op `a` with 1.5 bits and an op `b`
with 1.0 bits of maximal error, `a.max_error > b.max_error` holds and yet
`cmp_debuginfo` returns 0 in both orders, because the difference of the doubles
is truncated to an `Int`; where the difference is a whole number the sign is
as claimed. -/
theorem C14_cmp_debuginfo_at_failing_input :
    CDouble.lt (opsHalfBitApart 2).max_error (opsHalfBitApart 1).max_error = true ∧
    cmp_debuginfo opsHalfBitApart 1 2 = 0 ∧
    cmp_debuginfo opsHalfBitApart 2 1 = 0 ∧
    cmp_debuginfo opsHalfBitApart 1 0 = -1 ∧
    cmp_debuginfo opsHalfBitApart 0 2 = 1 := by
  decide

/-! ## The variable map of a trace -/

/-- Claim C11, evaluated on the code. The key of the lookup in `registerLeaf`
is the double converted to a `UWord`, so 3.25 and 3.75 are both looked up as 3.
Whatever word the table reads back from the key field of a stored entry: when
it is 3 for 3.25, the leaves 3.25 and 3.75 of one trace get the same index 0
although their values differ; when it is not, two leaves that both hold 3.25
get the different indices 0 and 1. -/
theorem C11_initValVarMap_at_failing_inputs (storedKey : CDouble → Nat)
    (entries : List (Nat × Nat) → List (Nat × Nat)) :
    CDouble.ceq (CDouble.num 13 (-2)) (CDouble.num 15 (-2)) = false ∧
    CDouble.ceq (CDouble.num 13 (-2)) (CDouble.num 13 (-2)) = true ∧
    (if storedKey (CDouble.num 13 (-2)) = 3 then
      initValVarMap storedKey entries
        (twoLeaves (CDouble.num 13 (-2)) (CDouble.num 15 (-2))) 1 = [(3, 0), (2, 0)]
    else
      initValVarMap storedKey entries
        (twoLeaves (CDouble.num 13 (-2)) (CDouble.num 13 (-2))) 1 = [(3, 1), (2, 0)]) := by
  refine ⟨by decide, by decide, ?_⟩
  have h1 : CDouble.toUWord (CDouble.num 13 (-2)) = 3 := by decide
  have h2 : CDouble.toUWord (CDouble.num 15 (-2)) = 3 := by decide
  by_cases hk : storedKey (CDouble.num 13 (-2)) = 3
  · rw [if_pos hk]
    simp [initValVarMap, registerLeaf, twoLeaves, upd, HT_lookup, h1, h2, hk]
  · rw [if_neg hk]
    simp [initValVarMap, registerLeaf, twoLeaves, upd, HT_lookup, h1, hk]

/-! ## Printing an op AST -/

/-- Claim C12, evaluated on the code: a two-argument op over two variable
leaves that lie in two distinct var groups is printed `(+ x x)`, the same
string as when the two leaves share one group. The children are printed by
`opASTtoString`, which hands a leaf no table, so every variable leaf gets the
first name. -/
theorem C12_opASTtoString_at_failing_input :
    flipOpVarMap [[2], [3]] = [(3, 1), (2, 0)] ∧
    opASTtoString get_d_addr fmtNone symbolPlus (heapTwoVars [[2], [3]]) 2 1
      = some "(+ x x)" ∧
    opASTtoString get_d_addr fmtNone symbolPlus (heapTwoVars [[2, 3]]) 2 1
      = some "(+ x x)" := by
  decide

/-! ## Shadow operations -/

theorem mkShadowValueBare_other (s : State) (ty : FloatType) (q : Nat)
    (hq : q ≠ (mkShadowValueBare s ty).2) :
    (mkShadowValueBare s ty).1.vals q = s.vals q := by
  unfold mkShadowValueBare at hq ⊢
  by_cases he : stack_empty s.freedVals = true
  · simp only [he, if_true, newShadowValue] at hq ⊢
    simp [upd, hq]
  · simp only [he, stack_pop_fast] at hq ⊢
    simp only [Bool.false_eq_true, if_false] at hq ⊢
    simp [upd, hq]

theorem mkShadowValueBare_influences (s : State) (ty : FloatType)
    (hfree : s.freedVals ≠ 0 → (s.vals s.freedVals).influences = none) :
    ((mkShadowValueBare s ty).1.vals (mkShadowValueBare s ty).2).influences = none := by
  unfold mkShadowValueBare
  by_cases he : stack_empty s.freedVals = true
  · simp [he, newShadowValue, upd]
  · have hne : s.freedVals ≠ 0 := by
      intro h0
      exact he (by simp [stack_empty, h0])
    simp [he, stack_pop_fast, upd, hfree hne]

theorem mkShadowValue_influences (s : State) (ty : FloatType) (v : Int)
    (hfree : s.freedVals ≠ 0 → (s.vals s.freedVals).influences = none) :
    ((mkShadowValue s ty v).1.vals (mkShadowValue s ty v).2).influences = none := by
  have h := mkShadowValueBare_influences s ty hfree
  simp [mkShadowValue, upd, h]

theorem mulCase_of_addSub (op : IROp)
    (h : op.isAddCase = true ∨ op.isSubCase = true) : op.isMulCase = false := by
  cases op <;> simp_all [IROp.isAddCase, IROp.isSubCase, IROp.isMulCase]

theorem addCase_of_sub (op : IROp) (h : op.isSubCase = true) : op.isAddCase = false := by
  cases op <;> simp_all [IROp.isAddCase, IROp.isSubCase]

/-- Claim C15: when the op is a multiplication, neither `dont_ignore_pure_zeroes`
nor `no_reals` is set, one client argument is 0 and the real of the other
argument is not a NaN, `executeChannelShadowOp` leaves the global and the local
error aggregate of the op as they were and returns a value whose influence list
is null (the box it takes from the free list carries none). -/
theorem C15_pure_zero_multiplication {E R X : Type} (o : ShadowOpOptions)
    (f : ShadowOpHelpers E R X) (op_code : IROp) (opinfo : Nat) (args : Nat → Nat)
    (clientArgs : Nat → CDouble) (clientResult : CDouble) (t : ShadowOpState E R X)
    (hpz : o.dont_ignore_pure_zeroes = false) (hreals : o.no_reals = false)
    (hmul : op_code.isMulCase = true)
    (hzero : (CDouble.ceq (clientArgs 0) (CDouble.num 0 0) = true ∧
                f.isNaN (t.s.vals (args 1)).real = false) ∨
             (CDouble.ceq (clientArgs 1) (CDouble.num 0 0) = true ∧
                f.isNaN (t.s.vals (args 0)).real = false))
    (hfree : t.s.freedVals ≠ 0 → (t.s.vals t.s.freedVals).influences = none) :
    (executeChannelShadowOp o f op_code opinfo args clientArgs clientResult t).1.global_error
        = t.global_error ∧
    (executeChannelShadowOp o f op_code opinfo args clientArgs clientResult t).1.local_error
        = t.local_error ∧
    ((executeChannelShadowOp o f op_code opinfo args clientArgs clientResult t).1.s.vals
        (executeChannelShadowOp o f op_code opinfo args clientArgs clientResult t).2).influences
        = none := by
  have hp : pureZeroCase o f op_code args clientArgs t.s = true := by
    rcases hzero with ⟨ha, hb⟩ | ⟨ha, hb⟩ <;> simp [pureZeroCase, hpz, hreals, hmul, ha, hb]
  unfold executeChannelShadowOp
  simp only [hp, if_true]
  exact ⟨trivial, trivial, mkShadowValue_influences _ _ _ hfree⟩

/-- Witness of C15: the product of the client values 0 and 5. -/
theorem C15_pure_zero_multiplication_witness :
    (executeChannelShadowOp exampleOptions exampleHelpers IROp.Iop_MulF64 40 argsOneTwo
        clientZeroFive (CDouble.num 0 0) stateTwoArgs).1.global_error
        = stateTwoArgs.global_error ∧
    (executeChannelShadowOp exampleOptions exampleHelpers IROp.Iop_MulF64 40 argsOneTwo
        clientZeroFive (CDouble.num 0 0) stateTwoArgs).1.local_error
        = stateTwoArgs.local_error ∧
    ((executeChannelShadowOp exampleOptions exampleHelpers IROp.Iop_MulF64 40 argsOneTwo
        clientZeroFive (CDouble.num 0 0) stateTwoArgs).1.s.vals
        (executeChannelShadowOp exampleOptions exampleHelpers IROp.Iop_MulF64 40 argsOneTwo
        clientZeroFive (CDouble.num 0 0) stateTwoArgs).2).influences = none :=
  C15_pure_zero_multiplication exampleOptions exampleHelpers IROp.Iop_MulF64 40 argsOneTwo
    clientZeroFive (CDouble.num 0 0) stateTwoArgs rfl rfl rfl
    (Or.inl ⟨by decide, by decide⟩) (fun _ => rfl)

/-- Influence list of the value `executeChannelShadowOp` returns when the
pure-zero return is not taken and no argument box is the box taken for the
result, in terms of the state before the call. -/
theorem executeChannelShadowOp_influences {E R X : Type} (o : ShadowOpOptions)
    (f : ShadowOpHelpers E R X) (op_code : IROp) (opinfo : Nat) (args : Nat → Nat)
    (clientArgs : Nat → CDouble) (clientResult : CDouble) (t : ShadowOpState E R X)
    (hp : pureZeroCase o f op_code args clientArgs t.s = false)
    (hlive : ∀ i, args i ≠ (mkShadowValueBare t.s (f.opArgPrecision op_code).toFloatType).2) :
    ((executeChannelShadowOp o f op_code opinfo args clientArgs clientResult t).1.s.vals
      (executeChannelShadowOp o f op_code opinfo args clientArgs clientResult t).2).influences =
    if (o.compensation_detection && !o.no_reals && op_code.isAddCase &&
        CDouble.ceq (f.getDouble (t.s.vals (args 0)).real) (CDouble.num 0 0) &&
        decide (f.ulpd (f.getDouble (f.execRealOp op_code (fun i => (t.s.vals (args i)).real)))
            clientResult ≤ f.ulpd (f.getDouble (t.s.vals (args 1)).real) (clientArgs 1))) = true
    then f.cloneInfluences (t.s.vals (args 1)).influences
    else if (o.compensation_detection && !o.no_reals &&
        (op_code.isAddCase || op_code.isSubCase) &&
        CDouble.ceq (f.getDouble (t.s.vals (args 1)).real) (CDouble.num 0 0) &&
        decide (f.ulpd (f.getDouble (f.execRealOp op_code (fun i => (t.s.vals (args i)).real)))
            clientResult ≤ f.ulpd (f.getDouble (t.s.vals (args 0)).real) (clientArgs 0))) = true
    then f.cloneInfluences (t.s.vals (args 0)).influences
    else f.execInfluencesOp opinfo
      ((mkShadowValueBare t.s (f.opArgPrecision op_code).toFloatType).1.vals
        (mkShadowValueBare t.s (f.opArgPrecision op_code).toFloatType).2).influences
      (fun i => (t.s.vals (args i)).influences)
      (CDouble.le o.error_threshold
        (f.execLocalOp opinfo t.local_error
          (f.execRealOp op_code (fun i => (t.s.vals (args i)).real))
          (fun i => (t.s.vals (args i)).real)).1) := by
  have hbox : ∀ i, (mkShadowValueBare t.s (f.opArgPrecision op_code).toFloatType).1.vals (args i)
      = t.s.vals (args i) := fun i => mkShadowValueBare_other t.s _ (args i) (hlive i)
  have hs1 : ∀ (x : ShadowValue) (i : Nat),
      upd (mkShadowValueBare t.s (f.opArgPrecision op_code).toFloatType).1.vals
        (mkShadowValueBare t.s (f.opArgPrecision op_code).toFloatType).2 x (args i)
      = t.s.vals (args i) := by
    intro x i
    have hne : args i ≠ (mkShadowValueBare t.s (f.opArgPrecision op_code).toFloatType).2 :=
      hlive i
    simp [upd, hne, hbox i]
  unfold executeChannelShadowOp
  simp only [hp, Bool.false_eq_true, if_false, hs1, hbox]
  split_ifs <;> simp [upd]

/-- Claim C16 as the code has it: with `compensation_detection` on and
`no_reals` off, for argument boxes other than the one taken for the result,
where `outputError` is `ulpd` of the computed real and the client result:
an op named by the addition labels (`Iop_Add32F0x4`, `Iop_Add64F0x2`,
`Iop_AddF64`, `Iop_AddF32`) whose first real is 0 and whose `outputError` does
not exceed the `ulpd` of the second argument returns a value whose influences
are the clone of the second argument's; failing that, an op named by these or by
the subtraction labels (`Iop_Sub32F0x4`, `Iop_Sub64F0x2`, `Iop_SubF64`,
`Iop_SubF32`) whose second real is 0 and whose `outputError` does not exceed the
`ulpd` of the first argument returns the clone of the first argument's
influences; a subtraction for which this second test fails gets its influences
from `execInfluencesOp`, whatever its first real is, and so does an addition for
which both tests fail; and every op that none of the eight labels names, the
packed additions and subtractions included, gets its influences from
`execInfluencesOp` (with the flag `bitsLocalError >= error_threshold`) whenever
the pure-zero return of the multiplications is not taken. -/
theorem C16_compensating_add_sub {E R X : Type} (o : ShadowOpOptions)
    (f : ShadowOpHelpers E R X) (op_code : IROp) (opinfo : Nat) (args : Nat → Nat)
    (clientArgs : Nat → CDouble) (clientResult : CDouble) (t : ShadowOpState E R X)
    (hcomp : o.compensation_detection = true) (hreals : o.no_reals = false)
    (hlive : ∀ i, args i ≠ (mkShadowValueBare t.s (f.opArgPrecision op_code).toFloatType).2) :
    let real := f.execRealOp op_code (fun i => (t.s.vals (args i)).real)
    let outputError := f.ulpd (f.getDouble real) clientResult
    let firstZero := CDouble.ceq (f.getDouble (t.s.vals (args 0)).real) (CDouble.num 0 0) = true ∧
      outputError ≤ f.ulpd (f.getDouble (t.s.vals (args 1)).real) (clientArgs 1)
    let secondZero := CDouble.ceq (f.getDouble (t.s.vals (args 1)).real) (CDouble.num 0 0) = true ∧
      outputError ≤ f.ulpd (f.getDouble (t.s.vals (args 0)).real) (clientArgs 0)
    let r := executeChannelShadowOp o f op_code opinfo args clientArgs clientResult t
    let box := mkShadowValueBare t.s (f.opArgPrecision op_code).toFloatType
    let propagated := f.execInfluencesOp opinfo (box.1.vals box.2).influences
      (fun i => (t.s.vals (args i)).influences)
      (CDouble.le o.error_threshold
        (f.execLocalOp opinfo t.local_error real (fun i => (t.s.vals (args i)).real)).1)
    (op_code.isAddCase = true → firstZero →
      (r.1.s.vals r.2).influences = f.cloneInfluences (t.s.vals (args 1)).influences) ∧
    (op_code.isAddCase = true ∨ op_code.isSubCase = true →
      ¬ (op_code.isAddCase = true ∧ firstZero) → secondZero →
      (r.1.s.vals r.2).influences = f.cloneInfluences (t.s.vals (args 0)).influences) ∧
    (op_code.isSubCase = true → ¬ secondZero → (r.1.s.vals r.2).influences = propagated) ∧
    (op_code.isAddCase = true → ¬ firstZero → ¬ secondZero →
      (r.1.s.vals r.2).influences = propagated) ∧
    (op_code.isAddCase = false → op_code.isSubCase = false →
      pureZeroCase o f op_code args clientArgs t.s = false →
      (r.1.s.vals r.2).influences = propagated) := by
  dsimp only
  have hpz : op_code.isAddCase = true ∨ op_code.isSubCase = true →
      pureZeroCase o f op_code args clientArgs t.s = false := by
    intro hop
    have hmul : op_code.isMulCase = false := mulCase_of_addSub op_code hop
    simp [pureZeroCase, hmul]
  refine ⟨fun hadd hz => ?_, fun hop hn hz => ?_, fun hsub hn => ?_, fun hadd hn1 hn2 => ?_,
    fun hadd hsub hp => ?_⟩
  · rw [executeChannelShadowOp_influences o f op_code opinfo args clientArgs clientResult t
      (hpz (Or.inl hadd)) hlive]
    obtain ⟨hz1, hz2⟩ := hz
    rw [if_pos (by simp [hcomp, hreals, hadd, hz1, hz2])]
  · rw [executeChannelShadowOp_influences o f op_code opinfo args clientArgs clientResult t
      (hpz hop) hlive]
    obtain ⟨hz1, hz2⟩ := hz
    rw [if_neg, if_pos]
    · simp only [Bool.and_eq_true, Bool.or_eq_true, decide_eq_true_eq, hcomp, hreals,
        Bool.not_false, true_and]
      exact ⟨⟨hop, hz1⟩, hz2⟩
    · intro h
      simp only [Bool.and_eq_true, decide_eq_true_eq] at h
      exact hn ⟨h.1.1.2, h.1.2, h.2⟩
  · rw [executeChannelShadowOp_influences o f op_code opinfo args clientArgs clientResult t
      (hpz (Or.inr hsub)) hlive]
    have hadd : op_code.isAddCase = false := addCase_of_sub op_code hsub
    rw [if_neg, if_neg]
    · intro h
      simp only [Bool.and_eq_true, decide_eq_true_eq] at h
      exact hn ⟨h.1.2, h.2⟩
    · simp [hadd]
  · rw [executeChannelShadowOp_influences o f op_code opinfo args clientArgs clientResult t
      (hpz (Or.inl hadd)) hlive]
    rw [if_neg, if_neg]
    · intro h
      simp only [Bool.and_eq_true, decide_eq_true_eq] at h
      exact hn2 ⟨h.1.2, h.2⟩
    · intro h
      simp only [Bool.and_eq_true, decide_eq_true_eq] at h
      exact hn1 ⟨h.1.2, h.2⟩
  · rw [executeChannelShadowOp_influences o f op_code opinfo args clientArgs clientResult t
      hp hlive]
    rw [if_neg, if_neg]
    · simp [hadd, hsub]
    · simp [hadd]

theorem argsOneTwo_live (i : Nat) :
    argsOneTwo i ≠ (mkShadowValueBare stateTwoArgs.s FloatType.Ft_Double).2 := by
  unfold argsOneTwo
  split <;> decide

theorem argsTwoOne_live (i : Nat) :
    argsTwoOne i ≠ (mkShadowValueBare stateTwoArgs.s FloatType.Ft_Double).2 := by
  unfold argsTwoOne
  split <;> decide

/-- Witness of C16: `0 + 5` takes the influences of its second argument,
`5 - 0` those of its first; `0 - 5` goes through `execInfluencesOp`, which adds
the op 40 when the local error reaches the threshold, and so does the packed
addition `0 + 5`. -/
theorem C16_compensating_add_sub_witness :
    ((executeChannelShadowOp exampleOptions exampleHelpers IROp.Iop_AddF64 40 argsOneTwo
        clientZeroFive (CDouble.num 5 0) stateTwoArgs).1.s.vals
      (executeChannelShadowOp exampleOptions exampleHelpers IROp.Iop_AddF64 40 argsOneTwo
        clientZeroFive (CDouble.num 5 0) stateTwoArgs).2).influences = some [9] ∧
    ((executeChannelShadowOp exampleOptions exampleHelpers IROp.Iop_SubF64 40 argsTwoOne
        clientFiveZero (CDouble.num 5 0) stateTwoArgs).1.s.vals
      (executeChannelShadowOp exampleOptions exampleHelpers IROp.Iop_SubF64 40 argsTwoOne
        clientFiveZero (CDouble.num 5 0) stateTwoArgs).2).influences = some [9] ∧
    ((executeChannelShadowOp exampleOptions exampleHelpersLocalError IROp.Iop_SubF64 40
        argsOneTwo clientZeroFive (CDouble.num (-5) 0) stateTwoArgs).1.s.vals
      (executeChannelShadowOp exampleOptions exampleHelpersLocalError IROp.Iop_SubF64 40
        argsOneTwo clientZeroFive (CDouble.num (-5) 0) stateTwoArgs).2).influences
      = some [40, 9] ∧
    ((executeChannelShadowOp exampleOptions exampleHelpersLocalError IROp.Iop_Add64Fx2 40
        argsOneTwo clientZeroFive (CDouble.num 5 0) stateTwoArgs).1.s.vals
      (executeChannelShadowOp exampleOptions exampleHelpersLocalError IROp.Iop_Add64Fx2 40
        argsOneTwo clientZeroFive (CDouble.num 5 0) stateTwoArgs).2).influences
      = some [40, 9] :=
  ⟨(C16_compensating_add_sub exampleOptions exampleHelpers IROp.Iop_AddF64 40 argsOneTwo
      clientZeroFive (CDouble.num 5 0) stateTwoArgs rfl rfl argsOneTwo_live).1
      rfl ⟨by decide, by decide⟩,
   (C16_compensating_add_sub exampleOptions exampleHelpers IROp.Iop_SubF64 40 argsTwoOne
      clientFiveZero (CDouble.num 5 0) stateTwoArgs rfl rfl argsTwoOne_live).2.1
      (Or.inr rfl) (by decide) ⟨by decide, by decide⟩,
   (C16_compensating_add_sub exampleOptions exampleHelpersLocalError IROp.Iop_SubF64 40
      argsOneTwo clientZeroFive (CDouble.num (-5) 0) stateTwoArgs rfl rfl
      argsOneTwo_live).2.2.1 rfl (by decide),
   (C16_compensating_add_sub exampleOptions exampleHelpersLocalError IROp.Iop_Add64Fx2 40
      argsOneTwo clientZeroFive (CDouble.num 5 0) stateTwoArgs rfl rfl
      argsOneTwo_live).2.2.2.2 rfl rfl rfl⟩

/-- Counterexample to C16 as stated: the packed addition `Iop_Add64Fx2` is named
by no case label. With compensation detection on, a first real of 0, an output
error that does not exceed the input error of the second argument and a local
error of 8 bits, above the threshold of 5, the value it returns gets its
influences from `execInfluencesOp`, which adds the op 40 itself to the
influence 9 of the second argument; the claim has the clone `[9]` of the second
argument's influences, whatever the local error, which is what `Iop_AddF64`
returns on the same input. -/
theorem C16_counterexample :
    exampleOptions.compensation_detection = true ∧ exampleOptions.no_reals = false ∧
    CDouble.ceq (exampleHelpersLocalError.getDouble (stateTwoArgs.s.vals (argsOneTwo 0)).real)
      (CDouble.num 0 0) = true ∧
    exampleHelpersLocalError.ulpd (exampleHelpersLocalError.getDouble
        (exampleHelpersLocalError.execRealOp IROp.Iop_Add64Fx2
          (fun i => (stateTwoArgs.s.vals (argsOneTwo i)).real))) (CDouble.num 5 0)
      ≤ exampleHelpersLocalError.ulpd
          (exampleHelpersLocalError.getDouble (stateTwoArgs.s.vals (argsOneTwo 1)).real)
          (clientZeroFive 1) ∧
    CDouble.le exampleOptions.error_threshold
      (exampleHelpersLocalError.execLocalOp 40 stateTwoArgs.local_error 5
        (fun i => (stateTwoArgs.s.vals (argsOneTwo i)).real)).1 = true ∧
    (stateTwoArgs.s.vals (argsOneTwo 1)).influences = some [9] ∧
    ((executeChannelShadowOp exampleOptions exampleHelpersLocalError IROp.Iop_Add64Fx2 40
        argsOneTwo clientZeroFive (CDouble.num 5 0) stateTwoArgs).1.s.vals
      (executeChannelShadowOp exampleOptions exampleHelpersLocalError IROp.Iop_Add64Fx2 40
        argsOneTwo clientZeroFive (CDouble.num 5 0) stateTwoArgs).2).influences
      = some [40, 9] ∧
    ((executeChannelShadowOp exampleOptions exampleHelpersLocalError IROp.Iop_AddF64 40
        argsOneTwo clientZeroFive (CDouble.num 5 0) stateTwoArgs).1.s.vals
      (executeChannelShadowOp exampleOptions exampleHelpersLocalError IROp.Iop_AddF64 40
        argsOneTwo clientZeroFive (CDouble.num 5 0) stateTwoArgs).2).influences = some [9] := by
  decide

/-! ## Operand temps of a shadow operation -/

theorem chainFrom_congr (vals vals1 : Nat → ShadowValue) (l : List Nat) :
    ∀ head, (∀ p ∈ l, vals1 p = vals p) → ChainFrom vals head l → ChainFrom vals1 head l := by
  induction l with
  | nil => intro head _ h; exact h
  | cons p l ih =>
    intro head hv h
    obtain ⟨h1, h2, h3⟩ := h
    refine ⟨h1, h2, ?_⟩
    rw [hv p (List.mem_cons_self p l)]
    exact ih _ (fun q hq => hv q (List.mem_cons_of_mem p hq)) h3

theorem mkShadowValue_made (s : State) (l : List Nat) (ty : FloatType) (v : Int)
    (h : FreeValsAre s l) :
    ∃ l1, MadeValue s l ty v (mkShadowValue s ty v).1 l1 (mkShadowValue s ty v).2 := by
  obtain ⟨hc, hnd, hlt, hb⟩ := h
  cases l with
  | nil =>
    have h0 : s.freedVals = 0 := hc
    have he : stack_empty s.freedVals = true := by simp [stack_empty, h0]
    have hbox : (mkShadowValue s ty v).2 = s.brk := by
      simp [mkShadowValue, mkShadowValueBare, he, newShadowValue]
    have hbrk : (mkShadowValue s ty v).1.brk = s.brk + 1 := by
      simp [mkShadowValue, mkShadowValueBare, he, newShadowValue]
    have hfv : (mkShadowValue s ty v).1.freedVals = 0 := by
      simpa [mkShadowValue, mkShadowValueBare, he, newShadowValue] using h0
    refine ⟨[], ?_⟩
    constructor
    · exact ⟨hfv, List.nodup_nil, fun p hp => absurd hp (List.not_mem_nil p), by omega⟩
    · intro p hp; exact hp
    · rw [hbox]; omega
    · exact List.not_mem_nil _
    · rw [hbox, hbrk]; omega
    · rw [hbrk]; omega
    · right; rw [hbox]
    · simp [mkShadowValue, mkShadowValueBare, he, newShadowValue, upd]
    · simp [mkShadowValue, mkShadowValueBare, he, newShadowValue, upd]
    · simp [mkShadowValue, mkShadowValueBare, he, newShadowValue, upd]
    · intro q hq
      rw [hbox] at hq
      simp [mkShadowValue, mkShadowValueBare, he, newShadowValue, upd, hq]
    · simp [mkShadowValue, mkShadowValueBare, he, newShadowValue]
    · simp [mkShadowValue, mkShadowValueBare, he, newShadowValue]
    · simp [mkShadowValue, mkShadowValueBare, he, newShadowValue]
    · simp [mkShadowValue, mkShadowValueBare, he, newShadowValue]
  | cons p l1 =>
    obtain ⟨h1, h2, h3⟩ := hc
    subst h1
    have he : stack_empty s.freedVals = false := by simp [stack_empty, h2]
    have hbox : (mkShadowValue s ty v).2 = s.freedVals := by
      simp [mkShadowValue, mkShadowValueBare, he, stack_pop_fast]
    have hbrk : (mkShadowValue s ty v).1.brk = s.brk := by
      simp [mkShadowValue, mkShadowValueBare, he, stack_pop_fast]
    have hfv : (mkShadowValue s ty v).1.freedVals = (s.vals s.freedVals).next := by
      simp [mkShadowValue, mkShadowValueBare, he, stack_pop_fast]
    have hp1 : s.freedVals ∉ l1 := (List.nodup_cons.mp hnd).1
    have hothers : ∀ q, q ≠ s.freedVals → (mkShadowValue s ty v).1.vals q = s.vals q := by
      intro q hq
      simp [mkShadowValue, mkShadowValueBare, he, stack_pop_fast, upd, hq]
    refine ⟨l1, ?_⟩
    constructor
    · refine ⟨?_, (List.nodup_cons.mp hnd).2, ?_, by rw [hbrk]; exact hb⟩
      · rw [hfv]
        exact chainFrom_congr s.vals _ l1 _
          (fun q hq => hothers q (fun e => hp1 (e ▸ hq))) h3
      · intro q hq
        rw [hbrk]
        exact hlt q (List.mem_cons_of_mem _ hq)
    · intro q hq; exact List.mem_cons_of_mem _ hq
    · rw [hbox]; exact h2
    · rw [hbox]; exact hp1
    · rw [hbox, hbrk]; exact hlt _ (List.mem_cons_self _ l1)
    · rw [hbrk]
    · left; rw [hbox]; exact List.mem_cons_self _ l1
    · simp [mkShadowValue, mkShadowValueBare, he, stack_pop_fast, upd]
    · simp [mkShadowValue, mkShadowValueBare, he, stack_pop_fast, upd]
    · simp [mkShadowValue, mkShadowValueBare, he, stack_pop_fast, upd]
    · intro q hq
      rw [hbox] at hq
      exact hothers q hq
    · simp [mkShadowValue, mkShadowValueBare, he, stack_pop_fast]
    · simp [mkShadowValue, mkShadowValueBare, he, stack_pop_fast]
    · simp [mkShadowValue, mkShadowValueBare, he, stack_pop_fast]
    · simp [mkShadowValue, mkShadowValueBare, he, stack_pop_fast]

theorem quickGetBucketG_false (m : ShadowMem) (memAddr : Nat) (h : memAddr ≠ 0) :
    quickGetBucketG m false memAddr = (0, false) := by
  have h1 : ¬ (0 = memAddr) := fun e => h e.symm
  simp [quickGetBucketG, h1]

theorem getMemUnknownGValue_false (m : ShadowMem) (size memSrc : Nat)
    (h : ∀ i, i < size → (memSrc + i * 4) % 2 ^ 64 ≠ 0) :
    getMemUnknownGValue m false size memSrc = 0 := by
  have hq : (List.range size).map (fun i => quickGetBucketG m false ((memSrc + i * 4) % 2 ^ 64))
      = (List.range size).map (fun _ => ((0 : Nat), false)) := by
    apply List.map_congr_left
    intro i hi
    exact quickGetBucketG_false m _ (h i (List.mem_range.mp hi))
  unfold getMemUnknownGValue
  rw [hq]
  simp

theorem evalExpr_upd_below (env : Nat → Nat) (n t w : Nat) (e : IRExpr) (he : e.below n)
    (ht : n ≤ t) : evalExpr (upd env t w) e = evalExpr env e := by
  cases e with
  | Const c => rfl
  | RdTmp tmp =>
    have hlt : tmp < n := he
    have hne : tmp ≠ t := by omega
    simp [evalExpr, upd, hne]

theorem execStmt_getMemUnknownG (r : RunState) (dst : Nat) (guard : IRExpr) (size : Nat)
    (memSrc : IRExpr) :
    execStmt r (Stmt.getMemUnknownG dst guard size memSrc) =
      (let w := getMemUnknownGValue r.mem (decide (evalExpr r.env guard ≠ 0)) size
        (evalExpr r.env memSrc)
       { r with env := upd r.env dst w }) := rfl

theorem execStmt_ite (r : RunState) (dst : Nat) (cond a b : IRExpr) :
    execStmt r (Stmt.ite dst cond a b) =
      (let w := if evalExpr r.env cond ≠ 0 then evalExpr r.env a else evalExpr r.env b
       { r with env := upd r.env dst w }) := rfl

theorem execStmt_storeTemp (r : RunState) (idx : Nat) (e : IRExpr) :
    execStmt r (Stmt.storeTemp idx e) =
      { r with s := { r.s with shadowTemps := upd r.s.shadowTemps idx (evalExpr r.env e) } } :=
  rfl

theorem execStmt_loadTemp (r : RunState) (dst idx : Nat) :
    execStmt r (Stmt.loadTemp dst idx) =
      { r with env := upd r.env dst (r.s.shadowTemps idx) } := rfl

/-- Claim C18 as the code has it: for a guarded load into a float temp,
`instrumentLoadG` records the status `Unknown` for the destination, and when the
guard is false at run time (and no block of the load lies at address 0) the code
it emits leaves in `shadowTemps[dest]` the shadow of the alternative value:
null if that is a constant, `shadowTemps[tmp]` if it is the temp `tmp`. -/
theorem C18_loadG_guard_false (st : InstrState) (dest : Nat) (altValue guard addr : IRExpr)
    (dest_size : Nat) (r0 : RunState)
    (hguard : evalExpr (execStmts r0 st.stmts).env guard = 0)
    (hbelow : guard.below st.nextTmp)
    (haddr : ∀ i, i < dest_size →
      (evalExpr (execStmts r0 st.stmts).env addr + i * 4) % 2 ^ 64 ≠ 0) :
    (instrumentLoadG true st dest altValue guard addr dest_size).tempShadowStatus dest
      = ShadowStatus.Ss_Unknown ∧
    (execStmts r0 (instrumentLoadG true st dest altValue guard addr dest_size).stmts).s.shadowTemps
      dest = altShadow (execStmts r0 st.stmts).s altValue := by
  constructor
  · cases altValue <;> simp [instrumentLoadG, InstrState.run, InstrState.emit, upd]
  · have hmem : getMemUnknownGValue (execStmts r0 st.stmts).mem false dest_size
        (evalExpr (execStmts r0 st.stmts).env addr) = 0 :=
      getMemUnknownGValue_false _ _ _ haddr
    have hg1 : ∀ w, evalExpr (upd (execStmts r0 st.stmts).env st.nextTmp w) guard = 0 := by
      intro w
      rw [evalExpr_upd_below _ st.nextTmp st.nextTmp w guard hbelow (le_refl _)]
      exact hguard
    have hg2 : ∀ w v, evalExpr (upd (upd (execStmts r0 st.stmts).env st.nextTmp w)
        (st.nextTmp + 1) v) guard = 0 := by
      intro w v
      rw [evalExpr_upd_below _ st.nextTmp (st.nextTmp + 1) v guard hbelow (Nat.le_succ _)]
      exact hg1 w
    have ec : ∀ (env : Nat → Nat) (w : Nat), evalExpr env (IRExpr.Const w) = w :=
      fun _ _ => rfl
    have er : ∀ (env : Nat → Nat) (t : Nat), evalExpr env (IRExpr.RdTmp t) = env t :=
      fun _ _ => rfl
    cases altValue with
    | Const c =>
      have hs : (instrumentLoadG true st dest (IRExpr.Const c) guard addr dest_size).stmts
          = st.stmts ++ [Stmt.getMemUnknownG st.nextTmp guard dest_size addr,
              Stmt.ite (st.nextTmp + 1) guard (IRExpr.RdTmp st.nextTmp) (IRExpr.Const 0),
              Stmt.storeTemp dest (IRExpr.RdTmp (st.nextTmp + 1))] := by
        simp [instrumentLoadG, InstrState.run, InstrState.emit]
      rw [hs]
      simp only [execStmts, List.foldl_append, List.foldl_cons, List.foldl_nil] at hguard hmem hg1 ⊢
      generalize List.foldl execStmt r0 st.stmts = R at hguard hmem hg1 ⊢
      rw [execStmt_getMemUnknownG, execStmt_ite, execStmt_storeTemp]
      simp [upd, ec, er, hguard, hmem, hg1, altShadow]
    | RdTmp tmp =>
      have hs : (instrumentLoadG true st dest (IRExpr.RdTmp tmp) guard addr dest_size).stmts
          = st.stmts ++ [Stmt.getMemUnknownG st.nextTmp guard dest_size addr,
              Stmt.loadTemp (st.nextTmp + 1) tmp,
              Stmt.ite (st.nextTmp + 1 + 1) guard (IRExpr.RdTmp st.nextTmp)
                (IRExpr.RdTmp (st.nextTmp + 1)),
              Stmt.storeTemp dest (IRExpr.RdTmp (st.nextTmp + 1 + 1))] := by
        simp [instrumentLoadG, InstrState.run, InstrState.emit]
      rw [hs]
      simp only [execStmts, List.foldl_append, List.foldl_cons, List.foldl_nil] at hguard hmem hg2 ⊢
      generalize List.foldl execStmt r0 st.stmts = R at hguard hmem hg2 ⊢
      rw [execStmt_getMemUnknownG, execStmt_loadTemp, execStmt_ite, execStmt_storeTemp]
      simp [upd, ec, er, hguard, hmem, hg2, altShadow]

/-- Witness of C18: a load into temp 8 guarded by the constant false, whose
alternative is the shadowed temp 7. -/
theorem C18_loadG_guard_false_witness :
    (instrumentLoadG true instrAfterFloatOp 8 (IRExpr.RdTmp 7) (IRExpr.Const 0)
      (IRExpr.Const 4096) 2).tempShadowStatus 8 = ShadowStatus.Ss_Unknown ∧
    (execStmts runAfterDoubleOp (instrumentLoadG true instrAfterFloatOp 8 (IRExpr.RdTmp 7)
      (IRExpr.Const 0) (IRExpr.Const 4096) 2).stmts).s.shadowTemps 8
      = altShadow (execStmts runAfterDoubleOp instrAfterFloatOp.stmts).s (IRExpr.RdTmp 7) :=
  C18_loadG_guard_false instrAfterFloatOp 8 (IRExpr.RdTmp 7) (IRExpr.Const 0)
    (IRExpr.Const 4096) 2 runAfterDoubleOp rfl trivial
    (fun i hi => by
      have h : i = 0 ∨ i = 1 := by omega
      rcases h with h | h <;> subst h <;> decide)

/-- Counterexample to C18 as stated: with a false guard and an empty shadow
memory the recorded status of the destination is `Unknown`, not `Unshadowed`,
whether the alternative is a constant or a temp; and when the alternative is the
shadowed temp 7, the destination slot holds that temp's shadow, not null. -/
theorem C18_counterexample :
    runAfterDoubleOp.mem.shadowMemTable = emptyShadowMem.shadowMemTable ∧
    (instrumentLoadG true instrAfterFloatOp 8 (IRExpr.Const 0) (IRExpr.Const 0)
      (IRExpr.Const 4096) 2).tempShadowStatus 8 = ShadowStatus.Ss_Unknown ∧
    (instrumentLoadG true instrAfterFloatOp 8 (IRExpr.RdTmp 7) (IRExpr.Const 0)
      (IRExpr.Const 4096) 2).tempShadowStatus 8 = ShadowStatus.Ss_Unknown ∧
    (execStmts runAfterDoubleOp (instrumentLoadG true instrAfterFloatOp 8 (IRExpr.RdTmp 7)
      (IRExpr.Const 0) (IRExpr.Const 4096) 2).stmts).s.shadowTemps 8 = 10 ∧
    runAfterDoubleOp.s.shadowTemps 8 = 0 := by
  refine ⟨rfl, by decide, by decide, by decide, by decide⟩

/-! ## Suppression of subexpressions in the report -/

/-- Claim C21, evaluated on the code: the var group `[2, 3, 4]` whose members
are observed under the indices 0, 1 and 1. The claimed result is
`[[2], [3, 4]]`. The inner loop splits 3 off into a new group that holds the
word stored at node 3, not the node, and then splits 4 off into a further group
instead of moving it to the group of 3, because the lookup of index 1 in the
split table does not find the entry made for 3 (whose `val` is 1). The call as a
whole has no result when the stored words are 0, and even if each stored word
were the node's own address it would end with `[[2], [3], [4]]`. -/
theorem C21_generalizeVarMap_at_failing_input :
    (∀ mem : Nat → Nat,
      generalizeVarMapInner mem (opLookupTable [(2, 0), (3, 1), (4, 1)]) 0 4 [[2, 3, 4]]
        [(idxEntryKey 0 0, 0)] 1 = some [[2], [mem 3], [mem 4]]) ∧
    HT_lookup [(idxEntryKey 1 1, 1), (idxEntryKey 0 0, 0)] 1 = none ∧
    generalizeVarMap (fun _ => 0) [[2, 3, 4]] [(2, 0), (3, 1), (4, 1)] = none ∧
    generalizeVarMap (fun a => a) [[2, 3, 4]] [(2, 0), (3, 1), (4, 1)]
      = some [[2], [3], [4]] := by
  have hk0 : idxEntryKey 0 0 = 0 := by decide
  have hk1 : idxEntryKey 1 1 = 4294967297 := by decide
  have hk2 : idxEntryKey 1 2 = 8589934593 := by decide
  refine ⟨fun mem => ?_, by decide, by decide, by decide⟩
  simp [generalizeVarMapInner, opLookupTable, HT_lookup, hk0, hk1, hk2]

/-- Claim C30, evaluated on the code: the var group `[2, 3]` whose members have
the entries 0 and 1 in the observed map. The scan of the group examines node 3
once and appends a group holding the word stored at node 3 (here 0); that word
has no entry in the lookup table, so the scan of the appended group reads
`valOpEntry->varidx` through a null pointer: the call has no result, whatever
the iteration budget. -/
theorem C30_generalizeVarMap_at_failing_input :
    generalizeVarMapInner (fun _ => 0) (opLookupTable [(2, 0), (3, 1)]) 0 3 [[2, 3]]
      [(idxEntryKey 0 0, 0)] 1 = some [[2], [0]] ∧
    HT_lookup (opLookupTable [(2, 0), (3, 1)]) 0 = none ∧
    (∀ fuel, generalizeVarMapOuter (fun _ => 0) (opLookupTable [(2, 0), (3, 1)]) fuel
      [[2, 3]] 0 = none) := by
  have hk0 : idxEntryKey 0 0 = 0 := by decide
  refine ⟨by decide, by decide, fun fuel => ?_⟩
  rcases fuel with _ | _ | _ | fuel
  · rfl
  · simp [generalizeVarMapOuter, generalizeVarMapInner, opLookupTable, HT_lookup, hk0]
  · simp [generalizeVarMapOuter, generalizeVarMapInner, opLookupTable, HT_lookup, hk0]
  · simp [generalizeVarMapOuter, generalizeVarMapInner, opLookupTable, HT_lookup, hk0]

/-! ## Generalization at a branch -/

theorem rankedHeap_generalized (rank : Nat → Nat) (h h1 : Nat → OpASTNode)
    (hr : RankedHeap rank h) (hg : ∀ q, (h q).generalizedBy (h1 q)) : RankedHeap rank h1 := by
  intro n op nargs args vm hn c hc
  have hq := hg n
  cases hh : h n with
  | Leaf l =>
    rw [hh] at hq
    rcases hq with hq | hq <;> rw [hn] at hq <;> cases hq
  | Branch op0 k0 args0 vm0 =>
    rw [hh] at hq
    rcases hq with ⟨vm1, _, hq⟩ | hq
    · rw [hn] at hq
      cases hq
      exact hr n op nargs args vm0 hh c hc
    · rw [hn] at hq
      cases hq

mutual
/-- In an acyclic heap `generalizeAST` leaves every node of higher rank than
its root as it is. -/
theorem generalizeAST_frame (get_d : Nat → CDouble) (firstWord : OpASTNode → Nat)
    (rank : Nat → Nat) :
    ∀ (t : ValueASTNode) (h : Nat → OpASTNode) (p : Nat) (h1 : Nat → OpASTNode),
      RankedHeap rank h → generalizeAST get_d firstWord h p t = some h1 →
      ∀ q, rank p < rank q → h1 q = h q
  | ValueASTNode.mk val op args var_map, h, p, h1, hr, hres, q, hq => by
    have hne : q ≠ p := fun e => by rw [e] at hq; exact absurd hq (lt_irrefl _)
    unfold generalizeAST at hres
    cases hp : h p with
    | Leaf lval =>
      simp only [hp] at hres
      split at hres
      · cases hres; rfl
      · cases hres; simp [upd, hne]
    | Branch bop nargs bargs bvm =>
      simp only [hp] at hres
      split at hres
      · cases hres; simp [upd, hne]
      · split at hres
        · split at hres
          · cases hres
          · rename_i vm hvm
            have hr1 : RankedHeap rank (upd h p (OpASTNode.Branch bop nargs bargs vm)) := by
              intro n op1 k1 args1 vm1 hn c hc
              by_cases hnp : n = p
              · subst hnp
                simp only [upd, if_true] at hn
                cases hn
                exact hr _ _ _ _ _ hp c hc
              · simp only [upd, hnp, if_false] at hn
                exact hr n op1 k1 args1 vm1 hn c hc
            have hle : ∀ c ∈ bargs, rank c ≤ rank p := fun c hc =>
              Nat.le_of_lt (hr p bop nargs bargs bvm hp c hc)
            rw [generalizeASTArgs_frame get_d firstWord rank args _ bargs h1 (rank p) hr1 hle
              hres q hq]
            simp [upd, hne]
        · cases hres; rfl
/-- In an acyclic heap the loop over the children leaves every node of higher
rank than the children as it is. -/
theorem generalizeASTArgs_frame (get_d : Nat → CDouble) (firstWord : OpASTNode → Nat)
    (rank : Nat → Nat) :
    ∀ (ts : List ValueASTNode) (h : Nat → OpASTNode) (ps : List Nat)
      (h1 : Nat → OpASTNode) (r : Nat),
      RankedHeap rank h → (∀ c ∈ ps, rank c ≤ r) →
      generalizeASTArgs get_d firstWord h ps ts = some h1 →
      ∀ q, r < rank q → h1 q = h q
  | [], h, ps, h1, r, _, _, hres, q, _ => by
    have hh : h1 = h := by
      cases ps <;> simp [generalizeASTArgs] at hres <;> exact hres.symm
    rw [hh]
  | v :: vs, h, [], h1, r, _, _, hres, q, _ => by
    unfold generalizeASTArgs at hres
    cases hres
  | v :: vs, h, a :: rest, h1, r, hr, hle, hres, q, hq => by
    unfold generalizeASTArgs at hres
    cases hm : generalizeAST get_d firstWord h a v with
    | none => simp [hm] at hres
    | some hmid =>
      simp only [hm] at hres
      have ha : rank a ≤ r := hle a (List.mem_cons_self a rest)
      have hrm : RankedHeap rank hmid :=
        rankedHeap_generalized rank h hmid hr
          (generalizeAST_generalizes get_d firstWord v h a hmid hm)
      rw [generalizeASTArgs_frame get_d firstWord rank vs hmid rest h1 r hrm
        (fun c hc => hle c (List.mem_cons_of_mem a hc)) hres q hq]
      exact generalizeAST_frame get_d firstWord rank v h a hmid hr hm q (by omega)
end

theorem heapAdd_ranked : RankedHeap rankAdd heapAdd := by
  intro n op nargs args vm hn c hc
  by_cases h3 : n = 3
  · subst h3
    simp [heapAdd, upd] at hn
  · by_cases h2 : n = 2
    · subst h2
      simp [heapAdd, upd] at hn
    · by_cases h1 : n = 1
      · subst h1
        simp [heapAdd, upd] at hn
        obtain ⟨_, _, rfl, _⟩ := hn
        simp at hc
        rcases hc with hc | hc <;> subst hc <;> decide
      · simp [heapAdd, upd, h1, h2, h3] at hn

/-- The function `generalizeAST` applied to a Branch node whose op differs from
the op of the observed node returns with that node turned into a variable leaf
(a Leaf with a null value) and nothing else changed. When the ops are equal and
not null and the call returns, its result is that of the loop that generalizes
each entry of the `args` array against the observed child of the same position,
run on the heap in which the node carries the var groups `generalizeVarMap`
returned, and (the ASTs being acyclic) the node is then still a Branch with the
same op, arity and children. -/
theorem generalizeAST_at_branch (get_d : Nat → CDouble) (firstWord : OpASTNode → Nat)
    (rank : Nat → Nat) (h : Nat → OpASTNode) (opast val op : Nat) (args : List ValueASTNode)
    (var_map : List (Nat × Nat)) (bop nargs : Nat) (bargs : List Nat) (bvm : List (List Nat))
    (hp : h opast = OpASTNode.Branch bop nargs bargs bvm) (hr : RankedHeap rank h) :
    (op ≠ bop →
      generalizeAST get_d firstWord h opast (ValueASTNode.mk val op args var_map)
        = some (upd h opast (OpASTNode.Leaf 0))) ∧
    (op = bop → bop ≠ 0 → ∀ h1,
      generalizeAST get_d firstWord h opast (ValueASTNode.mk val op args var_map) = some h1 →
      ∃ vm, generalizeVarMap (fun a => firstWord (h a)) bvm var_map = some vm ∧
        generalizeASTArgs get_d firstWord (upd h opast (OpASTNode.Branch bop nargs bargs vm))
          bargs args = some h1 ∧
        h1 opast = OpASTNode.Branch bop nargs bargs vm) := by
  constructor
  · intro hne
    simp [generalizeAST, hp, hne]
  · intro heq hb h1 hres
    unfold generalizeAST at hres
    simp only [hp] at hres
    rw [if_neg (by simpa using heq), if_pos hb] at hres
    cases hvm : generalizeVarMap (fun a => firstWord (h a)) bvm var_map with
    | none => simp [hvm] at hres
    | some vm =>
      simp only [hvm] at hres
      refine ⟨vm, rfl, hres, ?_⟩
      have hr1 : RankedHeap rank (upd h opast (OpASTNode.Branch bop nargs bargs vm)) := by
        intro n op1 k1 args1 vm1 hn c hc
        by_cases hnp : n = opast
        · subst hnp
          simp only [upd, if_true] at hn
          cases hn
          exact hr _ _ _ _ _ hp c hc
        · simp only [upd, hnp, if_false] at hn
          exact hr n op1 k1 args1 vm1 hn c hc
      have hsmall : ∀ c ∈ bargs, rank c ≤ rank opast - 1 := by
        intro c hc
        have := hr opast bop nargs bargs bvm hp c hc
        omega
      by_cases hempty : bargs = []
      · subst hempty
        cases args with
        | nil =>
          simp [generalizeASTArgs] at hres
          rw [← hres]
          simp [upd]
        | cons v vs => simp [generalizeASTArgs] at hres
      · obtain ⟨c0, hc0⟩ := List.exists_mem_of_ne_nil bargs hempty
        have hpos := hr opast bop nargs bargs bvm hp c0 hc0
        rw [generalizeASTArgs_frame get_d firstWord rank args _ bargs h1 (rank opast - 1) hr1
          hsmall hres opast (by omega)]
        simp [upd]

/-- Example for `generalizeAST_at_branch`: a trace of op 9 truncates node 1 of
`heapAdd`; the trace of op 7 whose leaves are observed as one variable is
generalized into it and node 1 stays a Branch of op 7 over the nodes 2 and 3. -/
theorem generalizeAST_at_branch_example :
    RankedHeap rankAdd heapAdd ∧
    generalizeAST get_d_addr (fun _ => 0) heapAdd 1 (ValueASTNode.mk 30 9 [] [])
      = some (upd heapAdd 1 (OpASTNode.Leaf 0)) ∧
    ∃ vm, generalizeVarMap (fun a => (fun _ => 0) (heapAdd a)) [[2, 3]] [(2, 0), (3, 0)]
        = some vm ∧
      generalizeASTArgs get_d_addr (fun _ => 0)
        (upd heapAdd 1 (OpASTNode.Branch 7 2 [2, 3] vm)) [2, 3]
        [ValueASTNode.mk 5 100 [] [], ValueASTNode.mk 8 101 [] []]
        = some (upd (upd heapAdd 1 (OpASTNode.Branch 7 2 [2, 3] [[2, 3]])) 3
            (OpASTNode.Leaf 0)) ∧
      (upd (upd heapAdd 1 (OpASTNode.Branch 7 2 [2, 3] [[2, 3]])) 3 (OpASTNode.Leaf 0)) 1
        = OpASTNode.Branch 7 2 [2, 3] vm :=
  ⟨heapAdd_ranked,
   (generalizeAST_at_branch get_d_addr (fun _ => 0) rankAdd heapAdd 1 30 9 [] []
      7 2 [2, 3] [[2, 3]] rfl heapAdd_ranked).1 (by decide),
   (generalizeAST_at_branch get_d_addr (fun _ => 0) rankAdd heapAdd 1 30 7
      [ValueASTNode.mk 5 100 [] [], ValueASTNode.mk 8 101 [] []] [(2, 0), (3, 0)]
      7 2 [2, 3] [[2, 3]] rfl heapAdd_ranked).2 rfl (by decide)
      (upd (upd heapAdd 1 (OpASTNode.Branch 7 2 [2, 3] [[2, 3]])) 3 (OpASTNode.Leaf 0)) rfl⟩

/-- Claim C23, the code at a failing input: node 1 of `heapAdd` is a Branch of
op 7 over the leaves 2 and 3, which share one var group. A trace of another op
turns the node into a variable leaf, as claimed. A trace of the same op 7 whose
two leaves are observed under the different variable indices 0 and 1 makes
`generalizeVarMap` split the group, which has no result (the new group holds
the first word of the record of node 3, for which the observed map has no
entry, and `valOpEntry->varidx` is read through a null pointer): the call of
`generalizeAST` has no result either, whichever of the words 0 and 1 starts a
node record, and no child is generalized. On the same heap the trace whose
leaves are observed under one index needs no split and is generalized. -/
theorem C23_generalizeAST_at_failing_input :
    heapAdd 1 = OpASTNode.Branch 7 2 [2, 3] [[2, 3]] ∧
    (∀ get_d : Nat → CDouble,
      generalizeAST get_d (fun _ => 0) heapAdd 1 (ValueASTNode.mk 30 9 [] [])
        = some (upd heapAdd 1 (OpASTNode.Leaf 0))) ∧
    (∀ get_d : Nat → CDouble,
      generalizeAST get_d (fun _ => 0) heapAdd 1 traceAddTwoVars = none) ∧
    (∀ get_d : Nat → CDouble,
      generalizeAST get_d (fun _ => 1) heapAdd 1 traceAddTwoVars = none) ∧
    generalizeVarMap (fun _ => 0) [[2, 3]] [(2, 0), (3, 1)] = none ∧
    (generalizeAST get_d_addr (fun _ => 0) heapAdd 1 traceAdd).map (fun h => h 1)
      = some (OpASTNode.Branch 7 2 [2, 3] [[2, 3]]) ∧
    (generalizeAST get_d_addr (fun _ => 0) heapAdd 1 traceAdd).map (fun h => h 3)
      = some (OpASTNode.Leaf 0) := by
  refine ⟨rfl, fun get_d => rfl, fun get_d => ?_, fun get_d => ?_, by decide, by decide,
    by decide⟩
  · have hvm : generalizeVarMap (fun a => (fun _ => 0) (heapAdd a)) [[2, 3]] [(2, 0), (3, 1)]
        = none := by decide
    have hn : heapAdd 1 = OpASTNode.Branch 7 2 [2, 3] [[2, 3]] := rfl
    simp [generalizeAST, traceAddTwoVars, hn, hvm]
  · have hvm : generalizeVarMap (fun a => (fun _ => 1) (heapAdd a)) [[2, 3]] [(2, 0), (3, 1)]
        = none := by decide
    have hn : heapAdd 1 = OpASTNode.Branch 7 2 [2, 3] [[2, 3]] := rfl
    simp [generalizeAST, traceAddTwoVars, hn, hvm]

/-! ## First observation of an op -/

theorem getD_append_replicate_nil (G : List (List Nat)) (n j : Nat) :
    (G ++ List.replicate n []).getD j [] = G.getD j [] := by
  by_cases hj : j < G.length
  · simp [List.getD_eq_getElem?_getD, List.getElem?_append_left hj]
  · have hj1 : G.length ≤ j := by omega
    rw [List.getD_eq_getElem?_getD, List.getD_eq_getElem?_getD,
      List.getElem?_append_right hj1, List.getElem?_eq_none hj1]
    by_cases hn : j - G.length < n
    · simp [List.getElem?_replicate, hn]
    · simp [List.getElem?_replicate, hn]

theorem getD_set_groups (G : List (List Nat)) (m j : Nat) (x : List Nat) (hm : m < G.length) :
    (G.set m x).getD j [] = if j = m then x else G.getD j [] := by
  by_cases hj : j = m
  · subst hj
    simp [List.getD_eq_getElem?_getD, List.getElem?_set, hm]
  · have hne : ¬ m = j := fun e => hj e.symm
    simp [List.getD_eq_getElem?_getD, List.getElem?_set, hj, hne]

theorem opvarmap_fold_mem (vm : List (Nat × Nat)) :
    ∀ (G : List (List Nat)) (k i : Nat),
      k ∈ (vm.foldl
        (fun opVarMap valEntry =>
          let grown := opVarMap ++ List.replicate (valEntry.2 + 1 - opVarMap.length) []
          grown.set valEntry.2 (grown.getD valEntry.2 [] ++ [valEntry.1])) G).getD i [] ↔
      k ∈ G.getD i [] ∨ (k, i) ∈ vm := by
  induction vm with
  | nil => intro G k i; simp
  | cons e vm ih =>
    intro G k i
    rw [List.foldl_cons, ih]
    have hlen : e.2 < (G ++ List.replicate (e.2 + 1 - G.length) ([] : List Nat)).length := by
      rw [List.length_append, List.length_replicate]
      omega
    dsimp only
    rw [getD_set_groups _ _ _ _ hlen, getD_append_replicate_nil, getD_append_replicate_nil]
    by_cases hi : i = e.2
    · subst hi
      simp [Prod.ext_iff, or_assoc]
    · simp [hi, Prod.ext_iff, or_assoc]

/-- A node is in var group `i` of the converted map exactly when the observed
map holds it under the index `i`. -/
theorem opvarmapFromValvarmap_mem (vm : List (Nat × Nat)) (k i : Nat) :
    k ∈ (opvarmapFromValvarmap vm).getD i [] ↔ (k, i) ∈ vm := by
  unfold opvarmapFromValvarmap
  rw [opvarmap_fold_mem]
  simp

theorem convertValASTArgs_length (args : List ValueASTNode) :
    ∀ s : ASTState, (convertValASTArgs s args).2.length = args.length := by
  induction args with
  | nil => intro s; simp [convertValASTArgs]
  | cons v vs ih => intro s; simp [convertValASTArgs, ih]

theorem convertValASTArgs_converted (args : List ValueASTNode) :
    ∀ s : ASTState,
      ArgsConverted s args (convertValASTArgs s args).1 (convertValASTArgs s args).2 := by
  induction args with
  | nil => intro s; simp only [convertValASTArgs]; exact ArgsConverted.nil s
  | cons v vs ih =>
    intro s
    simp only [convertValASTArgs]
    exact ArgsConverted.cons s v vs _ _ (ih _)

/-- Children whose ops all have an AST are not copied: the conversion of each
returns the AST recorded for its op and changes nothing. -/
theorem convertValASTArgs_shared (args : List ValueASTNode) (s : ASTState)
    (hargs : ∀ c ∈ args, (s.ops c.op).ast ≠ 0) :
    convertValASTArgs s args = (s, args.map (fun c => (s.ops c.op).ast)) := by
  induction args with
  | nil => simp [convertValASTArgs]
  | cons v vs ih =>
    have hv : (s.ops v.op).ast ≠ 0 := hargs v (List.mem_cons_self _ _)
    have hvs : ∀ c ∈ vs, (s.ops c.op).ast ≠ 0 :=
      fun c hc => hargs c (List.mem_cons_of_mem _ hc)
    have hconv : convertValASTtoOpAST s v = (s, (s.ops v.op).ast) := by
      cases v with
      | mk val op args var_map =>
        have hv1 : (s.ops op).ast ≠ 0 := hv
        simp [convertValASTtoOpAST, ValueASTNode.op, hv1]
    simp only [convertValASTArgs, hconv, ih hvs, List.map_cons]

/-- Claim C22: when `op->ast` is null, `updateAST(op, trace)` for a trace of
that op returns, having allocated one node that it records as `op->ast`;
`convertValASTtoOpAST` returns that node and has recorded it itself. The
node is a Branch with the op of the trace and as many args as the trace has;
its args are the conversions of the children, each converted in the state the
conversion of the one before it has left, in order; when the op of every child
already has an AST, they are those ASTs. A node lies in its var group `i`
exactly when the observed var map holds it under the index `i`. A second
conversion of the trace returns the same node and changes nothing. -/
theorem C22_first_observation (get_d : Nat → CDouble) (firstWord : OpASTNode → Nat)
    (s : ASTState) (val op : Nat) (args : List ValueASTNode) (var_map : List (Nat × Nat))
    (hnull : (s.ops op).ast = 0) (hbrk : s.brk ≠ 0) :
    ∃ s1, updateAST get_d firstWord s op (ValueASTNode.mk val op args var_map) = some s1 ∧
      (s1.ops op).ast = s.brk ∧
      (convertValASTtoOpAST s (ValueASTNode.mk val op args var_map)).2 = s.brk ∧
      ((convertValASTtoOpAST s (ValueASTNode.mk val op args var_map)).1.ops op).ast = s.brk ∧
      (∃ nodes sArgs,
        ArgsConverted
          { s with h := upd s.h s.brk (OpASTNode.Branch op args.length [] []),
                   brk := s.brk + 1 } args sArgs nodes ∧
        nodes.length = args.length ∧
        s1.h s.brk = OpASTNode.Branch op args.length nodes (opvarmapFromValvarmap var_map)) ∧
      ((∀ c ∈ args, (s.ops c.op).ast ≠ 0) →
        s1.h s.brk = OpASTNode.Branch op args.length (args.map (fun c => (s.ops c.op).ast))
          (opvarmapFromValvarmap var_map) ∧
        (∀ n, n ≠ s.brk → s1.h n = s.h n) ∧
        (∀ o, o ≠ op → s1.ops o = s.ops o) ∧
        s1.brk = s.brk + 1) ∧
      (∀ k i, k ∈ (opvarmapFromValvarmap var_map).getD i [] ↔ (k, i) ∈ var_map) ∧
      convertValASTtoOpAST s1 (ValueASTNode.mk val op args var_map) = (s1, s.brk) := by
  have hup : updateAST get_d firstWord s op (ValueASTNode.mk val op args var_map) = some
      (let r := convertValASTtoOpAST s (ValueASTNode.mk val op args var_map)
       let opinfo : Op_Info := { r.1.ops op with ast := r.2 }
       { r.1 with ops := upd r.1.ops op opinfo }) := by
    simp only [updateAST, hnull, if_true]
  refine ⟨_, hup, ?_, ?_, ?_, ⟨_, _, convertValASTArgs_converted args _,
    convertValASTArgs_length args _, ?_⟩, ?_, opvarmapFromValvarmap_mem var_map, ?_⟩
  · simp [convertValASTtoOpAST, hnull, upd]
  · simp [convertValASTtoOpAST, hnull]
  · simp [convertValASTtoOpAST, hnull, upd]
  · simp [convertValASTtoOpAST, hnull, upd]
  · intro hargs
    have hsh := convertValASTArgs_shared args
      { s with h := upd s.h s.brk (OpASTNode.Branch op args.length [] []),
               brk := s.brk + 1 } hargs
    refine ⟨?_, ?_, ?_, ?_⟩
    · simp [convertValASTtoOpAST, hnull, upd, hsh]
    · intro n hn
      simp [convertValASTtoOpAST, hnull, upd, hsh, hn]
    · intro o ho
      simp [convertValASTtoOpAST, hnull, upd, hsh, ho]
    · simp [convertValASTtoOpAST, hnull, hsh]
  · have hast : ((let r := convertValASTtoOpAST s (ValueASTNode.mk val op args var_map)
        let opinfo : Op_Info := { r.1.ops op with ast := r.2 }
        ({ r.1 with ops := upd r.1.ops op opinfo } : ASTState)).ops op).ast = s.brk := by
      simp [convertValASTtoOpAST, hnull, upd]
    have hne : ((let r := convertValASTtoOpAST s (ValueASTNode.mk val op args var_map)
        let opinfo : Op_Info := { r.1.ops op with ast := r.2 }
        ({ r.1 with ops := upd r.1.ops op opinfo } : ASTState)).ops op).ast ≠ 0 := by
      rw [hast]; exact hbrk
    rw [convertValASTtoOpAST, if_pos hne, hast]

/-- Witness of C22: the first trace of op 7, over leaves whose ops have the ASTs
2 and 3, is converted into the new node 4, a Branch of op 7 over the nodes 2 and
3 with the var groups `[[2], [3]]`. -/
theorem C22_first_observation_witness :
    (updateAST get_d_addr (fun _ => 0) astBeforeFirstTrace 7 firstTrace).map
      (fun s1 => s1.h 4) = some (OpASTNode.Branch 7 2 [2, 3] [[2], [3]]) ∧
    (updateAST get_d_addr (fun _ => 0) astBeforeFirstTrace 7 firstTrace).map
      (fun s1 => (s1.ops 7).ast) = some 4 ∧
    ∃ s1, updateAST get_d_addr (fun _ => 0) astBeforeFirstTrace 7 firstTrace = some s1 ∧
      (s1.ops 7).ast = astBeforeFirstTrace.brk ∧
      (convertValASTtoOpAST astBeforeFirstTrace firstTrace).2 = astBeforeFirstTrace.brk ∧
      ((convertValASTtoOpAST astBeforeFirstTrace firstTrace).1.ops 7).ast
        = astBeforeFirstTrace.brk ∧
      (∃ nodes sArgs,
        ArgsConverted
          { astBeforeFirstTrace with
            h := upd astBeforeFirstTrace.h astBeforeFirstTrace.brk
              (OpASTNode.Branch 7
                [ValueASTNode.mk 5 100 [] [], ValueASTNode.mk 8 101 [] []].length [] []),
            brk := astBeforeFirstTrace.brk + 1 }
          [ValueASTNode.mk 5 100 [] [], ValueASTNode.mk 8 101 [] []] sArgs nodes ∧
        nodes.length = [ValueASTNode.mk 5 100 [] [], ValueASTNode.mk 8 101 [] []].length ∧
        s1.h astBeforeFirstTrace.brk = OpASTNode.Branch 7
          [ValueASTNode.mk 5 100 [] [], ValueASTNode.mk 8 101 [] []].length nodes
          (opvarmapFromValvarmap [(2, 0), (3, 1)])) ∧
      ((∀ c ∈ [ValueASTNode.mk 5 100 [] [], ValueASTNode.mk 8 101 [] []],
          (astBeforeFirstTrace.ops c.op).ast ≠ 0) →
        s1.h astBeforeFirstTrace.brk = OpASTNode.Branch 7
          [ValueASTNode.mk 5 100 [] [], ValueASTNode.mk 8 101 [] []].length
          ([ValueASTNode.mk 5 100 [] [], ValueASTNode.mk 8 101 [] []].map
            (fun c => (astBeforeFirstTrace.ops c.op).ast))
          (opvarmapFromValvarmap [(2, 0), (3, 1)]) ∧
        (∀ n, n ≠ astBeforeFirstTrace.brk → s1.h n = astBeforeFirstTrace.h n) ∧
        (∀ o, o ≠ 7 → s1.ops o = astBeforeFirstTrace.ops o) ∧
        s1.brk = astBeforeFirstTrace.brk + 1) ∧
      (∀ k i, k ∈ (opvarmapFromValvarmap [(2, 0), (3, 1)]).getD i [] ↔
        (k, i) ∈ [(2, 0), (3, 1)]) ∧
      convertValASTtoOpAST s1 firstTrace = (s1, astBeforeFirstTrace.brk) :=
  ⟨by decide, by decide,
   C22_first_observation get_d_addr (fun _ => 0) astBeforeFirstTrace 30 7
    [ValueASTNode.mk 5 100 [] [], ValueASTNode.mk 8 101 [] []] [(2, 0), (3, 1)]
    rfl (by decide)⟩

/-! ## Instrumentation of Get and ITE -/

/-- What the first loop of `instrumentGet` computes: Shadowed as soon as one of
the offsets `tsSrc`, `tsSrc + 1`, ..., `tsSrc + src_size - 1` is Shadowed,
otherwise Unknown if one of them is Unknown, otherwise Unshadowed. -/
theorem instrumentGetStatus_eq (ts : Nat → ShadowStatus) (tsSrc n : Nat) :
    instrumentGetStatus ts tsSrc n =
      if ∃ i, i < n ∧ ts (tsSrc + i) = ShadowStatus.Ss_Shadowed then ShadowStatus.Ss_Shadowed
      else if ∃ i, i < n ∧ ts (tsSrc + i) = ShadowStatus.Ss_Unknown then ShadowStatus.Ss_Unknown
      else ShadowStatus.Ss_Unshadowed := by
  induction n with
  | zero => simp [instrumentGetStatus]
  | succ k ih =>
    unfold instrumentGetStatus at ih ⊢
    rw [List.range_succ, List.foldl_append, ih]
    simp only [List.foldl_cons, List.foldl_nil]
    have hex : ∀ P : Nat → Prop, (∃ i, i < k + 1 ∧ P i) ↔ (∃ i, i < k ∧ P i) ∨ P k := by
      intro P
      constructor
      · rintro ⟨i, hi, hp⟩
        by_cases hik : i = k
        · subst hik; exact Or.inr hp
        · exact Or.inl ⟨i, by omega, hp⟩
      · rintro (⟨i, hi, hp⟩ | hp)
        · exact ⟨i, by omega, hp⟩
        · exact ⟨k, by omega, hp⟩
    have h1 : (∃ i, i < k + 1 ∧ ts (tsSrc + i) = ShadowStatus.Ss_Shadowed) ↔
        (∃ i, i < k ∧ ts (tsSrc + i) = ShadowStatus.Ss_Shadowed) ∨
          ts (tsSrc + k) = ShadowStatus.Ss_Shadowed :=
      hex (fun i => ts (tsSrc + i) = ShadowStatus.Ss_Shadowed)
    have h2 : (∃ i, i < k + 1 ∧ ts (tsSrc + i) = ShadowStatus.Ss_Unknown) ↔
        (∃ i, i < k ∧ ts (tsSrc + i) = ShadowStatus.Ss_Unknown) ∨
          ts (tsSrc + k) = ShadowStatus.Ss_Unknown :=
      hex (fun i => ts (tsSrc + i) = ShadowStatus.Ss_Unknown)
    by_cases hS : ∃ i, i < k ∧ ts (tsSrc + i) = ShadowStatus.Ss_Shadowed
    · cases hk : ts (tsSrc + k) <;> simp [h1, h2, hS, hk]
    · by_cases hU : ∃ i, i < k ∧ ts (tsSrc + i) = ShadowStatus.Ss_Unknown
      · cases hk : ts (tsSrc + k) <;> simp [h1, h2, hS, hU, hk]
      · cases hk : ts (tsSrc + k) <;> simp [h1, h2, hS, hU, hk]

/-- Claim C24, the code at two failing inputs, a Get of two blocks at offset 16
into the shadowable temp 9.  When only the slot 20 is Shadowed, the loop looks
at the offsets 16 and 17, the temp gets the status Unshadowed and no code is
emitted, although the join of the slots 16 and 20 is Unknown.  When only the
slot 16 is Shadowed, the temp gets the status Shadowed, although the join is
Unknown again, and the emitted code reads the slots 16 and 20. -/
theorem C24_instrumentGet_at_failing_inputs :
    (instrOneSlotShadowed 20).tsShadowStatus 16 = ShadowStatus.Ss_Unshadowed ∧
    (instrOneSlotShadowed 20).tsShadowStatus 20 = ShadowStatus.Ss_Shadowed ∧
    (instrumentGet readsTemp (fun _ => true) (instrOneSlotShadowed 20) 9 16 2).map
      (fun st => st.tempShadowStatus 9) = some ShadowStatus.Ss_Unshadowed ∧
    (instrumentGet readsTemp (fun _ => true) (instrOneSlotShadowed 20) 9 16 2).map
      (fun st => st.stmts) = some [] ∧
    (instrOneSlotShadowed 16).tsShadowStatus 16 = ShadowStatus.Ss_Shadowed ∧
    (instrOneSlotShadowed 16).tsShadowStatus 20 = ShadowStatus.Ss_Unshadowed ∧
    (instrumentGet readsTemp (fun _ => true) (instrOneSlotShadowed 16) 9 16 2).map
      (fun st => st.tempShadowStatus 9) = some ShadowStatus.Ss_Shadowed ∧
    (instrumentGet readsTemp (fun _ => true) (instrOneSlotShadowed 16) 9 16 2).map
      (fun st => st.stmts)
      = some [Stmt.getTSVal 100 16, Stmt.getTSVal 101 20,
          Stmt.mkShadowTempValues 102 2 [IRExpr.RdTmp 100, IRExpr.RdTmp 101],
          Stmt.storeTemp 9 (IRExpr.RdTmp 102)] := by
  decide

/-- Claim C25: for a float destination whose arms are readings of temps or
cannot be shadowed, `instrumentITE` returns and gives the destination the
status `iteStatus` of the statuses of the arms, where an arm that cannot be
shadowed counts as Unshadowed; `iteStatus` is the common status of two equal
statuses and Unknown for two different ones, and it is commutative, idempotent
and associative. -/
theorem C25_ite_status_combination (isFloat : Nat → Bool) (canBeShadowed : IRExpr → Bool)
    (st : InstrState) (dest : Nat) (cond trueExpr falseExpr : IRExpr) (tT tF : Nat)
    (hfloat : isFloat dest = true)
    (hT : canBeShadowed trueExpr = true → trueExpr = IRExpr.RdTmp tT)
    (hF : canBeShadowed falseExpr = true → falseExpr = IRExpr.RdTmp tF) :
    (instrumentITE isFloat canBeShadowed st dest cond trueExpr falseExpr).map
        (fun s => s.tempShadowStatus dest)
      = some (iteStatus
          (if canBeShadowed trueExpr = true then st.tempShadowStatus tT
            else ShadowStatus.Ss_Unshadowed)
          (if canBeShadowed falseExpr = true then st.tempShadowStatus tF
            else ShadowStatus.Ss_Unshadowed)) ∧
    (∀ a, iteStatus a a = a) ∧
    (∀ a b, a ≠ b → iteStatus a b = ShadowStatus.Ss_Unknown) ∧
    (∀ a b, iteStatus a b = iteStatus b a) ∧
    (∀ a b c, iteStatus (iteStatus a b) c = iteStatus a (iteStatus b c)) := by
  refine ⟨?_, ?_, ?_, ?_, ?_⟩
  · by_cases h1 : canBeShadowed trueExpr = true
    · have e1 := hT h1
      subst e1
      by_cases h2 : canBeShadowed falseExpr = true
      · have e2 := hF h2
        subst e2
        simp [instrumentITE, instrumentITEArm, hfloat, h1, h2, addStoreTempCopy,
          InstrState.run, InstrState.emit, upd]
      · simp [instrumentITE, instrumentITEArm, hfloat, h1, h2, addStoreTempCopy,
          InstrState.run, InstrState.emit, upd]
    · by_cases h2 : canBeShadowed falseExpr = true
      · have e2 := hF h2
        subst e2
        simp [instrumentITE, instrumentITEArm, hfloat, h1, h2, addStoreTempCopy,
          InstrState.run, InstrState.emit, upd]
      · simp [instrumentITE, instrumentITEArm, hfloat, h1, h2, addStoreTempCopy,
          InstrState.run, InstrState.emit, upd]
  · intro a; simp [iteStatus]
  · intro a b h; simp [iteStatus, h]
  · intro a b; cases a <;> cases b <;> rfl
  · intro a b c; cases a <;> cases b <;> cases c <;> rfl

/-- Witness of C25: an ITE into the float temp 9 whose true arm is the Shadowed
temp 7 and whose false arm is a constant gets the status Unknown. -/
theorem C25_ite_status_combination_witness :
    (instrumentITE (fun _ => true) readsTemp instrAfterFloatOp 9 (IRExpr.RdTmp 3)
        (IRExpr.RdTmp 7) (IRExpr.Const 0)).map (fun s => s.tempShadowStatus 9)
      = some (iteStatus
          (if readsTemp (IRExpr.RdTmp 7) = true then instrAfterFloatOp.tempShadowStatus 7
            else ShadowStatus.Ss_Unshadowed)
          (if readsTemp (IRExpr.Const 0) = true then instrAfterFloatOp.tempShadowStatus 0
            else ShadowStatus.Ss_Unshadowed)) ∧
    (∀ a, iteStatus a a = a) ∧
    (∀ a b, a ≠ b → iteStatus a b = ShadowStatus.Ss_Unknown) ∧
    (∀ a b, iteStatus a b = iteStatus b a) ∧
    (∀ a b c, iteStatus (iteStatus a b) c = iteStatus a (iteStatus b c)) :=
  C25_ite_status_combination (fun _ => true) readsTemp instrAfterFloatOp 9 (IRExpr.RdTmp 3)
    (IRExpr.RdTmp 7) (IRExpr.Const 0) 7 0 rfl (fun _ => rfl) (fun h => by cases h)

/-! ## Static status after a Put -/

/-- A loop whose body sets the status of one offset to `v` and leaves the
statuses of the temps alone sets exactly the offsets it visits. -/
theorem statusLoop (f : InstrState → Nat → InstrState) (a : Nat → Nat) (v : ShadowStatus)
    (hf : ∀ s j, (f s j).tsShadowStatus = upd s.tsShadowStatus (a j) v ∧
      (f s j).tempShadowStatus = s.tempShadowStatus)
    (l : List Nat) (st : InstrState) :
    (l.foldl f st).tempShadowStatus = st.tempShadowStatus ∧
    ∀ o, (l.foldl f st).tsShadowStatus o =
      if ∃ j, j ∈ l ∧ o = a j then v else st.tsShadowStatus o := by
  induction l generalizing st with
  | nil => simp
  | cons x rest ih =>
    simp only [List.foldl_cons]
    obtain ⟨h1, h2⟩ := ih (f st x)
    refine ⟨h1.trans (hf st x).2, fun o => ?_⟩
    rw [h2 o, (hf st x).1]
    by_cases hr : ∃ j, j ∈ rest ∧ o = a j
    · have hl : ∃ j, j ∈ x :: rest ∧ o = a j := by
        obtain ⟨j, hj, e⟩ := hr
        exact ⟨j, List.mem_cons_of_mem _ hj, e⟩
      rw [if_pos hr, if_pos hl]
    · rw [if_neg hr]
      by_cases hx : o = a x
      · have hl : ∃ j, j ∈ x :: rest ∧ o = a j := ⟨x, List.mem_cons_self _ _, hx⟩
        rw [if_pos hl]
        simp [upd, hx]
      · have hl : ¬ ∃ j, j ∈ x :: rest ∧ o = a j := by
          rintro ⟨j, hj, e⟩
          rcases List.mem_cons.1 hj with rfl | hj
          · exact hx e
          · exact hr ⟨j, hj, e⟩
        rw [if_neg hl]
        simp [upd, hx]

/-- Claim C26: `instrumentPut(tsDest, data)` with `data` of `n` blocks leaves
`tempShadowStatus` as it was, and gives `tsShadowStatus` the status of the
data (Unshadowed for a constant, the status of the source temp otherwise) at
the offsets `tsDest + 4 * i` for `i < n`, and its old value everywhere else. -/
theorem C26_put_static_status (canHave hasStatic : Nat → Bool) (st : InstrState)
    (tsDest : Nat) (data : IRExpr) (n : Nat) :
    (instrumentPut canHave hasStatic st tsDest data n).tempShadowStatus
      = st.tempShadowStatus ∧
    ∀ o, (instrumentPut canHave hasStatic st tsDest data n).tsShadowStatus o =
      if ∃ i, i < n ∧ o = tsDest + 4 * i then
        (match data with
          | IRExpr.Const _ => ShadowStatus.Ss_Unshadowed
          | IRExpr.RdTmp idx => st.tempShadowStatus idx)
      else st.tsShadowStatus o := by
  have hframe := instrumentPutDisown_foldl_frame canHave hasStatic tsDest (List.range n) st
  generalize hst1 : (List.range n).foldl (instrumentPutDisown canHave hasStatic tsDest) st
    = st1 at hframe
  obtain ⟨hts, htemp, _⟩ := hframe
  have hex : ∀ o, (∃ j, j ∈ List.range n ∧ o = tsDest + j * 4) ↔
      (∃ i, i < n ∧ o = tsDest + 4 * i) := by
    intro o
    constructor
    · rintro ⟨j, hj, e⟩
      exact ⟨j, List.mem_range.1 hj, by omega⟩
    · rintro ⟨j, hj, e⟩
      exact ⟨j, List.mem_range.2 hj, by omega⟩
  have hunsh : ∀ s0 : InstrState,
      ((List.range n).foldl (fun s i => addSetTSValUnshadowed s (tsDest + i * 4))
        s0).tempShadowStatus = s0.tempShadowStatus ∧
      ∀ o, ((List.range n).foldl (fun s i => addSetTSValUnshadowed s (tsDest + i * 4))
        s0).tsShadowStatus o =
        if ∃ j, j ∈ List.range n ∧ o = tsDest + j * 4 then ShadowStatus.Ss_Unshadowed
        else s0.tsShadowStatus o :=
    fun s0 => statusLoop (fun s i => addSetTSValUnshadowed s (tsDest + i * 4))
      (fun j => tsDest + j * 4) ShadowStatus.Ss_Unshadowed
      (fun s j => ⟨rfl, rfl⟩) (List.range n) s0
  cases data with
  | Const w =>
    have hdef : instrumentPut canHave hasStatic st tsDest (IRExpr.Const w) n
        = (List.range n).foldl (fun s j => addSetTSValUnshadowed s (tsDest + j * 4)) st1 := by
      simp only [instrumentPut, hst1]
    rw [hdef]
    obtain ⟨h1, h2⟩ := hunsh st1
    refine ⟨h1.trans htemp, fun o => ?_⟩
    rw [h2 o, hts]
    simp only [hex o]
  | RdTmp idx =>
    have hidx : st1.tempShadowStatus idx = st.tempShadowStatus idx := by rw [htemp]
    cases hstat : st.tempShadowStatus idx with
    | Ss_Unshadowed =>
      have hdef : instrumentPut canHave hasStatic st tsDest (IRExpr.RdTmp idx) n
          = (List.range n).foldl (fun s j => addSetTSValUnshadowed s (tsDest + j * 4)) st1 := by
        simp only [instrumentPut, hst1, hidx, hstat]
      rw [hdef]
      obtain ⟨h1, h2⟩ := hunsh st1
      refine ⟨h1.trans htemp, fun o => ?_⟩
      rw [h2 o, hts]
      simp only [hex o, hstat]
    | Ss_Shadowed =>
      have hdef := instrumentPut_unfold_shadowed canHave hasStatic st st1 tsDest idx n hst1
        (hidx.trans hstat)
      rw [hdef]
      obtain ⟨h1, h2⟩ := statusLoop
        (fun s j =>
          ((((s.run (fun t => Stmt.index t (IRExpr.RdTmp (st1.nextTmp + 1)) j)).1.emit
            (Stmt.svOwn (s.run (fun t => Stmt.index t
              (IRExpr.RdTmp (st1.nextTmp + 1)) j)).2)).emit
            (Stmt.setTSVal (tsDest + j * 4)
              (s.run (fun t => Stmt.index t
                (IRExpr.RdTmp (st1.nextTmp + 1)) j)).2)).setTsStatus
                  (tsDest + j * 4) ShadowStatus.Ss_Shadowed))
        (fun j => tsDest + j * 4) ShadowStatus.Ss_Shadowed (fun s j => ⟨rfl, rfl⟩)
        (List.range n)
        ((st1.run (fun t => Stmt.loadTemp t idx)).1.run
          (fun t => Stmt.arrowValues t (IRExpr.RdTmp st1.nextTmp))).1
      refine ⟨h1.trans htemp, fun o => ?_⟩
      rw [h2 o]
      simp only [hex o, hstat, InstrState.run, hts]
    | Ss_Unknown =>
      have hdef := instrumentPut_unfold_unknown canHave hasStatic st st1 tsDest idx n hst1
        (hidx.trans hstat)
      rw [hdef]
      obtain ⟨h1, h2⟩ := statusLoop
        (fun s j =>
          addSetTSValUnknown
            ((s.run (fun t => Stmt.indexG t (IRExpr.RdTmp (st1.nextTmp + 1))
                (IRExpr.RdTmp (st1.nextTmp + 1 + 1)) j)).1.emit
              (Stmt.svOwn (s.run (fun t => Stmt.indexG t (IRExpr.RdTmp (st1.nextTmp + 1))
                (IRExpr.RdTmp (st1.nextTmp + 1 + 1)) j)).2))
            (tsDest + j * 4)
            (s.run (fun t => Stmt.indexG t (IRExpr.RdTmp (st1.nextTmp + 1))
                (IRExpr.RdTmp (st1.nextTmp + 1 + 1)) j)).2)
        (fun j => tsDest + j * 4) ShadowStatus.Ss_Unknown (fun s j => ⟨rfl, rfl⟩)
        (List.range n)
        (((st1.run (fun t => Stmt.loadTemp t idx)).1.run
          (fun t => Stmt.nonZeroCheck64 t (IRExpr.RdTmp st1.nextTmp))).1.run
          (fun t => Stmt.arrowValuesG t (IRExpr.RdTmp (st1.nextTmp + 1))
            (IRExpr.RdTmp st1.nextTmp))).1
      refine ⟨h1.trans htemp, fun o => ?_⟩
      rw [h2 o]
      simp only [hex o, hstat, InstrState.run, hts]

/-! ## Register arrays (`instrumentPutI`, `instrumentGetI`) -/

/-- Claim C27, the code at a failing input: a PutI into an array of 8 elements
of 8 bytes.  With `arrayBase = 32` the status loop runs over the offsets 32 to
63: the offset 64, which the array covers and which was Shadowed, keeps its
status.  With `arrayBase = 64` the loop does not run at all and every status is
kept. -/
theorem C27_instrumentPutI_at_failing_input :
    (instrumentPutI (instrOneSlotShadowed 64) (IRExpr.RdTmp 5) 0 32 8 8 (IRExpr.Const 0)
      2).tsShadowStatus 63 = ShadowStatus.Ss_Unknown ∧
    (instrumentPutI (instrOneSlotShadowed 64) (IRExpr.RdTmp 5) 0 32 8 8 (IRExpr.Const 0)
      2).tsShadowStatus 64 = ShadowStatus.Ss_Shadowed ∧
    (instrumentPutI (instrOneSlotShadowed 64) (IRExpr.RdTmp 5) 0 32 8 8 (IRExpr.Const 0)
      2).tsShadowStatus 95 = ShadowStatus.Ss_Unshadowed ∧
    (∀ st : InstrState, ∀ o : Nat,
      (instrumentPutI st (IRExpr.RdTmp 5) 0 64 8 8 (IRExpr.Const 0) 2).tsShadowStatus o
        = st.tsShadowStatus o) := by
  refine ⟨by decide, by decide, by decide, fun st o => ?_⟩
  rfl

/-- Claim C28, the code at failing inputs: an array at base 32 of 8 elements of
8 bytes (two blocks each), index temp 5.  For the index 5 and bias 0 the two
lookups of a PutI and of a GetI yield the offsets 52 and 56, where the element
5 of the array lies at 72 and 76; for the index 0 and bias -1 they yield 56 and
60, where the element 7 lies at 88 and 92.  The code takes the sum of the
index, of twice the bias and of the block number modulo the number of
elements, and multiplies it by 4. -/
theorem C28_array_lookup_at_failing_inputs :
    (instrumentPutI instrAfterFloatOp (IRExpr.RdTmp 5) 0 32 8 8 (IRExpr.Const 0) 2).stmts.take 5
      = [Stmt.arrayLookup 100 32 (IRExpr.RdTmp 5) 0 8 4,
         Stmt.getTSValDynamic 101 (IRExpr.RdTmp 100),
         Stmt.svDisown (IRExpr.RdTmp 101),
         Stmt.setTSValDynamic (IRExpr.RdTmp 100) (IRExpr.Const 0),
         Stmt.arrayLookup 102 32 (IRExpr.RdTmp 5) 1 8 4] ∧
    (execStmts (runWithIndex 5)
      (instrumentPutI instrAfterFloatOp (IRExpr.RdTmp 5) 0 32 8 8 (IRExpr.Const 0) 2).stmts
      ).env 100 = 52 ∧
    (execStmts (runWithIndex 5)
      (instrumentPutI instrAfterFloatOp (IRExpr.RdTmp 5) 0 32 8 8 (IRExpr.Const 0) 2).stmts
      ).env 102 = 56 ∧
    (instrumentGetI readsTemp instrAfterFloatOp 9 (IRExpr.RdTmp 5) 0 32 8 2).stmts.take 2
      = [Stmt.arrayLookup 100 32 (IRExpr.RdTmp 5) 0 8 4,
         Stmt.arrayLookup 101 32 (IRExpr.RdTmp 5) 1 8 4] ∧
    (execStmts (runWithIndex 5)
      (instrumentGetI readsTemp instrAfterFloatOp 9 (IRExpr.RdTmp 5) 0 32 8 2).stmts
      ).env 100 = 52 ∧
    (execStmts (runWithIndex 5)
      (instrumentGetI readsTemp instrAfterFloatOp 9 (IRExpr.RdTmp 5) 0 32 8 2).stmts
      ).env 101 = 56 ∧
    32 + ((5 + 0) % 8) * 8 + 4 * 0 = 72 ∧
    32 + ((5 + 0) % 8) * 8 + 4 * 1 = 76 ∧
    (instrumentPutI instrAfterFloatOp (IRExpr.RdTmp 5) (-1) 32 8 8 (IRExpr.Const 0) 2).stmts.take 5
      = [Stmt.arrayLookup 100 32 (IRExpr.RdTmp 5) (-2) 8 4,
         Stmt.getTSValDynamic 101 (IRExpr.RdTmp 100),
         Stmt.svDisown (IRExpr.RdTmp 101),
         Stmt.setTSValDynamic (IRExpr.RdTmp 100) (IRExpr.Const 0),
         Stmt.arrayLookup 102 32 (IRExpr.RdTmp 5) (-1) 8 4] ∧
    (execStmts (runWithIndex 0)
      (instrumentPutI instrAfterFloatOp (IRExpr.RdTmp 5) (-1) 32 8 8 (IRExpr.Const 0) 2).stmts
      ).env 100 = 56 ∧
    (execStmts (runWithIndex 0)
      (instrumentPutI instrAfterFloatOp (IRExpr.RdTmp 5) (-1) 32 8 8 (IRExpr.Const 0) 2).stmts
      ).env 102 = 60 ∧
    32 + ((0 + (-1 : Int)) % 8) * 8 + 4 * 0 = 88 := by
  decide

/-- Claim C29, the code at a failing input: for the offset 8 in a row at
address 4096, `runGetTSValDynamic` loads at 4104, while `addSetTSValDynamic`
stores at 4160, the address of cell 8 that `runGetTSVal` and `addSetTSVal` use.
At run time the value 77 stored through `addSetTSValDynamic` at offset 8 is
read back by `runGetTSVal` but not by `runGetTSValDynamic`, which loads the null
of cell 1; a GetI after a PutI of a Shadowed temp at the same place loads null
where the PutI has put the value at address 1. -/
theorem C29_dynamic_accessors_at_failing_input :
    runGetTSValDynamicAddress 4096 8 = 4104 ∧
    addSetTSValDynamicAddress 4096 8 = 4160 ∧
    tsValAddress 4096 8 = 4160 ∧
    (execStmts runBeforePutI
      [Stmt.setTSValDynamic (IRExpr.Const 8) (IRExpr.Const 77),
       Stmt.getTSValDynamic 50 (IRExpr.Const 8),
       Stmt.getTSVal 51 8]).env 50 = 0 ∧
    (execStmts runBeforePutI
      [Stmt.setTSValDynamic (IRExpr.Const 8) (IRExpr.Const 77),
       Stmt.getTSValDynamic 50 (IRExpr.Const 8),
       Stmt.getTSVal 51 8]).env 51 = 77 ∧
    (execStmts runAfterDoubleOp
      (instrumentPutI instrAfterFloatOp (IRExpr.RdTmp 5) 0 64 8 8 (IRExpr.RdTmp 7) 1).stmts
      ).s.shadowThreadState 64 = 1 ∧
    (execStmts runAfterDoubleOp
      (instrumentGetI readsTemp
        (instrumentPutI instrAfterFloatOp (IRExpr.RdTmp 5) 0 64 8 8 (IRExpr.RdTmp 7) 1)
        9 (IRExpr.RdTmp 5) 0 64 8 1).stmts).s.shadowTemps 9 = 0 := by
  decide

/-! ## Suppression on the op ASTs that `updateAST` builds -/

/-- The value `executeChannelShadowOp` returns is never null when the free list
of values is well formed: on either path it is the box `mkShadowValueBare`
hands out. -/
theorem executeChannelShadowOp_nonnull {E R X : Type} (o : ShadowOpOptions)
    (f : ShadowOpHelpers E R X) (op_code : IROp) (opinfo : Nat) (args : Nat → Nat)
    (clientArgs : Nat → CDouble) (clientResult : CDouble) (t : ShadowOpState E R X)
    (l : List Nat) (hfree : FreeValsAre t.s l) :
    (executeChannelShadowOp o f op_code opinfo args clientArgs clientResult t).2 ≠ 0 := by
  obtain ⟨l1, hm⟩ := mkShadowValue_made t.s l (f.opArgPrecision op_code).toFloatType
    (f.toReal clientResult) hfree
  have hnn := hm.nonnull
  unfold executeChannelShadowOp
  dsimp only
  split_ifs <;> exact hnn

end Herbgrind
